import Mathlib

/-!
# mess-splash: the SVG path parser, the rotation and the rasterizer

A shallow embedding of the path parser (`svg_parser.c`), of the rotation and the
scan-line rasterizer (`svg_renderer.c`), of the pixel store (`fbsplash.c`) and
of the rotation read from the device tree (`dt_rotation.c`) of the boot-splash
renderer, and the properties of them that the specification states.

Conventions of the embedding

* A C string is the list of its characters before the terminating NUL.  A
  character outside ASCII stands for its bytes, which are in no character class.
* `float` is IEEE-754 binary32 and `double` is binary64.  Every operation is
  rounded on its own, to nearest and ties to even (no excess precision, no fused
  multiply-add).  A finite value is kept exactly, as an odd integer times a power
  of two; the two zeros are not told apart.
* The functions of the C library (`isspace`, `isalpha`, `strtof`, `sscanf`) are
  those of the "C" locale; `strtof` rounds correctly, and a `%d` conversion reads
  a number that fits an `int`.
* `malloc` and `realloc` succeed, so a point buffer is a list that grows.
* A loop that the C code may run for ever is given fuel, and running out of
  fuel is a result of its own (`Fault.fuel`).  Reading outside an array (the
  array of sub-paths, the tables of sines and cosines) is a result of its own
  too (`Fault.out_of_bounds`).
* An `int` has 32 bits and a `uint32_t` field holds a natural number; the
  conversion of a `uint32_t` to `int` is taken modulo `2 ^ 32`.  The counter of a
  `for` loop over `int` does not overflow.
* What the C standard leaves open in the rasterizer is a parameter
  (`Platform`): the value of the cast `(int)x` of a `float` that is a NaN or out
  of the range of `int`, and the order in which `qsort` leaves entries that
  compare equal.
* The rasterizer does not write to the frame buffer itself: it calls
  `set_pixel`, and its embedding returns the list of these calls in order.
  `set_pixels` applies such a list to a frame buffer.
* The frame buffer is the list of the mapped bytes.  A `uint32_t` is stored in
  four bytes, least significant byte first; a store that is not inside the
  mapped bytes is a result of its own (`Fault.out_of_bounds`).  The arithmetic on
  `uint32_t` that gives the byte offset of a pixel is modulo `2 ^ 32`.
* A `static` variable that outlives a call is an argument and a result of the
  embedded function: the two points of the parser (`Globals`) and the flag
  `first_path` of `render_svg_path`.
-/

namespace MessSplash

/-! ## IEEE-754 values and rounding -/

/-- An IEEE-754 value: the finite number `m * 2 ^ e`, an infinity, or a NaN. -/
inductive Fp where
  | fin (m : Int) (e : Int)
  | inf (neg : Bool)
  | nan
deriving DecidableEq, Repr

/-- A binary interchange format: precision in bits, exponent of the smallest
subnormal quantum, and the exponent at which the range overflows. -/
structure Fmt where
  prec : Nat
  qmin : Int
  emax : Nat
deriving DecidableEq, Repr

/-- The format of the C type `float`. -/
def binary32 : Fmt := ⟨24, -149, 128⟩

/-- The format of the C type `double`. -/
def binary64 : Fmt := ⟨53, -1074, 1024⟩

/-- Loop of `ilog2`: halve until the number is below two. -/
def ilog2_loop : Nat → Nat → Nat
  | 0, _ => 0
  | fuel + 1, n => if n < 2 then 0 else ilog2_loop fuel (n / 2) + 1

/-- The position of the leading bit of `n`, that is `floor (log2 n)`, and `0` at `0`. -/
def ilog2 (n : Nat) : Nat := ilog2_loop n n

/-- Round the positive rational `n / d` to an integer multiple `k * 2 ^ q` of the
quantum of its binade, to nearest and ties to even. -/
def roundPos (f : Fmt) (n d : Nat) : Nat × Int :=
  let e0 : Int := (ilog2 n : Int) - (ilog2 d : Int)
  let below : Bool :=
    if 0 ≤ e0 then decide (n < d * 2 ^ e0.toNat) else decide (n * 2 ^ (-e0).toNat < d)
  let e : Int := if below then e0 - 1 else e0
  let q : Int := max (e - ((f.prec : Int) - 1)) f.qmin
  let N : Nat := if q < 0 then n * 2 ^ (-q).toNat else n
  let D : Nat := if q < 0 then d else d * 2 ^ q.toNat
  let k : Nat := N / D
  let r : Nat := N % D
  let k1 : Nat :=
    if 2 * r < D then k else if D < 2 * r then k + 1 else if k % 2 = 0 then k else k + 1
  (k1, q)

/-- The canonical finite value `k * 2 ^ q`, sign applied: the mantissa is odd,
and zero is `fin 0 0`. -/
def mkFin (neg : Bool) (k : Nat) (q : Int) : Fp :=
  if k = 0 then Fp.fin 0 0
  else
    let g : Nat := Nat.gcd k (2 ^ ilog2 k)
    let m : Nat := k / g
    Fp.fin (if neg then -(m : Int) else (m : Int)) (q + (ilog2 g : Int))

/-- The rational `n / d` (with `0 < d`) rounded into the format `f`. -/
def roundRat (f : Fmt) (n : Int) (d : Nat) : Fp :=
  if n = 0 then Fp.fin 0 0
  else
    let kq := roundPos f n.natAbs d
    let over : Bool := decide ((f.emax : Int) ≤ (ilog2 kq.1 : Int) + kq.2)
    if over then Fp.inf (decide (n < 0)) else mkFin (decide (n < 0)) kq.1 kq.2

/-- The dyadic `m * 2 ^ e` rounded into the format `f`. -/
def roundDyadic (f : Fmt) (m e : Int) : Fp :=
  if 0 ≤ e then roundRat f (m * 2 ^ e.toNat) 1 else roundRat f m (2 ^ (-e).toNat)

/-- Conversion of a value to the format `f` (a C cast between `float` and `double`). -/
def Fp.cvt (f : Fmt) : Fp → Fp
  | .fin m e => roundDyadic f m e
  | v => v

/-- Is the value negative (zero counts as not negative). -/
def Fp.isNeg : Fp → Bool
  | .fin m _ => decide (m < 0)
  | .inf neg => neg
  | .nan => false

/-- Is the value a zero. -/
def Fp.isZero : Fp → Bool
  | .fin m _ => decide (m = 0)
  | _ => false

/-- Negation. -/
def Fp.neg : Fp → Fp
  | .fin m e => .fin (-m) e
  | .inf neg => .inf (!neg)
  | .nan => .nan

/-- Addition, rounded into the format `f`. -/
def Fp.add (f : Fmt) : Fp → Fp → Fp
  | .fin m1 e1, .fin m2 e2 =>
      let e := min e1 e2
      roundDyadic f (m1 * 2 ^ (e1 - e).toNat + m2 * 2 ^ (e2 - e).toNat) e
  | .nan, _ => .nan
  | _, .nan => .nan
  | .inf s, .inf s2 => if s = s2 then .inf s else .nan
  | .inf s, .fin _ _ => .inf s
  | .fin _ _, .inf s => .inf s

/-- Subtraction, rounded into the format `f`. -/
def Fp.sub (f : Fmt) (a b : Fp) : Fp := Fp.add f a b.neg

/-- Multiplication, rounded into the format `f`. -/
def Fp.mul (f : Fmt) : Fp → Fp → Fp
  | .fin m1 e1, .fin m2 e2 => roundDyadic f (m1 * m2) (e1 + e2)
  | .nan, _ => .nan
  | _, .nan => .nan
  | .inf s, b => if b.isZero then .nan else .inf (xor s b.isNeg)
  | a, .inf s => if a.isZero then .nan else .inf (xor a.isNeg s)

/-- The comparison `a <= b` of C: false as soon as an operand is a NaN. -/
def Fp.le : Fp → Fp → Bool
  | .fin m1 e1, .fin m2 e2 =>
      let e := min e1 e2
      decide (m1 * 2 ^ (e1 - e).toNat ≤ m2 * 2 ^ (e2 - e).toNat)
  | .nan, _ => false
  | _, .nan => false
  | .inf s, .inf s2 => s || !s2
  | .inf s, .fin _ _ => s
  | .fin _ _, .inf s => !s

/-- Division, rounded into the format `f`.  A finite value divided by zero is
an infinity with the sign of the dividend (the zero is taken as positive). -/
def Fp.div (f : Fmt) : Fp → Fp → Fp
  | .fin m1 e1, .fin m2 e2 =>
      if m2 = 0 then (if m1 = 0 then .nan else .inf (decide (m1 < 0)))
      else
        let n : Int := if m2 < 0 then -m1 else m1
        if 0 ≤ e1 - e2 then roundRat f (n * 2 ^ (e1 - e2).toNat) m2.natAbs
        else roundRat f n (m2.natAbs * 2 ^ (e2 - e1).toNat)
  | .nan, _ => .nan
  | _, .nan => .nan
  | .inf _, .inf _ => .nan
  | .inf s, .fin m _ => .inf (xor s (decide (m < 0)))
  | .fin _ _, .inf _ => .fin 0 0

/-- The comparison `a < b` of C: false as soon as an operand is a NaN. -/
def Fp.lt : Fp → Fp → Bool
  | .fin m1 e1, .fin m2 e2 =>
      let e := min e1 e2
      decide (m1 * 2 ^ (e1 - e).toNat < m2 * 2 ^ (e2 - e).toNat)
  | .nan, _ => false
  | _, .nan => false
  | .inf s, .inf s2 => s && !s2
  | .inf s, .fin _ _ => s
  | .fin _ _, .inf s => !s

/-- The comparison `a == b` of C: false as soon as an operand is a NaN. -/
def Fp.eq : Fp → Fp → Bool
  | .fin m1 e1, .fin m2 e2 =>
      let e := min e1 e2
      decide (m1 * 2 ^ (e1 - e).toNat = m2 * 2 ^ (e2 - e).toNat)
  | .inf s, .inf s2 => decide (s = s2)
  | _, _ => false

/-- The exact rational value of a finite value. -/
def Fp.toRat : Fp → Option ℚ
  | .fin m e => some ((m : ℚ) * (2 : ℚ) ^ e)
  | _ => none

/-- The C type `float`. -/
def F32 : Type := Fp

instance : DecidableEq F32 := inferInstanceAs (DecidableEq Fp)
instance : Repr F32 := inferInstanceAs (Repr Fp)
instance : Inhabited F32 := ⟨Fp.fin 0 0⟩

/-- An integer constant converted to `float`. -/
def F32.ofNat (n : Nat) : F32 := roundRat binary32 (n : Int) 1

instance (n : Nat) : OfNat F32 n := ⟨F32.ofNat n⟩
instance : Add F32 := ⟨Fp.add binary32⟩
instance : Sub F32 := ⟨Fp.sub binary32⟩
instance : Mul F32 := ⟨Fp.mul binary32⟩

instance : Div F32 := ⟨Fp.div binary32⟩

/-- An `int` or `uint32_t` converted to `float`. -/
def F32.ofInt (n : Int) : F32 := roundRat binary32 n 1

/-- The conversion of an integer to the C type `int`, modulo `2 ^ 32`. -/
def to_int32 (n : Int) : Int :=
  let r := n % 2 ^ 32
  if r < 2 ^ 31 then r else r - 2 ^ 32

/-- A `float` with its fraction discarded, as the cast `(int)x` does: `none`
for an infinity and a NaN. -/
def Fp.trunc : Fp → Option Int
  | .fin m e => some (if 0 ≤ e then m * 2 ^ e.toNat else Int.tdiv m (2 ^ (-e).toNat))
  | _ => none

/-- The double constant `0.1`. -/
def dbl_0_1 : Fp := roundRat binary64 1 10

/-- The update `t += 0.1` of a `float t`: the sum is formed in `double` and
converted back to `float`. -/
def float_add_0_1 (t : F32) : F32 :=
  Fp.cvt binary32 (Fp.add binary64 (Fp.cvt binary64 t) dbl_0_1)

/-! ## The C library: character classes, `strtof`, `sscanf` -/

/-- The character class `isspace` in the C locale. -/
def isspace (c : Char) : Bool :=
  c.toNat = 32 || (decide (9 ≤ c.toNat) && decide (c.toNat ≤ 13))

/-- The character class `isalpha` in the C locale. -/
def isalpha (c : Char) : Bool :=
  (decide (65 ≤ c.toNat) && decide (c.toNat ≤ 90)) ||
    (decide (97 ≤ c.toNat) && decide (c.toNat ≤ 122))

/-- The character class `isdigit`. -/
def isdigit (c : Char) : Bool :=
  decide (48 ≤ c.toNat) && decide (c.toNat ≤ 57)

/-- The character class `isxdigit`. -/
def isxdigit (c : Char) : Bool :=
  isdigit c || (decide (65 ≤ c.toNat) && decide (c.toNat ≤ 70)) ||
    (decide (97 ≤ c.toNat) && decide (c.toNat ≤ 102))

/-- The character class `isalnum` in the C locale. -/
def isalnum (c : Char) : Bool := isalpha c || isdigit c

/-- The function `tolower` on the letters of the C locale. -/
def tolower (c : Char) : Char :=
  if decide (65 ≤ c.toNat) && decide (c.toNat ≤ 90) then Char.ofNat (c.toNat + 32) else c

/-- The value of a digit in base 16 (and so in base 10). -/
def digit_val (c : Char) : Nat :=
  if isdigit c then c.toNat - 48
  else if decide (97 ≤ c.toNat) then c.toNat - 87
  else c.toNat - 55

/-- The number written by a run of digits in the given base. -/
def digits_val (base : Nat) (ds : List Char) : Nat :=
  ds.foldl (fun acc c => acc * base + digit_val c) 0

/-- Does the text start with the lower-case word `w`, letter case ignored. -/
def starts_with_nocase (w : List Char) (s : List Char) : Bool :=
  decide (w.length ≤ s.length) && decide ((s.take w.length).map tolower = w)

/-- An optional sign: whether it is a minus, and the text after it. -/
def opt_sign (s : List Char) : Bool × List Char :=
  match s with
  | c :: r => if c = '-' then (true, r) else if c = '+' then (false, r) else (false, s)
  | [] => (false, s)

/-- The optional exponent part of a number: the marker (`e` or `p`, either
case), an optional sign and at least one decimal digit.  Without a digit the
marker is not part of the number. -/
def opt_exponent (marker : Char) (s : List Char) : Int × List Char :=
  match s with
  | c :: r =>
      if tolower c = marker then
        let sg := opt_sign r
        let ds := sg.2.takeWhile isdigit
        if ds = [] then (0, s)
        else
          let v : Int := (digits_val 10 ds : Int)
          (if sg.1 then -v else v, sg.2.dropWhile isdigit)
      else (0, s)
  | [] => (0, s)

/-- After `nan`: an optional `(n-char-sequence)`. -/
def nan_payload (s : List Char) : List Char :=
  match s with
  | c :: r =>
      if c = '(' then
        match r.dropWhile (fun d => isalnum d || d = '_') with
        | d :: r2 => if d = ')' then r2 else s
        | [] => s
      else s
  | [] => s

/-- The number `± n * base ^ x` as a `float`, correctly rounded. -/
def scaled_float (neg : Bool) (n : Nat) (base : Nat) (x : Int) : F32 :=
  let m : Int := if neg then -(n : Int) else (n : Int)
  if 0 ≤ x then roundRat binary32 (m * (base : Int) ^ x.toNat) 1
  else roundRat binary32 m (base ^ (-x).toNat)

/-- Is the next character the decimal point. -/
def starts_with_point : List Char → Bool
  | c :: _ => decide (c = '.')
  | [] => false

/-- The decimal form of `strtof`, after white space and sign: digits with an
optional point and an optional exponent.  `none` when there is no digit. -/
def strtof_decimal (neg : Bool) (s : List Char) : Option (F32 × List Char) :=
  let ip := s.takeWhile isdigit
  let r1 := s.dropWhile isdigit
  let hasPoint : Bool := starts_with_point r1
  let fp := if hasPoint then (r1.drop 1).takeWhile isdigit else []
  let r2 := if hasPoint then (r1.drop 1).dropWhile isdigit else r1
  if ip = [] ∧ fp = [] then none
  else
    let ex := opt_exponent 'e' r2
    some (scaled_float neg (digits_val 10 (ip ++ fp)) 10 (ex.1 - (fp.length : Int)), ex.2)

/-- The hexadecimal form of `strtof`, after white space, sign and `0x`.  `none`
when no hexadecimal digit follows. -/
def strtof_hex (neg : Bool) (s : List Char) : Option (F32 × List Char) :=
  let ip := s.takeWhile isxdigit
  let r1 := s.dropWhile isxdigit
  let hasPoint : Bool := starts_with_point r1
  let fp := if hasPoint then (r1.drop 1).takeWhile isxdigit else []
  let r2 := if hasPoint then (r1.drop 1).dropWhile isxdigit else r1
  if ip = [] ∧ fp = [] then none
  else
    let ex := opt_exponent 'p' r2
    some (scaled_float neg (digits_val 16 (ip ++ fp)) 2 (ex.1 - 4 * (fp.length : Int)), ex.2)

/-- The C library function `strtof`: the value converted and the text left
(`*endptr`).  When no number can be read the value is zero and nothing is
consumed, the white space skipped included. -/
def strtof (s : List Char) : F32 × List Char :=
  let sg := opt_sign (s.dropWhile isspace)
  let neg := sg.1
  let b := sg.2
  if starts_with_nocase "infinity".toList b then (Fp.inf neg, b.drop 8)
  else if starts_with_nocase "inf".toList b then (Fp.inf neg, b.drop 3)
  else if starts_with_nocase "nan".toList b then (Fp.nan, nan_payload (b.drop 3))
  else
    let hex : Option (F32 × List Char) :=
      if starts_with_nocase "0x".toList b then strtof_hex neg (b.drop 2) else none
    match hex with
    | some r => r
    | none =>
        match strtof_decimal neg b with
        | some r => r
        | none => (Fp.fin 0 0, s)

/-- The conversion `%d` of `sscanf`: white space is skipped, then an optional
sign and at least one digit are read.  `none` is a matching failure. -/
def scan_int (s : List Char) : Option (Int × List Char) :=
  let sg := opt_sign (s.dropWhile isspace)
  let ds := sg.2.takeWhile isdigit
  if ds = [] then none
  else
    let v : Int := (digits_val 10 ds : Int)
    some (if sg.1 then -v else v, sg.2.dropWhile isdigit)

/-- A literal character of a `sscanf` format: it has to be the next character. -/
def scan_lit (c : Char) (s : List Char) : Option (List Char) :=
  match s with
  | d :: r => if d = c then some r else none
  | [] => none

/-- The number of conversions `sscanf(s, "rgb(%d,%d,%d)", &r, &g, &b)` assigns,
and the values assigned (zero stands for a variable left unassigned). -/
def sscanf_rgb (s : List Char) : Nat × Int × Int × Int :=
  match (scan_lit 'r' s).bind (scan_lit 'g') |>.bind (scan_lit 'b') |>.bind (scan_lit '(') with
  | none => (0, 0, 0, 0)
  | some s1 =>
    match scan_int s1 with
    | none => (0, 0, 0, 0)
    | some (r, s2) =>
      match (scan_lit ',' s2).bind scan_int with
      | none => (1, r, 0, 0)
      | some (g, s3) =>
        match (scan_lit ',' s3).bind scan_int with
        | none => (2, r, g, 0)
        | some (b, _) => (3, r, g, b)

/-- The conversion `(uint8_t)v` of an `int`. -/
def to_uint8 (v : Int) : Nat := (v % 256).toNat

/-! ## The data model (`svg_types.h`) -/

/-- A 2D coordinate. -/
structure Point where
  x : F32
  y : F32
deriving DecidableEq, Repr

/-- A series of connected points.  `num_points` is the length of `points`; the
allocated capacity is not kept. -/
structure Path where
  points : List Point
  is_hole : Bool
deriving DecidableEq, Repr

/-- RGBA colour, each component a `uint8_t`. -/
structure Color where
  r : Nat
  g : Nat
  b : Nat
  a : Nat
deriving DecidableEq, Repr

/-- A complete SVG path: sub-paths and a fill colour.  `num_paths` is the
length of `paths`. -/
structure SVGPath where
  paths : List Path
  fill_color : Color
deriving DecidableEq, Repr

/-! ## The parser (`svg_parser.c`) -/

/-- The bound on the number of sub-paths of one path. -/
def MAX_SUBPATHS : Nat := 10

/-- The compound path under construction: `MAX_SUBPATHS` slots and a count. -/
structure CompoundPath where
  paths : List Path
  num_paths : Nat
deriving DecidableEq, Repr

/-- How a run of the parser or of the rotation can fail to return a shape. -/
inductive Fault where
  | fuel
  | out_of_bounds
deriving DecidableEq, Repr

deriving instance DecidableEq for Except

/-- The file-scope variables `current_point` and `start_point`, which outlive a call. -/
structure Globals where
  current_point : Point
  start_point : Point
deriving DecidableEq, Repr

/-- The value of the file-scope variables when the program starts. -/
def Globals.initial : Globals := ⟨⟨0, 0⟩, ⟨0, 0⟩⟩

/-- The variables of `parse_svg_path` inside its command loop: the text left,
the active command, the flag `new_subpath`, the compound path, the slot
`current_path` points to, and the two file-scope points. -/
structure PState where
  p : List Char
  command : Char
  new_subpath : Bool
  compound : CompoundPath
  current_path : Nat
  current_point : Point
  start_point : Point
deriving DecidableEq, Repr

/-- What `parse_number` skips before a number: white space or a comma. -/
def is_sep (c : Char) : Bool := isspace c || c = ','

/-- The function `parse_number`: white space and commas are skipped, then
`strtof` reads a number. -/
def parse_number (s : List Char) : F32 × List Char :=
  strtof (s.dropWhile is_sep)

/-- The function `add_point_to_path`. -/
def add_point_to_path (path : Path) (x y : F32) : Path :=
  { path with points := path.points ++ [⟨x, y⟩] }

/-- The slot `current_path` points to. -/
def PState.cur (s : PState) : Path :=
  s.compound.paths.getD s.current_path ⟨[], false⟩

/-- The call `add_point_to_path(current_path, x, y)`. -/
def PState.add_point (s : PState) (x y : F32) : PState :=
  { s with compound :=
      { s.compound with
        paths := s.compound.paths.set s.current_path (add_point_to_path s.cur x y) } }

/-- One coordinate of the cubic Bezier formula, as the C expression writes it. -/
def cubic_bezier {K : Type} [Add K] [Sub K] [Mul K] [OfNat K 1] [OfNat K 3]
    (p0 c1 c2 p3 t : K) : K :=
  let t_squared := t * t
  let t_cubed := t_squared * t
  let mt := 1 - t
  let mt_squared := mt * mt
  let mt_cubed := mt_squared * mt
  p0 * mt_cubed + 3 * c1 * mt_squared * t + 3 * c2 * mt * t_squared + p3 * t_cubed

/-- The loop `for (float t = 0; t <= 1; t += 0.1)` of the `C` command, entered
with the given `t`. -/
def cubic_loop (x1 y1 x2 y2 x3 y3 : F32) : Nat → F32 → PState → Except Fault PState
  | 0, _, _ => .error .fuel
  | fuel + 1, t, s =>
      if Fp.le t (1 : F32) then
        let px := cubic_bezier s.current_point.x x1 x2 x3 t
        let py := cubic_bezier s.current_point.y y1 y2 y3 t
        cubic_loop x1 y1 x2 y2 x3 y3 fuel (float_add_0_1 t) (s.add_point px py)
      else .ok s

/-- The `switch (command)` of the command loop. -/
def process_command (fuel : Nat) (s : PState) : Except Fault PState :=
  if s.command = 'M' then
    let n1 := parse_number s.p
    let n2 := parse_number n1.2
    let s1 := { s with p := n2.2 }.add_point n1.1 n2.1
    .ok { s1 with current_point := ⟨n1.1, n2.1⟩, start_point := ⟨n1.1, n2.1⟩, command := 'L' }
  else if s.command = 'L' then
    let n1 := parse_number s.p
    let n2 := parse_number n1.2
    let s1 := { s with p := n2.2 }.add_point n1.1 n2.1
    .ok { s1 with current_point := ⟨n1.1, n2.1⟩ }
  else if s.command = 'H' then
    let n1 := parse_number s.p
    let s1 := { s with p := n1.2 }.add_point n1.1 s.current_point.y
    .ok { s1 with current_point := ⟨n1.1, s.current_point.y⟩ }
  else if s.command = 'V' then
    let n1 := parse_number s.p
    let s1 := { s with p := n1.2 }.add_point s.current_point.x n1.1
    .ok { s1 with current_point := ⟨s.current_point.x, n1.1⟩ }
  else if s.command = 'Z' ∨ s.command = 'z' then
    if 0 < s.cur.points.length then .ok (s.add_point s.start_point.x s.start_point.y)
    else .ok s
  else if s.command = 'C' then
    let n1 := parse_number s.p
    let n2 := parse_number n1.2
    let n3 := parse_number n2.2
    let n4 := parse_number n3.2
    let n5 := parse_number n4.2
    let n6 := parse_number n5.2
    match cubic_loop n1.1 n2.1 n3.1 n4.1 n5.1 n6.1 fuel (0 : F32) { s with p := n6.2 } with
    | .error e => .error e
    | .ok s1 => .ok { s1 with current_point := ⟨n5.1, n6.1⟩ }
  else
    .ok { s with p := s.p.dropWhile (fun c => !isalpha c) }

/-- The handling of a command letter at `*p`: a new sub-path is opened on an `M`
that follows another command when the active sub-path has a point, then the
letter becomes the active command. -/
def take_letter (c : Char) (rest : List Char) (s : PState) : PState :=
  let s1 : PState :=
    if c = 'M' ∧ s.new_subpath = false then
      if 0 < s.cur.points.length then
        let n := s.compound.num_paths + 1
        if n < MAX_SUBPATHS then
          { s with
            compound := ⟨s.compound.paths.set n ⟨[], true⟩, n⟩
            current_path := n }
        else { s with compound := { s.compound with num_paths := n } }
      else s
    else s
  { s1 with p := rest, command := c, new_subpath := decide (c = 'M') }

/-- One pass through the body of `while (*p)`. -/
def loop_body (fuel : Nat) (s : PState) : Except Fault PState :=
  match s.p with
  | [] => .ok s
  | c :: rest =>
      let s1 := if isalpha c then take_letter c rest s else s
      match process_command fuel s1 with
      | .error e => .error e
      | .ok s2 => .ok { s2 with p := s2.p.dropWhile isspace }

/-- The loop `while (*p)`. -/
def parse_loop : Nat → PState → Except Fault PState
  | 0, s => if s.p = [] then .ok s else .error .fuel
  | fuel + 1, s =>
      if s.p = [] then .ok s
      else
        match loop_body fuel s with
        | .error e => .error e
        | .ok s1 => parse_loop fuel s1

/-- The loop of `add_compound_path_to_svg`, from index `i` with `n` passes
left.  Reading a slot the compound path does not have is a fault. -/
def add_compound_loop (compound : CompoundPath) : Nat → Nat → SVGPath → Except Fault SVGPath
  | 0, _, svg => .ok svg
  | n + 1, i, svg =>
      match compound.paths.get? i with
      | none => .error .out_of_bounds
      | some path =>
          add_compound_loop compound n (i + 1)
            { svg with paths := svg.paths ++ [{ path with is_hole := decide (0 < i) }] }

/-- The function `add_compound_path_to_svg`. -/
def add_compound_path_to_svg (svg : SVGPath) (compound : CompoundPath) : Except Fault SVGPath :=
  add_compound_loop compound compound.num_paths 0 svg

/-- The function `parse_color`. -/
def parse_color (color_str : List Char) : Color :=
  if "rgb(".toList <+: color_str then
    let r := sscanf_rgb color_str
    if r.1 = 3 then ⟨to_uint8 r.2.1, to_uint8 r.2.2.1, to_uint8 r.2.2.2, 255⟩
    else ⟨0, 0, 0, 255⟩
  else ⟨0, 0, 0, 255⟩

/-- The state in which `parse_svg_path` enters its command loop. -/
def initial_state (g : Globals) (path_data : List Char) : PState :=
  { p := path_data
    command := 'M'
    new_subpath := true
    compound := ⟨List.replicate MAX_SUBPATHS ⟨[], false⟩, 0⟩
    current_path := 0
    current_point := g.current_point
    start_point := g.start_point }

/-- What `parse_svg_path` does once its command loop has ended. -/
def finish (style : List Char) (s : PState) : Except Fault (SVGPath × Globals) :=
  let compound : CompoundPath :=
    if 0 < s.cur.points.length then { s.compound with num_paths := s.compound.num_paths + 1 }
    else s.compound
  match add_compound_path_to_svg ⟨[], parse_color style⟩ compound with
  | .error e => .error e
  | .ok svg => .ok (svg, ⟨s.current_point, s.start_point⟩)

/-- The state after `n` passes through the body of the command loop. -/
def passes_from (fuel : Nat) : Nat → PState → Except Fault PState
  | 0, s => .ok s
  | n + 1, s =>
      match loop_body fuel s with
      | .error e => .error e
      | .ok s1 => passes_from fuel n s1

/-- The command loop entered in the state `s`, and then the end of `parse_svg_path`. -/
def run_from (fuel : Nat) (style : List Char) (s : PState) : Except Fault (SVGPath × Globals) :=
  match parse_loop fuel s with
  | .error e => .error e
  | .ok s1 => finish style s1

/-- The function `parse_svg_path`, run with the file-scope variables `g`: the
shape returned and the file-scope variables left behind. -/
def parse_svg_path (fuel : Nat) (g : Globals) (path_data style : List Char) :
    Except Fault (SVGPath × Globals) :=
  run_from fuel style (initial_state g path_data)

/-! ## Path and colour texts -/

/-- The character of a decimal digit. -/
def digit_char (d : Fin 10) : Char := Char.ofNat (48 + d.val)

/-- The number a list of decimal digits writes, most significant digit first. -/
def dec_val (ds : List (Fin 10)) : Nat :=
  ds.foldl (fun acc d => acc * 10 + d.val) 0

/-- A decimal numeral as it is written: an optional minus sign, the digits
`d0 ds` before the point and, when `fp` is not empty, a point and the digits
`fp` after it. -/
structure Numeral where
  neg : Bool
  d0 : Fin 10
  ds : List (Fin 10)
  fp : List (Fin 10)
deriving DecidableEq, Repr

/-- The characters of a numeral. -/
def Numeral.text (n : Numeral) : List Char :=
  (if n.neg then ['-'] else []) ++
    ((n.d0 :: n.ds).map digit_char ++
      (if n.fp = [] then [] else '.' :: n.fp.map digit_char))

/-- The `float` a numeral denotes: the decimal fraction it writes, rounded to nearest. -/
def Numeral.toFloat (n : Numeral) : F32 :=
  roundRat binary32
    (if n.neg then -(dec_val (n.d0 :: n.ds ++ n.fp) : Int) else (dec_val (n.d0 :: n.ds ++ n.fp) : Int))
    (10 ^ n.fp.length)

/-- The point two numerals denote. -/
def to_point (p : Numeral × Numeral) : Point := ⟨p.1.toFloat, p.2.toFloat⟩

/-- May a number end before this text: the text is empty, or its first
character can neither continue a number nor start an exponent or a
hexadecimal prefix. -/
def stops_number : List Char → Bool
  | [] => true
  | c :: _ => !isdigit c && !decide (c = '.') && !decide (tolower c = 'e') &&
      !decide (tolower c = 'x')

/-- A point written as two numerals with the separator `sep` between them. -/
def point_text (sep : List Char) (p : Numeral × Numeral) : List Char :=
  p.1.text ++ (sep ++ p.2.text)

/-- The text `L x y` of each point, each preceded by a blank. -/
def lineto_text (sep : List Char) : List (Numeral × Numeral) → List Char
  | [] => []
  | p :: ps => ' ' :: 'L' :: ' ' :: (point_text sep p ++ lineto_text sep ps)

/-- The text `M p0 L p1 ... L pn Z`. -/
def polyline_text (sep : List Char) (p0 : Numeral × Numeral) (ps : List (Numeral × Numeral)) :
    List Char :=
  'M' :: ' ' :: (point_text sep p0 ++ (lineto_text sep ps ++ [' ', 'Z']))

/-- Bare coordinate pairs, each preceded by a blank. -/
def bare_pairs (sep : List Char) : List (Numeral × Numeral) → List Char
  | [] => []
  | p :: ps => ' ' :: (point_text sep p ++ bare_pairs sep ps)

/-- The text `M p0 p1 ... pn`: the pairs after the move carry no command letter. -/
def bare_text (sep : List Char) (p0 : Numeral × Numeral) (ps : List (Numeral × Numeral)) :
    List Char :=
  'M' :: ' ' :: (point_text sep p0 ++ bare_pairs sep ps)

/-- The text `M p0 L p1 ... L pn`. -/
def moveto_lineto_text (sep : List Char) (p0 : Numeral × Numeral)
    (ps : List (Numeral × Numeral)) : List Char :=
  'M' :: ' ' :: (point_text sep p0 ++ lineto_text sep ps)

/-- Numerals as operands, each preceded by a blank. -/
def operands_text : List Numeral → List Char
  | [] => []
  | n :: ns => ' ' :: (n.text ++ operands_text ns)

/-- The values the `float t` of the loop of the `C` command takes while `t <= 1`
holds, starting from `0`: there are ten of them, the last a little above `0.9`. -/
def cubic_ts : List F32 :=
  [Fp.fin 0 0, Fp.fin 13421773 (-27), Fp.fin 13421773 (-26), Fp.fin 5033165 (-24),
    Fp.fin 13421773 (-25), Fp.fin 1 (-1), Fp.fin 5033165 (-23), Fp.fin 2936013 (-22),
    Fp.fin 6710887 (-23), Fp.fin 1887437 (-21)]

/-- Is `ts` the run of values of `t` in `for (t = t0; t <= 1; t += 0.1)`. -/
def is_t_run : F32 → List F32 → Bool
  | t, [] => !Fp.le t (1 : F32)
  | t, u :: us => decide (u = t) && Fp.le t (1 : F32) && is_t_run (float_add_0_1 t) us

/-- The states after `add_point_to_path(current_path, ...)` on each point in turn. -/
def PState.add_points (s : PState) (pts : List Point) : PState :=
  pts.foldl (fun a q => a.add_point q.x q.y) s

/-- The samples of the cubic curve from `p0` with control points `c1`, `c2` and
end point `p3`, one for each value of `t`. -/
def cubic_samples (p0 c1 c2 p3 : Point) : List Point :=
  cubic_ts.map (fun t => ⟨cubic_bezier p0.x c1.x c2.x p3.x t, cubic_bezier p0.y c1.y c2.y p3.y t⟩)

/-- The exact rational coordinates of a point whose coordinates are finite. -/
def Point.toRat (q : Point) : Option (ℚ × ℚ) :=
  match Fp.toRat q.x, Fp.toRat q.y with
  | some a, some b => some (a, b)
  | _, _ => none

/-- Does `v` lie on the straight segment from `p0` to `p3`: `v = p0 + s * (p3 - p0)`
for some `s` with `0 ≤ s ≤ 1`, all coordinates finite. -/
def on_segment (p0 p3 v : Point) : Prop :=
  ∃ a b q : ℚ × ℚ, p0.toRat = some a ∧ p3.toRat = some b ∧ v.toRat = some q ∧
    ∃ s : ℚ, 0 ≤ s ∧ s ≤ 1 ∧ q.1 = a.1 + s * (b.1 - a.1) ∧ q.2 = a.2 + s * (b.2 - a.2)

/-- A command other than `M`, as it is written: its letter and its operands. -/
inductive Cmd where
  | lineto (x y : Numeral)
  | horizontal (x : Numeral)
  | vertical (y : Numeral)
  | close (lower : Bool)
  | cubic (x1 y1 x2 y2 x3 y3 : Numeral)
  | other (c : Char) (ops : List Numeral)
deriving DecidableEq, Repr

/-- The letter of a command. -/
def Cmd.letter : Cmd → Char
  | .lineto _ _ => 'L'
  | .horizontal _ => 'H'
  | .vertical _ => 'V'
  | .close lower => if lower then 'z' else 'Z'
  | .cubic _ _ _ _ _ _ => 'C'
  | .other c _ => c

/-- The operands of a command. -/
def Cmd.operands : Cmd → List Numeral
  | .lineto x y => [x, y]
  | .horizontal x => [x]
  | .vertical y => [y]
  | .close _ => []
  | .cubic x1 y1 x2 y2 x3 y3 => [x1, y1, x2, y2, x3, y3]
  | .other _ ops => ops

/-- The text of a command: its letter, then each operand preceded by a blank. -/
def Cmd.text (c : Cmd) : List Char := c.letter :: operands_text c.operands

/-- The text of commands, each preceded by a blank. -/
def cmds_text : List Cmd → List Char
  | [] => []
  | c :: cs => ' ' :: (c.text ++ cmds_text cs)

/-- A sub-path as it is written: the point of its `M` and the commands after it. -/
structure Subpath where
  start : Numeral × Numeral
  cmds : List Cmd
deriving DecidableEq, Repr

/-- The text of a sub-path: `M x y` and then its commands. -/
def Subpath.text (sp : Subpath) : List Char :=
  'M' :: (operands_text [sp.start.1, sp.start.2] ++ cmds_text sp.cmds)

/-- May a command end before this text: the text is empty, or it is a blank
followed by a letter. -/
def at_boundary : List Char → Bool
  | [] => true
  | c :: d :: _ => decide (c = ' ') && isalpha d
  | _ => false

/-- The text `rgb(R,G,B)`, the channels in decimal. -/
def rgb_text (r g b : Nat) : List Char :=
  'r' :: 'g' :: 'b' :: '(' :: (Nat.toDigits 10 r ++ (',' :: (Nat.toDigits 10 g ++
    (',' :: (Nat.toDigits 10 b ++ [')'])))))


/-- The text one `%d` conversion reads: white space, an optional sign, and at
least one digit. -/
def is_int_field (t : List Char) : Prop :=
  ∃ ws sg ds : List Char, t = ws ++ sg ++ ds ∧ (∀ c ∈ ws, isspace c = true) ∧
    (sg = [] ∨ sg = ['-'] ∨ sg = ['+']) ∧ ds ≠ [] ∧ (∀ c ∈ ds, isdigit c = true)

/-- A colour text that starts with `rgb(` and three integers separated by
commas; what follows the third integer is free. -/
def rgb_prefix_form (s : List Char) : Prop :=
  ∃ f1 f2 f3 rest : List Char, is_int_field f1 ∧ is_int_field f2 ∧ is_int_field f3 ∧
    s = 'r' :: 'g' :: 'b' :: '(' :: (f1 ++ ',' :: (f2 ++ ',' :: (f3 ++ rest)))

/-! ## The rotation and the rasterizer (`svg_renderer.c`, `fbsplash.h`) -/

/-- The fields of `struct fb_var_screeninfo` that the program reads. -/
structure fb_var_screeninfo where
  xres : Nat
  yres : Nat
  xoffset : Nat
  yoffset : Nat
  bits_per_pixel : Nat
deriving DecidableEq, Repr

/-- The field of `struct fb_fix_screeninfo` that the program reads. -/
structure fb_fix_screeninfo where
  line_length : Nat
deriving DecidableEq, Repr

/-- The frame buffer: the mapped bytes and the description of the surface. -/
structure Framebuffer where
  buffer : List Nat
  vinfo : fb_var_screeninfo
  finfo : fb_fix_screeninfo
  screensize : Nat
deriving DecidableEq, Repr

/-- The placement of the drawing on the screen (`DisplayInfo`). -/
structure DisplayInfo where
  screen_width : Nat
  screen_height : Nat
  svg_width : Nat
  svg_height : Nat
  x_offset : Nat
  y_offset : Nat
deriving DecidableEq, Repr

/-- The width of the authoring space. -/
def BASE_SVG_WIDTH : F32 := 1284

/-- The height of the authoring space. -/
def BASE_SVG_HEIGHT : F32 := 1284

/-- The capacity of the array of intersections of one scan row. -/
def MAX_INTERSECTIONS : Nat := 1000

/-- An intersection of a scan row with an edge. -/
structure Intersection where
  x : Int
  is_hole_edge : Bool
deriving DecidableEq, Repr

/-- The table of cosines of 0, 90, 180 and 270 degrees. -/
def rotation_cos : List F32 := [1, 0, Fp.neg (1 : F32), 0]

/-- The table of sines of 0, 90, 180 and 270 degrees. -/
def rotation_sin : List F32 := [0, 1, 0, Fp.neg (1 : F32)]

/-- Reading the entry of a table at an `int` index. -/
def table_at (t : List F32) (i : Int) : Except Fault F32 :=
  if i < 0 then .error .out_of_bounds
  else
    match t[i.toNat]? with
    | some v => .ok v
    | none => .error .out_of_bounds

/-- The new abscissa of a point: translate to the origin, rotate, translate back. -/
def rotate_x {K : Type} [Add K] [Sub K] [Mul K]
    (center_x center_y cos_angle sin_angle px py : K) : K :=
  let x := px - center_x
  let y := py - center_y
  let new_x := x * cos_angle - y * sin_angle
  new_x + center_x

/-- The new ordinate of a point: translate to the origin, rotate, translate back. -/
def rotate_y {K : Type} [Add K] [Sub K] [Mul K]
    (center_x center_y cos_angle sin_angle px py : K) : K :=
  let x := px - center_x
  let y := py - center_y
  let new_y := x * sin_angle + y * cos_angle
  new_y + center_y

/-- The body of the loops of `rotate_svg_path`, on one point. -/
def rotate_point (cos_angle sin_angle : F32) (p : Point) : Point :=
  let center_x : F32 := BASE_SVG_WIDTH / 2
  let center_y : F32 := BASE_SVG_HEIGHT / 2
  ⟨rotate_x center_x center_y cos_angle sin_angle p.x p.y,
   rotate_y center_x center_y cos_angle sin_angle p.x p.y⟩

/-- The two loops of `rotate_svg_path`: every point of every polygon rotated. -/
def rotate_points (cos_angle sin_angle : F32) (svg : SVGPath) : SVGPath :=
  { svg with paths := svg.paths.map fun path =>
      { path with points := path.points.map (rotate_point cos_angle sin_angle) } }

/-- The function `rotate_svg_path`: the shape with every point rotated.  The C
operators `/` and `%` on `int` round towards zero. -/
def rotate_svg_path (svg : SVGPath) (angle : Int) : Except Fault SVGPath :=
  let angle_index : Int := Int.tmod (Int.tdiv angle 90) 4
  match table_at rotation_cos angle_index with
  | .error f => .error f
  | .ok cos_angle =>
    match table_at rotation_sin angle_index with
    | .error f => .error f
    | .ok sin_angle =>
      .ok (rotate_points cos_angle sin_angle svg)

/-- What the C standard leaves to the platform: the value of the cast `(int)x`
of a `float` that is a NaN or beyond the range of `int`, and the function
`qsort` of the C library called with `compare_intersections`. -/
structure Platform where
  cast_undefined : F32 → Int
  qsort : List Intersection → List Intersection

/-- The cast `(int)x` of a `float`. -/
def float_to_int (pf : Platform) (v : F32) : Int :=
  match Fp.trunc v with
  | some t => if -2 ^ 31 ≤ t ∧ t < 2 ^ 31 then t else to_int32 (pf.cast_undefined v)
  | none => to_int32 (pf.cast_undefined v)

/-- A call `set_pixel(fb, x, y, color)`: the `int` arguments `x` and `y` as they
are before their conversion to `uint32_t`, and the colour. -/
structure PixelWrite where
  x : Int
  y : Int
  color : Nat
deriving DecidableEq, Repr

/-- The values of the counter of `for (int v = a; v <= b; v++)`. -/
def int_range (a b : Int) : List Int :=
  (List.range (b + 1 - a).toNat).map fun (i : Nat) => a + (i : Int)

/-- The variable `scale` of `render_path_with_holes`. -/
def render_scale (di : DisplayInfo) : F32 :=
  let scale_x : F32 := F32.ofInt di.svg_width / BASE_SVG_WIDTH
  let scale_y : F32 := F32.ofInt di.svg_height / BASE_SVG_HEIGHT
  if Fp.lt scale_x scale_y then scale_x else scale_y

/-- The variable `offset_x` of `render_path_with_holes`. -/
def render_offset_x (di : DisplayInfo) : F32 :=
  F32.ofInt di.x_offset + (F32.ofInt di.svg_width - BASE_SVG_WIDTH * render_scale di) / 2

/-- The variable `offset_y` of `render_path_with_holes`. -/
def render_offset_y (di : DisplayInfo) : F32 :=
  F32.ofInt di.y_offset + (F32.ofInt di.svg_height - BASE_SVG_HEIGHT * render_scale di) / 2

/-- One point in the loop that finds the rows of the shape: the pair
`(screen_min_y, screen_max_y)` updated. -/
def bounds_step (pf : Platform) (scale offset_y : F32) (acc : Int × Int) (p : Point) :
    Int × Int :=
  let y := float_to_int pf (p.y * scale + offset_y)
  (if y < acc.1 then y else acc.1, if y > acc.2 then y else acc.2)

/-- The pair `(screen_min_y, screen_max_y)` before it is clipped. -/
def screen_bounds (pf : Platform) (fb : Framebuffer) (svg : SVGPath) (scale offset_y : F32) :
    Int × Int :=
  svg.paths.foldl (fun acc path => path.points.foldl (bounds_step pf scale offset_y) acc)
    (to_int32 fb.vinfo.yres, 0)

/-- The edges of a polygon in the order of the loop on `j`: from point `j` to
point `(j + 1) % num_points`. -/
def edges (points : List Point) : List (Point × Point) :=
  (List.range points.length).map fun (j : Nat) =>
    (points.getD j ⟨0, 0⟩, points.getD ((j + 1) % points.length) ⟨0, 0⟩)

/-- The half-open test: does an edge from height `y1` to height `y2` cross the
scan row `y`. -/
def straddles (y1 y2 y : F32) : Bool :=
  (Fp.le y1 y && Fp.lt y y2) || (Fp.le y2 y && Fp.lt y y1)

/-- The abscissa at which an edge crosses the scan row `y`. -/
def edge_x (x1 y1 x2 y2 y : F32) : F32 :=
  if Fp.eq y1 y2 then x1 else x1 + (y - y1) * (x2 - x1) / (y2 - y1)

/-- The body of the loop on `j`: the array of intersections after the edge `e`
has been tested against the scan row `y`. -/
def scan_edge (pf : Platform) (scale offset_x offset_y : F32) (y : Int) (is_hole : Bool)
    (acc : List Intersection) (e : Point × Point) : List Intersection :=
  let y1 := e.1.y * scale + offset_y
  let y2 := e.2.y * scale + offset_y
  if straddles y1 y2 (F32.ofInt y) then
    let x1 := e.1.x * scale + offset_x
    let x2 := e.2.x * scale + offset_x
    if acc.length < MAX_INTERSECTIONS then
      acc ++ [⟨float_to_int pf (edge_x x1 y1 x2 y2 (F32.ofInt y)), is_hole⟩]
    else acc
  else acc

/-- The intersections of the scan row `y` with the edges of the shape, in the
order in which they are found. -/
def row_intersections (pf : Platform) (svg : SVGPath) (scale offset_x offset_y : F32)
    (y : Int) : List Intersection :=
  svg.paths.foldl
    (fun acc path => (edges path.points).foldl (scan_edge pf scale offset_x offset_y y path.is_hole) acc)
    []

/-- The colour of a shape as a `uint32_t`. -/
def pack_color (c : Color) : Nat :=
  ((c.r <<< 16) ||| (c.g <<< 8) ||| c.b) % 2 ^ 32

/-- The loop that fills between successive intersections of a sorted row: the
calls of `set_pixel` it makes, in order. -/
def fill_loop (fb : Framebuffer) (y : Int) (color : Nat) :
    List Intersection → Bool → Bool → List PixelWrite
  | a :: b :: rest, inside_main, inside_hole =>
    let inside_hole1 := if a.is_hole_edge then !inside_hole else inside_hole
    let inside_main1 := if a.is_hole_edge then inside_main else !inside_main
    let span : List PixelWrite :=
      if inside_main1 && !inside_hole1 then
        let x_start : Int := if a.x < 0 then 0 else a.x
        let x_end : Int :=
          if to_int32 fb.vinfo.xres ≤ b.x then to_int32 ((fb.vinfo.xres : Int) - 1) else b.x
        (int_range x_start x_end).map fun x => ⟨x, y, color⟩
      else []
    span ++ fill_loop fb y color (b :: rest) inside_main1 inside_hole1
  | _, _, _ => []

/-- One scan row: the calls of `set_pixel` made for the row `y`. -/
def render_row (pf : Platform) (fb : Framebuffer) (svg : SVGPath) (scale offset_x offset_y : F32)
    (y : Int) : List PixelWrite :=
  let intersections := row_intersections pf svg scale offset_x offset_y y
  if 0 < intersections.length then
    fill_loop fb y (pack_color svg.fill_color) (pf.qsort intersections) false false
  else []

/-- The function `render_path_with_holes`: the calls of `set_pixel` it makes, in
order.  The bounding box that `calculate_svg_bounds` returns is not used. -/
def render_path_with_holes (pf : Platform) (fb : Framebuffer) (svg : SVGPath)
    (di : DisplayInfo) : List PixelWrite :=
  let scale := render_scale di
  let offset_x := render_offset_x di
  let offset_y := render_offset_y di
  let b := screen_bounds pf fb svg scale offset_y
  let screen_min_y : Int := if b.1 < 0 then 0 else b.1
  let screen_max_y : Int :=
    if to_int32 fb.vinfo.yres ≤ b.2 then to_int32 ((fb.vinfo.yres : Int) - 1) else b.2
  (int_range screen_min_y screen_max_y).flatMap
    (render_row pf fb svg scale offset_x offset_y)

/-- Insertion of an intersection into a row sorted by `x`. -/
def insert_by_x (a : Intersection) : List Intersection → List Intersection
  | [] => [a]
  | b :: l => if a.x ≤ b.x then a :: b :: l else b :: insert_by_x a l

/-- A stable sort by `x`. -/
def sort_by_x : List Intersection → List Intersection
  | [] => []
  | a :: l => insert_by_x a (sort_by_x l)

/-- A platform on which a cast out of range gives `INT_MIN` and `qsort` is a
stable sort. -/
def stable_platform : Platform := ⟨fun _ => -2 ^ 31, sort_by_x⟩

/-- A layout that maps the authoring space onto the screen unchanged: the scale
is one and the offsets are zero. -/
def unit_layout : DisplayInfo := ⟨1284, 1284, 1284, 1284, 0, 0⟩

/-- A surface of `xres` columns and `yres` rows of 32-bit pixels, all zero. -/
def blank_surface (xres yres : Nat) : Framebuffer :=
  ⟨List.replicate (4 * xres * yres) 0, ⟨xres, yres, 0, 0, 32⟩, ⟨4 * xres⟩, 4 * xres * yres⟩

/-- The polygon with the given corners, coordinates in whole units. -/
def polygon (corners : List (Int × Int)) (is_hole : Bool) : Path :=
  ⟨corners.map fun c => ⟨F32.ofInt c.1, F32.ofInt c.2⟩, is_hole⟩

/-- The value `v` is finite and is the whole number `X`. -/
def Fp.is_int (v : Fp) (X : Int) : Prop :=
  ∃ m e : Int, v = .fin m e ∧ 0 ≤ e ∧ m * 2 ^ e.toNat = X

/-- The rotation of `rotate_svg_path` on a point with whole coordinates, in
exact arithmetic: `C` and `S` are the cosine and the sine. -/
def rotate_corner (C S : Int) (c : Int × Int) : Int × Int :=
  (rotate_x 642 642 C S c.1 c.2, rotate_y 642 642 C S c.1 c.2)

/-- The shape with the given polygons, coordinates in whole units. -/
def grid_shape (polys : List (List (Int × Int) × Bool)) (fill_color : Color) : SVGPath :=
  ⟨polys.map fun q => polygon q.1 q.2, fill_color⟩

/-- Every corner of every polygon replaced by its image under `f`. -/
def map_corners (f : Int × Int → Int × Int) (polys : List (List (Int × Int) × Bool)) :
    List (List (Int × Int) × Bool) :=
  polys.map fun q => (q.1.map f, q.2)

/-- The function `rotate_svg_path` called `n` times in a row with the same angle. -/
def rotate_times (angle : Int) : Nat → SVGPath → Except Fault SVGPath
  | 0, svg => .ok svg
  | n + 1, svg =>
    match rotate_svg_path svg angle with
    | .ok r => rotate_times angle n r
    | .error f => .error f

/-- The rotation of `rotate_svg_path` on a point, in exact arithmetic. -/
def rotate_exact (C S : ℚ) (p : ℚ × ℚ) : ℚ × ℚ :=
  (rotate_x 642 642 C S p.1 p.2, rotate_y 642 642 C S p.1 p.2)

/-- The contract of `qsort` with `compare_intersections`: when no difference of
two abscissas overflows, the result is the array rearranged in ascending order
of `x`; the order of entries with the same `x` is left open. -/
def Platform.sorts (pf : Platform) : Prop :=
  ∀ l : List Intersection,
    (∀ a ∈ l, ∀ b ∈ l, -2 ^ 31 ≤ a.x - b.x ∧ a.x - b.x < 2 ^ 31) →
      List.Perm (pf.qsort l) l ∧ List.Pairwise (fun a b => a.x ≤ b.x) (pf.qsort l)

/-- The point `p` is transformed to the pixel `c`: both transformed coordinates
are whole numbers. -/
def lands_on (scale offset_x offset_y : F32) (p : Point) (c : Int × Int) : Prop :=
  Fp.is_int (p.x * scale + offset_x) c.1 ∧ Fp.is_int (p.y * scale + offset_y) c.2

/-- The polygons of the shape are transformed to the polygons `polys` with
corners at pixels, hole flags kept. -/
def shape_lands_on (scale offset_x offset_y : F32) (svg : SVGPath)
    (polys : List (List (Int × Int) × Bool)) : Prop :=
  List.Forall₂
    (fun path q => path.is_hole = q.2 ∧
      List.Forall₂ (lands_on scale offset_x offset_y) path.points q.1)
    svg.paths polys

/-- The update of `(screen_min_y, screen_max_y)` by a corner at a pixel. -/
def int_bounds_step (acc : Int × Int) (c : Int × Int) : Int × Int :=
  (if c.2 < acc.1 then c.2 else acc.1, if c.2 > acc.2 then c.2 else acc.2)

/-- The edges of a polygon with corners at pixels, the closing edge included. -/
def int_edges (cs : List (Int × Int)) : List ((Int × Int) × (Int × Int)) :=
  (List.range cs.length).map fun (j : Nat) =>
    (cs.getD j (0, 0), cs.getD ((j + 1) % cs.length) (0, 0))

/-- The half-open test on whole heights. -/
def int_straddles (Y1 Y2 y : Int) : Bool :=
  (decide (Y1 ≤ y) && decide (y < Y2)) || (decide (Y2 ≤ y) && decide (y < Y1))

/-- The array of intersections after an edge that is horizontal or vertical,
with corners at pixels, has been tested against the row `y`. -/
def int_scan_edge (y : Int) (is_hole : Bool) (acc : List Intersection)
    (e : (Int × Int) × (Int × Int)) : List Intersection :=
  if int_straddles e.1.2 e.2.2 y then
    if acc.length < MAX_INTERSECTIONS then acc ++ [⟨e.1.1, is_hole⟩] else acc
  else acc

/-- The intersections of the row `y` with polygons whose edges are horizontal
or vertical, corners at pixels. -/
def int_row (polys : List (List (Int × Int) × Bool)) (y : Int) : List Intersection :=
  polys.foldl (fun acc q => (int_edges q.1).foldl (int_scan_edge y q.2) acc) []

/-- The corner sequences of the axis-aligned rectangle with corners `(A, B)` and
`(C, D)`: the walk starts at any corner and goes either way round, and the
first corner may be repeated at the end. -/
def square_rings (A B C D : Int) : List (List (Int × Int)) :=
  [[(A, B), (C, B), (C, D), (A, D)], [(C, B), (C, D), (A, D), (A, B)],
   [(C, D), (A, D), (A, B), (C, B)], [(A, D), (A, B), (C, B), (C, D)],
   [(A, B), (A, D), (C, D), (C, B)], [(A, D), (C, D), (C, B), (A, B)],
   [(C, D), (C, B), (A, B), (A, D)], [(C, B), (A, B), (A, D), (C, D)],
   [(A, B), (C, B), (C, D), (A, D), (A, B)], [(C, B), (C, D), (A, D), (A, B), (C, B)],
   [(C, D), (A, D), (A, B), (C, B), (C, D)], [(A, D), (A, B), (C, B), (C, D), (A, D)],
   [(A, B), (A, D), (C, D), (C, B), (A, B)], [(A, D), (C, D), (C, B), (A, B), (A, D)],
   [(C, D), (C, B), (A, B), (A, D), (C, D)], [(C, B), (A, B), (A, D), (C, D), (C, B)]]

/-! ## The rotation read from the device tree (`dt_rotation.c`) -/

/-- The `int` made of the four bytes of the property `rotation`, the first byte
the most significant. -/
def rotation_from_bytes (b0 b1 b2 b3 : Nat) : Int :=
  to_int32 (((b0 <<< 24) ||| (b1 <<< 16) ||| (b2 <<< 8) ||| b3 : Nat) : Int)

/-- The normalisation of the rotation in `search_rotation_in_dir`.  The C
operators `/` and `%` on `int` round towards zero. -/
def normalize_rotation (rotation : Int) : Int :=
  let r1 : Int := Int.tmod rotation 360
  let r2 : Int := if r1 < 0 then r1 + 360 else r1
  Int.tdiv r2 90 * 90

/-! ## The frame buffer (`fbsplash.c`) -/

/-- The byte offset of the pixel `(x, y)` in the frame buffer.  The operands are
`uint32_t`, so the sum and the products are taken modulo `2 ^ 32`. -/
def pixel_location (fb : Framebuffer) (x y : Nat) : Nat :=
  (((x + fb.vinfo.xoffset) % 2 ^ 32 * (fb.vinfo.bits_per_pixel / 8)) % 2 ^ 32 +
    ((y + fb.vinfo.yoffset) % 2 ^ 32 * fb.finfo.line_length) % 2 ^ 32) % 2 ^ 32

/-- The store of a `uint32_t` at a byte offset, least significant byte first. -/
def store32 (buffer : List Nat) (location value : Nat) : List Nat :=
  (((buffer.set location (value % 256)).set (location + 1) (value / 256 % 256)).set
    (location + 2) (value / 65536 % 256)).set (location + 3) (value / 16777216 % 256)

/-- The `uint32_t` read at a byte offset, least significant byte first. -/
def load32 (buffer : List Nat) (location : Nat) : Nat :=
  buffer.getD location 0 + 256 * buffer.getD (location + 1) 0 +
    65536 * buffer.getD (location + 2) 0 + 16777216 * buffer.getD (location + 3) 0

/-- The function `set_pixel`, `x`, `y` and `color` being `uint32_t`: the frame
buffer after the call.  A store that does not fit the mapped bytes is a fault. -/
def set_pixel (fb : Framebuffer) (x y color : Nat) : Except Fault Framebuffer :=
  if fb.vinfo.xres ≤ x ∨ fb.vinfo.yres ≤ y then .ok fb
  else
    let location := pixel_location fb x y
    if fb.screensize ≤ location then .ok fb
    else if fb.vinfo.bits_per_pixel = 32 then
      if location + 4 ≤ fb.buffer.length then
        .ok { fb with buffer := store32 fb.buffer location color }
      else .error .out_of_bounds
    else .ok fb

/-- The 32-bit pixel at `(x, y)`. -/
def pixel_at (fb : Framebuffer) (x y : Nat) : Nat :=
  load32 fb.buffer (pixel_location fb x y)

/-! ## The entry point of the rasterizer (`render_svg_path`) -/

/-- The calls of `set_pixel` of the loop of `render_svg_path` that clears the
screen: colour 0 at every pixel, row by row. -/
def clear_screen (fb : Framebuffer) : List PixelWrite :=
  (List.range fb.vinfo.yres).flatMap fun (y : Nat) =>
    (List.range fb.vinfo.xres).map fun (x : Nat) => ⟨(x : Int), (y : Int), 0⟩

/-- The conversion of an `int` argument to `uint32_t`. -/
def to_uint32 (v : Int) : Nat := (v % 2 ^ 32).toNat

/-- The frame buffer after the calls of `set_pixel` of a list, in order. -/
def set_pixels : Framebuffer → List PixelWrite → Except Fault Framebuffer
  | fb, [] => .ok fb
  | fb, w :: ws =>
    match set_pixel fb (to_uint32 w.x) (to_uint32 w.y) w.color with
    | .ok fb1 => set_pixels fb1 ws
    | .error f => .error f

/-- The function `render_svg_path`: `first_path` is the value of its static flag
before the call; the result is the flag and the frame buffer after the call. -/
def render_svg_path (pf : Platform) (first_path : Bool) (fb : Framebuffer) (svg : SVGPath)
    (di : DisplayInfo) : Except Fault (Bool × Framebuffer) :=
  match (if first_path then set_pixels fb (clear_screen fb) else .ok fb) with
  | .ok fb1 =>
    match set_pixels fb1 (render_path_with_holes pf fb1 svg di) with
    | .ok fb2 => .ok (false, fb2)
    | .error f => .error f
  | .error f => .error f

/-- Successive calls of `render_svg_path` on one frame buffer, one call for each
shape of the list with its layout. -/
def render_svg_paths (pf : Platform) :
    Bool → Framebuffer → List (SVGPath × DisplayInfo) → Except Fault (Bool × Framebuffer)
  | first_path, fb, [] => .ok (first_path, fb)
  | first_path, fb, c :: cs =>
    match render_svg_path pf first_path fb c.1 c.2 with
    | .ok s => render_svg_paths pf s.1 s.2 cs
    | .error f => .error f

/-- The surface is a grid of separate 32-bit pixels: the rows do not overlap,
no byte offset of a pixel wraps around, and the bytes of every pixel that
passes the guards of `set_pixel` are mapped. -/
def Framebuffer.regular (fb : Framebuffer) : Prop :=
  fb.vinfo.bits_per_pixel = 32 ∧ 4 * fb.vinfo.xres ≤ fb.finfo.line_length ∧
    4 * (fb.vinfo.xres + fb.vinfo.xoffset) +
      (fb.vinfo.yres + fb.vinfo.yoffset) * fb.finfo.line_length ≤ 2 ^ 32 ∧
    ∀ x < fb.vinfo.xres, ∀ y < fb.vinfo.yres, pixel_location fb x y < fb.screensize →
      pixel_location fb x y + 4 ≤ fb.buffer.length

/-! ## The layout formulas of `render_path_with_holes`, over any arithmetic -/

/-- The formula of the variable `scale`: the smaller of the two quotients, `lt`
being the comparison `<`. -/
def scale_formula {K : Type} [Div K] (lt : K → K → Bool)
    (svg_width svg_height base_width base_height : K) : K :=
  let scale_x := svg_width / base_width
  let scale_y := svg_height / base_height
  if lt scale_x scale_y then scale_x else scale_y

/-- The formula of the variables `offset_x` and `offset_y`. -/
def offset_formula {K : Type} [Add K] [Sub K] [Mul K] [Div K] [OfNat K 2]
    (offset size base scale : K) : K :=
  offset + (size - base * scale) / 2

/-- The scan rows of `render_path_with_holes`: the values of the counter of the
loop from `screen_min_y` to `screen_max_y`, both clipped to the surface. -/
def scan_rows (pf : Platform) (fb : Framebuffer) (svg : SVGPath) (di : DisplayInfo) : List Int :=
  let b := screen_bounds pf fb svg (render_scale di) (render_offset_y di)
  int_range (if b.1 < 0 then 0 else b.1)
    (if to_int32 fb.vinfo.yres ≤ b.2 then to_int32 ((fb.vinfo.yres : Int) - 1) else b.2)

/-- The number of edges of a polygon, the closing edge from the last point to
the first included, that pass the test of `render_path_with_holes` against the
scan row `y`. -/
def crossings (scale offset_y : F32) (y : Int) (points : List Point) : Nat :=
  (edges points).countP fun e =>
    straddles (e.1.y * scale + offset_y) (e.2.y * scale + offset_y) (F32.ofInt y)

set_option maxRecDepth 8000

/-! ## Characters and digits -/

theorem isdigit_digit_char (d : Fin 10) : isdigit (digit_char d) = true := by
  revert d; decide

theorem digit_val_digit_char (d : Fin 10) : digit_val (digit_char d) = d.val := by
  revert d; decide

theorem isspace_digit_char (d : Fin 10) : isspace (digit_char d) = false := by
  revert d; decide

theorem isalpha_digit_char (d : Fin 10) : isalpha (digit_char d) = false := by
  revert d; decide

theorem tolower_digit_char (d : Fin 10) : tolower (digit_char d) = digit_char d := by
  revert d; decide

theorem digit_char_ne (d : Fin 10) :
    digit_char d ≠ '-' ∧ digit_char d ≠ '+' ∧ digit_char d ≠ 'i' ∧ digit_char d ≠ 'n' ∧
      digit_char d ≠ 'x' ∧ digit_char d ≠ '.' ∧ digit_char d ≠ ',' := by
  revert d; decide

theorem digits_val_append_digit (acc : Nat) (ds : List (Fin 10)) :
    (ds.map digit_char).foldl (fun a c => a * 10 + digit_val c) acc =
      ds.foldl (fun a d => a * 10 + d.val) acc := by
  induction ds generalizing acc with
  | nil => rfl
  | cons d ds ih => simp [List.foldl, digit_val_digit_char, ih]

theorem digits_val_map (ds : List (Fin 10)) :
    digits_val 10 (ds.map digit_char) = dec_val ds := by
  unfold digits_val dec_val
  exact digits_val_append_digit 0 ds

theorem takeWhile_isdigit_map (ds : List (Fin 10)) (r : List Char) :
    (ds.map digit_char ++ r).takeWhile isdigit = ds.map digit_char ++ r.takeWhile isdigit := by
  apply List.takeWhile_append_of_pos
  intro c hc
  obtain ⟨d, -, rfl⟩ := List.mem_map.1 hc
  exact isdigit_digit_char d

theorem dropWhile_isdigit_map (ds : List (Fin 10)) (r : List Char) :
    (ds.map digit_char ++ r).dropWhile isdigit = r.dropWhile isdigit := by
  apply List.dropWhile_append_of_pos
  intro c hc
  obtain ⟨d, -, rfl⟩ := List.mem_map.1 hc
  exact isdigit_digit_char d

theorem stops_number_takeWhile {r : List Char} (h : stops_number r = true) :
    r.takeWhile isdigit = [] := by
  cases r with
  | nil => rfl
  | cons c r =>
    simp [stops_number] at h
    simp [List.takeWhile, h.1.1.1]

theorem stops_number_dropWhile {r : List Char} (h : stops_number r = true) :
    r.dropWhile isdigit = r := by
  cases r with
  | nil => rfl
  | cons c r =>
    simp [stops_number] at h
    simp [List.dropWhile, h.1.1.1]

theorem stops_number_exponent {r : List Char} (h : stops_number r = true) :
    opt_exponent 'e' r = (0, r) := by
  cases r with
  | nil => rfl
  | cons c r =>
    simp [stops_number] at h
    simp [opt_exponent, h.1.2]


/-! ## Reading a numeral -/

theorem stops_number_point {r : List Char} (h : stops_number r = true) :
    starts_with_point r = false := by
  cases r with
  | nil => rfl
  | cons c r =>
    simp [stops_number] at h
    simp [starts_with_point, h.1.1.2]

theorem strtof_decimal_eval (neg : Bool) (s ip r1 fp r2 : List Char)
    (hip : s.takeWhile isdigit = ip) (hr1 : s.dropWhile isdigit = r1)
    (hfp : (if starts_with_point r1 then (r1.drop 1).takeWhile isdigit else []) = fp)
    (hr2 : (if starts_with_point r1 then (r1.drop 1).dropWhile isdigit else r1) = r2)
    (hne : ip ≠ []) (hex : opt_exponent 'e' r2 = (0, r2)) :
    strtof_decimal neg s =
      some (scaled_float neg (digits_val 10 (ip ++ fp)) 10 (-(fp.length : Int)), r2) := by
  unfold strtof_decimal
  simp only [hip, hr1, hfp, hr2, hex]
  simp [hne]

theorem strtof_decimal_numeral (neg : Bool) (d0 : Fin 10) (ds fp : List (Fin 10))
    (rest : List Char) (h : stops_number rest = true) :
    strtof_decimal neg (digit_char d0 :: (ds.map digit_char ++
        ((if fp = [] then [] else '.' :: fp.map digit_char) ++ rest))) =
      some (scaled_float neg (dec_val (d0 :: ds ++ fp)) 10 (-(fp.length : Int)), rest) := by
  have hcons : digit_char d0 :: (ds.map digit_char ++
        ((if fp = [] then [] else '.' :: fp.map digit_char) ++ rest)) =
      (d0 :: ds).map digit_char ++
        ((if fp = [] then [] else '.' :: fp.map digit_char) ++ rest) := by simp
  have hd : isdigit '.' = false := by decide
  rw [hcons]
  by_cases hfp : fp = []
  · subst hfp
    have := strtof_decimal_eval neg ((d0 :: ds).map digit_char ++ rest) ((d0 :: ds).map digit_char)
      rest [] rest
      (by rw [takeWhile_isdigit_map, stops_number_takeWhile h, List.append_nil])
      (by rw [dropWhile_isdigit_map, stops_number_dropWhile h])
      (by simp [stops_number_point h]) (by simp [stops_number_point h]) (by simp)
      (stops_number_exponent h)
    rw [List.append_nil, digits_val_map] at this
    simpa using this
  · have := strtof_decimal_eval neg ((d0 :: ds).map digit_char ++ ('.' :: fp.map digit_char ++ rest))
      ((d0 :: ds).map digit_char) ('.' :: fp.map digit_char ++ rest) (fp.map digit_char) rest
      (by rw [takeWhile_isdigit_map]; simp [List.takeWhile, hd])
      (by rw [dropWhile_isdigit_map]; simp [List.dropWhile, hd])
      (by simp only [starts_with_point, List.cons_append, decide_True, if_true, List.drop_one,
            List.tail_cons]
          rw [takeWhile_isdigit_map, stops_number_takeWhile h, List.append_nil])
      (by simp only [starts_with_point, List.cons_append, decide_True, if_true, List.drop_one,
            List.tail_cons]
          rw [dropWhile_isdigit_map, stops_number_dropWhile h])
      (by simp) (stops_number_exponent h)
    rw [← List.map_append, digits_val_map] at this
    simpa [hfp] using this


theorem starts_with_nocase_head (w0 c : Char) (w s : List Char) (h : tolower c ≠ w0) :
    starts_with_nocase (w0 :: w) (c :: s) = false := by
  simp [starts_with_nocase, List.take, h]

theorem starts_with_nocase_0x (c : Char) (tail : List Char)
    (h : tail = [] ∨ ∃ d r, tail = d :: r ∧ tolower d ≠ 'x') :
    starts_with_nocase ['0', 'x'] (c :: tail) = false := by
  rcases h with rfl | ⟨d, r, rfl, hd⟩
  · simp [starts_with_nocase]
  · simp [starts_with_nocase, List.take, hd]

theorem scaled_float_numeral (neg : Bool) (n k : Nat) :
    scaled_float neg n 10 (-(k : Int)) =
      roundRat binary32 (if neg then -(n : Int) else (n : Int)) (10 ^ k) := by
  unfold scaled_float
  by_cases hk : k = 0
  · subst hk; simp
  · have : ¬ (0 : Int) ≤ -(k : Int) := by omega
    simp [this]

theorem numeral_tail_not_x (ds fp : List (Fin 10)) (rest : List Char)
    (h : stops_number rest = true) :
    (ds.map digit_char ++ ((if fp = [] then [] else '.' :: fp.map digit_char) ++ rest)) = [] ∨
      ∃ d r, (ds.map digit_char ++ ((if fp = [] then [] else '.' :: fp.map digit_char) ++ rest))
        = d :: r ∧ tolower d ≠ 'x' := by
  cases ds with
  | cons d ds =>
    right
    refine ⟨digit_char d, _, rfl, ?_⟩
    rw [tolower_digit_char]; exact (digit_char_ne d).2.2.2.2.1
  | nil =>
    by_cases hfp : fp = []
    · cases rest with
      | nil => left; simp [hfp]
      | cons c r =>
        right
        simp [stops_number] at h
        exact ⟨c, r, by rw [if_pos hfp]; rfl, h.2⟩
    · right
      exact ⟨'.', _, by rw [if_neg hfp]; rfl, by decide⟩

/-- The library function `strtof`, given the digits of a numeral after an
optional sign, reads exactly the numeral. -/
theorem strtof_body (neg : Bool) (d0 : Fin 10) (ds fp : List (Fin 10))
    (rest : List Char) (h : stops_number rest = true) (s : List Char)
    (hs : strtof_decimal neg (digit_char d0 :: (ds.map digit_char ++
        ((if fp = [] then [] else '.' :: fp.map digit_char) ++ rest))) =
        some (scaled_float neg (dec_val (d0 :: ds ++ fp)) 10 (-(fp.length : Int)), rest)) :
    (if starts_with_nocase "infinity".toList (digit_char d0 :: (ds.map digit_char ++
        ((if fp = [] then [] else '.' :: fp.map digit_char) ++ rest))) = true
      then ((Fp.inf neg : F32), (digit_char d0 :: (ds.map digit_char ++
        ((if fp = [] then [] else '.' :: fp.map digit_char) ++ rest))).drop 8)
    else if starts_with_nocase "inf".toList (digit_char d0 :: (ds.map digit_char ++
        ((if fp = [] then [] else '.' :: fp.map digit_char) ++ rest))) = true
      then (Fp.inf neg, (digit_char d0 :: (ds.map digit_char ++
        ((if fp = [] then [] else '.' :: fp.map digit_char) ++ rest))).drop 3)
    else if starts_with_nocase "nan".toList (digit_char d0 :: (ds.map digit_char ++
        ((if fp = [] then [] else '.' :: fp.map digit_char) ++ rest))) = true
      then (Fp.nan, nan_payload ((digit_char d0 :: (ds.map digit_char ++
        ((if fp = [] then [] else '.' :: fp.map digit_char) ++ rest))).drop 3))
    else
      match (if starts_with_nocase "0x".toList (digit_char d0 :: (ds.map digit_char ++
          ((if fp = [] then [] else '.' :: fp.map digit_char) ++ rest))) = true
        then strtof_hex neg ((digit_char d0 :: (ds.map digit_char ++
          ((if fp = [] then [] else '.' :: fp.map digit_char) ++ rest))).drop 2) else none) with
      | some r => r
      | none =>
          match strtof_decimal neg (digit_char d0 :: (ds.map digit_char ++
            ((if fp = [] then [] else '.' :: fp.map digit_char) ++ rest))) with
          | some r => r
          | none => (Fp.fin 0 0, s)) =
      (scaled_float neg (dec_val (d0 :: ds ++ fp)) 10 (-(fp.length : Int)), rest) := by
  have hi : tolower (digit_char d0) ≠ 'i' := by
    rw [tolower_digit_char]; exact (digit_char_ne d0).2.2.1
  have hn : tolower (digit_char d0) ≠ 'n' := by
    rw [tolower_digit_char]; exact (digit_char_ne d0).2.2.2.1
  have e1 : "infinity".toList = 'i' :: "nfinity".toList := rfl
  have e2 : "inf".toList = 'i' :: "nf".toList := rfl
  have e3 : "nan".toList = 'n' :: "an".toList := rfl
  have e4 : "0x".toList = ['0', 'x'] := rfl
  have h0x := starts_with_nocase_0x (digit_char d0) _ (numeral_tail_not_x ds fp rest h)
  rw [e1, starts_with_nocase_head _ _ _ _ hi, e2, starts_with_nocase_head _ _ _ _ hi, e3,
    starts_with_nocase_head _ _ _ _ hn, e4, h0x, hs]
  simp

theorem strtof_numeral (n : Numeral) (rest : List Char) (h : stops_number rest = true) :
    strtof (n.text ++ rest) = (n.toFloat, rest) := by
  have hs := strtof_decimal_numeral n.neg n.d0 n.ds n.fp rest h
  have hsp : isspace (digit_char n.d0) = false := isspace_digit_char n.d0
  have hm : digit_char n.d0 ≠ '-' := (digit_char_ne n.d0).1
  have hp : digit_char n.d0 ≠ '+' := (digit_char_ne n.d0).2.1
  have hminus : isspace '-' = false := by decide
  have hv : n.toFloat = scaled_float n.neg (dec_val (n.d0 :: n.ds ++ n.fp)) 10
      (-(n.fp.length : Int)) := by
    rw [scaled_float_numeral]; rfl
  rw [hv]
  by_cases hneg : n.neg = true
  · have ht : n.text ++ rest = '-' :: (digit_char n.d0 :: (n.ds.map digit_char ++
        ((if n.fp = [] then [] else '.' :: n.fp.map digit_char) ++ rest))) := by
      simp [Numeral.text, hneg]
    rw [ht]
    unfold strtof
    simp only [List.dropWhile_cons, hminus, opt_sign, if_true, Bool.false_eq_true, if_false]
    rw [hneg] at hs ⊢
    exact strtof_body true n.d0 n.ds n.fp rest h _ hs
  · have hneg2 : n.neg = false := by simpa using hneg
    have ht : n.text ++ rest = digit_char n.d0 :: (n.ds.map digit_char ++
        ((if n.fp = [] then [] else '.' :: n.fp.map digit_char) ++ rest)) := by
      simp [Numeral.text, hneg2]
    rw [ht]
    unfold strtof
    simp only [List.dropWhile_cons, hsp, opt_sign, if_neg hm, if_neg hp, Bool.false_eq_true,
      if_false]
    rw [hneg2] at hs ⊢
    exact strtof_body false n.d0 n.ds n.fp rest h _ hs


/-! ## Separators -/

theorem is_sep_toNat {c : Char} (h : is_sep c = true) :
    c.toNat = 32 ∨ (9 ≤ c.toNat ∧ c.toNat ≤ 13) ∨ c.toNat = 44 := by
  simp only [is_sep, isspace, Bool.or_eq_true, Bool.and_eq_true, decide_eq_true_eq] at h
  rcases h with (h | h) | h
  · exact Or.inl h
  · exact Or.inr (Or.inl h)
  · subst h; exact Or.inr (Or.inr (by decide))

theorem stops_number_sep {c : Char} (h : is_sep c = true) (r : List Char) :
    stops_number (c :: r) = true := by
  have hc := is_sep_toNat h
  have h1 : isdigit c = false := by
    simp only [isdigit, Bool.and_eq_false_imp, decide_eq_true_eq, decide_eq_false_iff_not]
    omega
  have h2 : c ≠ '.' := by
    rintro rfl
    have : ('.' : Char).toNat = 46 := by decide
    omega
  have h3 : tolower c = c := by
    unfold tolower
    rw [if_neg]
    simp only [Bool.and_eq_true, decide_eq_true_eq]
    omega
  have h4 : c ≠ 'e' := by
    rintro rfl
    have : ('e' : Char).toNat = 101 := by decide
    omega
  have h5 : c ≠ 'x' := by
    rintro rfl
    have : ('x' : Char).toNat = 120 := by decide
    omega
  simp [stops_number, h1, h2, h3, h4, h5]

theorem stops_number_gap {g : List Char} (hg : ∀ c ∈ g, is_sep c = true) (hne : g ≠ [])
    (r : List Char) : stops_number (g ++ r) = true := by
  cases g with
  | nil => exact absurd rfl hne
  | cons c g => exact stops_number_sep (hg c (List.mem_cons_self _ _)) _

theorem Numeral.text_head (n : Numeral) :
    ∃ c t, n.text = c :: t ∧ is_sep c = false ∧ isalpha c = false ∧ isspace c = false := by
  by_cases hneg : n.neg = true
  · exact ⟨'-', _, by rw [Numeral.text, if_pos hneg]; rfl, by decide, by decide, by decide⟩
  · have : n.neg = false := by simpa using hneg
    refine ⟨digit_char n.d0, _, by rw [Numeral.text, if_neg hneg]; rfl, ?_,
      isalpha_digit_char _, isspace_digit_char _⟩
    have h1 := isspace_digit_char n.d0
    have h2 := (digit_char_ne n.d0).2.2.2.2.2.2
    simp [is_sep, h1, h2]

theorem parse_number_numeral (g : List Char) (hg : ∀ c ∈ g, is_sep c = true) (n : Numeral)
    (rest : List Char) (h : stops_number rest = true) :
    parse_number (g ++ (n.text ++ rest)) = (n.toFloat, rest) := by
  obtain ⟨c, t, ht, hc, -, -⟩ := n.text_head
  unfold parse_number
  have hdrop : (g ++ (n.text ++ rest)).dropWhile is_sep = n.text ++ rest := by
    rw [List.dropWhile_append_of_pos (fun c hc => hg c hc), ht]
    simp only [List.cons_append, List.dropWhile_cons, hc]
    simp
  rw [hdrop, strtof_numeral n rest h]


/-! ## One pass of the command loop -/

theorem parse_number_pair (g1 g2 : List Char) (hg1 : ∀ c ∈ g1, is_sep c = true)
    (hg2 : ∀ c ∈ g2, is_sep c = true) (hne : g2 ≠ []) (x y : Numeral) (rest : List Char)
    (h : stops_number rest = true) :
    parse_number (g1 ++ (x.text ++ (g2 ++ (y.text ++ rest)))) =
        (x.toFloat, g2 ++ (y.text ++ rest)) ∧
      parse_number (g2 ++ (y.text ++ rest)) = (y.toFloat, rest) :=
  ⟨parse_number_numeral g1 hg1 x _ (stops_number_gap hg2 hne _),
    parse_number_numeral g2 hg2 y rest h⟩

theorem loop_body_L (fuel : Nat) (s : PState) (g1 g2 : List Char) (x y : Numeral)
    (rest : List Char) (hp : s.p = 'L' :: (g1 ++ (x.text ++ (g2 ++ (y.text ++ rest)))))
    (hg1 : ∀ c ∈ g1, is_sep c = true) (hg2 : ∀ c ∈ g2, is_sep c = true) (hne : g2 ≠ [])
    (h : stops_number rest = true) :
    loop_body fuel s = .ok
      ⟨rest.dropWhile isspace, 'L', false,
        ⟨s.compound.paths.set s.current_path (add_point_to_path s.cur x.toFloat y.toFloat),
          s.compound.num_paths⟩,
        s.current_path, ⟨x.toFloat, y.toFloat⟩, s.start_point⟩ := by
  obtain ⟨h1, h2⟩ := parse_number_pair g1 g2 hg1 hg2 hne x y rest h
  have ha : isalpha 'L' = true := by decide
  have hm : ¬ ('L' = 'M') := by decide
  unfold loop_body
  rw [hp]
  simp only [ha, if_true, take_letter, hm, false_and, if_false, process_command, h1, h2,
    decide_False, PState.add_point, PState.cur]

theorem loop_body_implicit_L (fuel : Nat) (s : PState) (g2 : List Char) (x y : Numeral)
    (rest : List Char) (hc : s.command = 'L')
    (hp : s.p = x.text ++ (g2 ++ (y.text ++ rest)))
    (hg2 : ∀ c ∈ g2, is_sep c = true) (hne : g2 ≠ [])
    (h : stops_number rest = true) :
    loop_body fuel s = .ok
      ⟨rest.dropWhile isspace, 'L', s.new_subpath,
        ⟨s.compound.paths.set s.current_path (add_point_to_path s.cur x.toFloat y.toFloat),
          s.compound.num_paths⟩,
        s.current_path, ⟨x.toFloat, y.toFloat⟩, s.start_point⟩ := by
  obtain ⟨h1, h2⟩ := parse_number_pair [] g2 (by simp) hg2 hne x y rest h
  obtain ⟨c, t, ht, -, hal, -⟩ := x.text_head
  have hm : ¬ ('L' = 'M') := by decide
  rw [List.nil_append] at h1
  have hp2 : s.p = c :: (t ++ (g2 ++ (y.text ++ rest))) := by rw [hp, ht]; rfl
  have h1' : parse_number (c :: (t ++ (g2 ++ (y.text ++ rest)))) =
      (x.toFloat, g2 ++ (y.text ++ rest)) := by
    rw [← h1, ht]; rfl
  unfold loop_body
  rw [hp2]
  simp only [hal, Bool.false_eq_true, if_false, process_command, hc, hm, hp2, h1', h2,
    PState.add_point, PState.cur]
  rfl


theorem loop_body_M (fuel : Nat) (s : PState) (g1 g2 : List Char) (x y : Numeral)
    (rest : List Char) (hp : s.p = 'M' :: (g1 ++ (x.text ++ (g2 ++ (y.text ++ rest)))))
    (hg1 : ∀ c ∈ g1, is_sep c = true) (hg2 : ∀ c ∈ g2, is_sep c = true) (hne : g2 ≠ [])
    (h : stops_number rest = true) :
    loop_body fuel s = .ok
      ⟨rest.dropWhile isspace, 'L', true,
        ⟨(take_letter 'M' [] s).compound.paths.set (take_letter 'M' [] s).current_path
            (add_point_to_path (take_letter 'M' [] s).cur x.toFloat y.toFloat),
          (take_letter 'M' [] s).compound.num_paths⟩,
        (take_letter 'M' [] s).current_path, ⟨x.toFloat, y.toFloat⟩,
        ⟨x.toFloat, y.toFloat⟩⟩ := by
  obtain ⟨h1, h2⟩ := parse_number_pair g1 g2 hg1 hg2 hne x y rest h
  have ha : isalpha 'M' = true := by decide
  unfold loop_body
  rw [hp]
  simp only [ha, if_true, process_command]
  have e1 : (take_letter 'M' (g1 ++ (x.text ++ (g2 ++ (y.text ++ rest)))) s).command = 'M' := rfl
  have e2 : (take_letter 'M' (g1 ++ (x.text ++ (g2 ++ (y.text ++ rest)))) s).p =
      g1 ++ (x.text ++ (g2 ++ (y.text ++ rest))) := rfl
  rw [if_pos e1, e2, h1, h2]
  simp only [PState.add_point, PState.cur, take_letter]
  split_ifs <;> rfl

theorem loop_body_H (fuel : Nat) (s : PState) (g1 : List Char) (x : Numeral)
    (rest : List Char) (hp : s.p = 'H' :: (g1 ++ (x.text ++ rest)))
    (hg1 : ∀ c ∈ g1, is_sep c = true) (h : stops_number rest = true) :
    loop_body fuel s = .ok
      ⟨rest.dropWhile isspace, 'H', false,
        ⟨s.compound.paths.set s.current_path
            (add_point_to_path s.cur x.toFloat s.current_point.y),
          s.compound.num_paths⟩,
        s.current_path, ⟨x.toFloat, s.current_point.y⟩, s.start_point⟩ := by
  have h1 := parse_number_numeral g1 hg1 x rest h
  have ha : isalpha 'H' = true := by decide
  have hm : ¬ ('H' = 'M') := by decide
  have hl : ¬ ('H' = 'L') := by decide
  unfold loop_body
  rw [hp]
  simp only [ha, if_true, take_letter, hm, false_and, if_false, process_command, hl, h1,
    decide_False, PState.add_point, PState.cur]

theorem loop_body_V (fuel : Nat) (s : PState) (g1 : List Char) (y : Numeral)
    (rest : List Char) (hp : s.p = 'V' :: (g1 ++ (y.text ++ rest)))
    (hg1 : ∀ c ∈ g1, is_sep c = true) (h : stops_number rest = true) :
    loop_body fuel s = .ok
      ⟨rest.dropWhile isspace, 'V', false,
        ⟨s.compound.paths.set s.current_path
            (add_point_to_path s.cur s.current_point.x y.toFloat),
          s.compound.num_paths⟩,
        s.current_path, ⟨s.current_point.x, y.toFloat⟩, s.start_point⟩ := by
  have h1 := parse_number_numeral g1 hg1 y rest h
  have ha : isalpha 'V' = true := by decide
  have hm : ¬ ('V' = 'M') := by decide
  have hl : ¬ ('V' = 'L') := by decide
  have hh : ¬ ('V' = 'H') := by decide
  unfold loop_body
  rw [hp]
  simp only [ha, if_true, take_letter, hm, false_and, if_false, process_command, hl, hh, h1,
    decide_False, PState.add_point, PState.cur]

theorem loop_body_Z (fuel : Nat) (s : PState) (c : Char) (hc : c = 'Z' ∨ c = 'z')
    (rest : List Char) (hp : s.p = c :: rest) :
    loop_body fuel s = .ok
      ⟨rest.dropWhile isspace, c, false,
        ⟨if 0 < s.cur.points.length then
            s.compound.paths.set s.current_path
              (add_point_to_path s.cur s.start_point.x s.start_point.y)
          else s.compound.paths,
          s.compound.num_paths⟩,
        s.current_path, s.current_point, s.start_point⟩ := by
  have ha : isalpha c = true := by rcases hc with rfl | rfl <;> decide
  have hm : ¬ (c = 'M') := by rcases hc with rfl | rfl <;> decide
  have hl : ¬ (c = 'L') := by rcases hc with rfl | rfl <;> decide
  have hh : ¬ (c = 'H') := by rcases hc with rfl | rfl <;> decide
  have hv : ¬ (c = 'V') := by rcases hc with rfl | rfl <;> decide
  unfold loop_body
  rw [hp]
  simp only [ha, if_true, take_letter, hm, false_and, if_false, process_command, hl, hh, hv,
    hc, decide_False, PState.add_point, PState.cur]
  split_ifs <;> rfl

theorem parse_loop_step (fuel : Nat) (s s1 : PState) (hp : s.p ≠ [])
    (h : loop_body fuel s = .ok s1) : parse_loop (fuel + 1) s = parse_loop fuel s1 := by
  rw [parse_loop, if_neg hp, h]

theorem parse_loop_nil (fuel : Nat) (s : PState) (hp : s.p = []) :
    parse_loop fuel s = .ok s := by
  cases fuel <;> simp [parse_loop, hp]

/-! ## The active slot stays inside the compound path -/

theorem take_letter_slot (c : Char) (rest : List Char) (s : PState)
    (h : s.compound.paths.length = MAX_SUBPATHS ∧ s.current_path < MAX_SUBPATHS) :
    (take_letter c rest s).compound.paths.length = MAX_SUBPATHS ∧
      (take_letter c rest s).current_path < MAX_SUBPATHS := by
  unfold take_letter
  split_ifs <;> simp_all
  split_ifs <;> simp_all

theorem add_point_slot (s : PState) (x y : F32)
    (h : s.compound.paths.length = MAX_SUBPATHS ∧ s.current_path < MAX_SUBPATHS) :
    (s.add_point x y).compound.paths.length = MAX_SUBPATHS ∧
      (s.add_point x y).current_path < MAX_SUBPATHS := by
  simpa [PState.add_point] using h

theorem cubic_loop_slot (x1 y1 x2 y2 x3 y3 : F32) :
    ∀ (fuel : Nat) (t : F32) (s s1 : PState),
      s.compound.paths.length = MAX_SUBPATHS ∧ s.current_path < MAX_SUBPATHS →
      cubic_loop x1 y1 x2 y2 x3 y3 fuel t s = .ok s1 →
      s1.compound.paths.length = MAX_SUBPATHS ∧ s1.current_path < MAX_SUBPATHS := by
  intro fuel
  induction fuel with
  | zero => intro t s s1 _ h; simp [cubic_loop] at h
  | succ n ih =>
    intro t s s1 hs h
    rw [cubic_loop] at h
    split_ifs at h
    · exact ih _ _ _ (add_point_slot s _ _ hs) h
    · simp only [Except.ok.injEq] at h
      rw [← h]; exact hs

theorem process_command_slot (fuel : Nat) (s s1 : PState)
    (hs : s.compound.paths.length = MAX_SUBPATHS ∧ s.current_path < MAX_SUBPATHS)
    (h : process_command fuel s = .ok s1) :
    s1.compound.paths.length = MAX_SUBPATHS ∧ s1.current_path < MAX_SUBPATHS := by
  unfold process_command at h
  split_ifs at h
  · simp only [Except.ok.injEq] at h
    rw [← h]; simpa [PState.add_point] using hs
  · simp only [Except.ok.injEq] at h
    rw [← h]; simpa [PState.add_point] using hs
  · simp only [Except.ok.injEq] at h
    rw [← h]; simpa [PState.add_point] using hs
  · simp only [Except.ok.injEq] at h
    rw [← h]; simpa [PState.add_point] using hs
  · simp only [Except.ok.injEq] at h
    rw [← h]; simpa [PState.add_point] using hs
  · simp only [Except.ok.injEq] at h
    rw [← h]; exact hs
  · simp only [] at h
    split at h
    · cases h
    · rename_i s2 hc
      simp only [Except.ok.injEq] at h
      rw [← h]
      refine cubic_loop_slot _ _ _ _ _ _ fuel _ _ s2 ?_ hc
      exact hs
  · simp only [Except.ok.injEq] at h
    rw [← h]; exact hs

theorem loop_body_slot (fuel : Nat) (s s1 : PState)
    (hs : s.compound.paths.length = MAX_SUBPATHS ∧ s.current_path < MAX_SUBPATHS)
    (h : loop_body fuel s = .ok s1) :
    s1.compound.paths.length = MAX_SUBPATHS ∧ s1.current_path < MAX_SUBPATHS := by
  unfold loop_body at h
  cases hp : s.p with
  | nil =>
    rw [hp] at h
    simp only [Except.ok.injEq] at h
    rw [← h]; exact hs
  | cons c rest =>
    rw [hp] at h
    simp only [] at h
    cases hc : process_command fuel (if isalpha c = true then take_letter c rest s else s) with
    | error e => rw [hc] at h; cases h
    | ok s2 =>
      rw [hc] at h
      simp only [Except.ok.injEq] at h
      rw [← h]
      refine process_command_slot fuel _ s2 ?_ hc
      split_ifs
      · exact take_letter_slot c rest s hs
      · exact hs

/-- In every state the command loop reaches, `current_path` points into the
compound path. -/
theorem passes_from_slot (fuel : Nat) :
    ∀ (n : Nat) (s0 s : PState),
      s0.compound.paths.length = MAX_SUBPATHS ∧ s0.current_path < MAX_SUBPATHS →
      passes_from fuel n s0 = .ok s → s.current_path < s.compound.paths.length := by
  intro n
  induction n with
  | zero =>
    intro s0 s hs h
    simp only [passes_from, Except.ok.injEq] at h
    rw [← h, hs.1]; exact hs.2
  | succ n ih =>
    intro s0 s hs h
    rw [passes_from] at h
    split at h
    · cases h
    · rename_i s1 hb
      exact ih s1 s (loop_body_slot fuel s0 s1 hs hb) h

theorem reached_slot (fuel : Nat) (g : Globals) (path_data : List Char) (n : Nat) (s : PState)
    (h : passes_from fuel n (initial_state g path_data) = .ok s) :
    s.current_path < s.compound.paths.length :=
  passes_from_slot fuel n _ s (by simp [initial_state, MAX_SUBPATHS]) h


/-! ## Reading a colour -/

theorem isdigit_not_sign {c : Char} (h : isdigit c = true) :
    isspace c = false ∧ c ≠ '-' ∧ c ≠ '+' := by
  simp only [isdigit, Bool.and_eq_true, decide_eq_true_eq] at h
  refine ⟨?_, ?_, ?_⟩
  · simp only [isspace, Bool.or_eq_false_iff, decide_eq_false_iff_not, Bool.and_eq_false_imp,
      decide_eq_true_eq]
    omega
  · rintro rfl
    have : ('-' : Char).toNat = 45 := by decide
    omega
  · rintro rfl
    have : ('+' : Char).toNat = 43 := by decide
    omega

theorem scan_int_digits (ds r : List Char) (hne : ds ≠ []) (hd : ∀ c ∈ ds, isdigit c = true)
    (hr : r.takeWhile isdigit = []) (hr2 : r.dropWhile isdigit = r) :
    scan_int (ds ++ r) = some ((digits_val 10 ds : Int), r) := by
  cases ds with
  | nil => exact absurd rfl hne
  | cons c t =>
    obtain ⟨h1, h2, h3⟩ := isdigit_not_sign (hd c (List.mem_cons_self _ _))
    have ht : (c :: (t ++ r)).takeWhile isdigit = c :: t := by
      rw [← List.cons_append, List.takeWhile_append_of_pos hd, hr, List.append_nil]
    have hdr : (c :: (t ++ r)).dropWhile isdigit = r := by
      rw [← List.cons_append, List.dropWhile_append_of_pos hd, hr2]
    have hs : opt_sign (c :: (t ++ r)) = (false, c :: (t ++ r)) := by
      simp [opt_sign, h2, h3]
    have hsp : (c :: t ++ r).dropWhile isspace = c :: (t ++ r) := by
      simp [List.dropWhile, h1]
    unfold scan_int
    simp only [hsp, hs, ht, hdr]
    simp

theorem toDigits_small : ∀ r : Fin 256, Nat.toDigits 10 r.val ≠ [] ∧
    (∀ c ∈ Nat.toDigits 10 r.val, isdigit c = true) ∧
    digits_val 10 (Nat.toDigits 10 r.val) = r.val := by
  decide

theorem scan_int_channel (v : Nat) (hv : v ≤ 255) (c : Char) (hc : isdigit c = false)
    (r : List Char) :
    scan_int (Nat.toDigits 10 v ++ (c :: r)) = some ((v : Int), c :: r) := by
  obtain ⟨h1, h2, h3⟩ := toDigits_small ⟨v, by omega⟩
  have := scan_int_digits (Nat.toDigits 10 v) (c :: r) h1 h2 (by simp [List.takeWhile, hc])
    (by simp [List.dropWhile, hc])
  simp only at h3
  rw [this, h3]

theorem parse_color_rgb_text (r g b : Nat) (hr : r ≤ 255) (hg : g ≤ 255) (hb : b ≤ 255) :
    parse_color (rgb_text r g b) = ⟨r, g, b, 255⟩ := by
  have hcomma : isdigit ',' = false := by decide
  have hparen : isdigit ')' = false := by decide
  have hpre : "rgb(".toList <+: rgb_text r g b := ⟨_, rfl⟩
  have hscan : sscanf_rgb (rgb_text r g b) = (3, (r : Int), (g : Int), (b : Int)) := by
    unfold sscanf_rgb rgb_text
    simp only [scan_lit, if_true, Option.bind, scan_int_channel r hr ',' hcomma,
      scan_int_channel g hg ',' hcomma, scan_int_channel b hb ')' hparen]
  have hu : ∀ v : Nat, v ≤ 255 → to_uint8 (v : Int) = v := by
    intro v hv
    unfold to_uint8
    omega
  unfold parse_color
  rw [if_pos hpre, hscan]
  simp [hu r hr, hu g hg, hu b hb]


/-! ## A run of line-to commands -/

theorem stops_number_space (r : List Char) : stops_number (' ' :: r) = true := rfl

theorem cur_set (s : PState) (q : Path) (h : s.current_path < s.compound.paths.length) :
    (s.compound.paths.set s.current_path q).getD s.current_path ⟨[], false⟩ = q := by
  simp [List.getD, List.getElem?_set, h]

theorem run_linetos (sep : List Char) (hsep : ∀ c ∈ sep, is_sep c = true) (hne : sep ≠ [])
    (tail : List Char) (htail : stops_number tail = true) :
    ∀ (ps : List (Numeral × Numeral)) (p : Numeral × Numeral) (s : PState) (fuel : Nat),
      s.p = 'L' :: ' ' :: (point_text sep p ++ (lineto_text sep ps ++ tail)) →
      s.current_path < s.compound.paths.length →
      parse_loop (fuel + (ps.length + 1)) s =
        parse_loop fuel
          ⟨tail.dropWhile isspace, 'L', false,
            ⟨s.compound.paths.set s.current_path
                ⟨s.cur.points ++ (p :: ps).map to_point, s.cur.is_hole⟩,
              s.compound.num_paths⟩,
            s.current_path, to_point ((p :: ps).getLast (List.cons_ne_nil _ _)),
            s.start_point⟩ := by
  have hsp : ∀ c ∈ [' '], is_sep c = true := by decide
  intro ps
  induction ps with
  | nil =>
    intro p s fuel hp _
    have hp2 : s.p = 'L' :: ([' '] ++ (p.1.text ++ (sep ++ (p.2.text ++ tail)))) := by
      rw [hp]; simp [point_text, lineto_text]
    have h1 := loop_body_L fuel s [' '] sep p.1 p.2 tail hp2 hsp hsep hne htail
    rw [List.length_nil, Nat.zero_add, parse_loop_step fuel s _ (by simp [hp]) h1]
    rfl
  | cons q ps ih =>
    intro p s fuel hp hcur
    have hrest : lineto_text sep (q :: ps) ++ tail =
        ' ' :: 'L' :: ' ' :: (point_text sep q ++ (lineto_text sep ps ++ tail)) := by
      simp [lineto_text]
    have hp2 : s.p = 'L' :: ([' '] ++ (p.1.text ++ (sep ++ (p.2.text ++
        (' ' :: 'L' :: ' ' :: (point_text sep q ++ (lineto_text sep ps ++ tail))))))) := by
      rw [hp, hrest]; simp [point_text]
    have h1 := loop_body_L (fuel + (ps.length + 1)) s [' '] sep p.1 p.2 _ hp2 hsp hsep hne
      (stops_number_space _)
    have hdw : (' ' :: 'L' :: ' ' :: (point_text sep q ++ (lineto_text sep ps ++ tail))).dropWhile
        isspace = 'L' :: ' ' :: (point_text sep q ++ (lineto_text sep ps ++ tail)) := by
      have a1 : isspace ' ' = true := by decide
      have a2 : isspace 'L' = false := by decide
      simp [List.dropWhile, a1, a2]
    rw [hdw] at h1
    have hlen : fuel + ((q :: ps).length + 1) = (fuel + (ps.length + 1)) + 1 := by
      simp; omega
    rw [hlen, parse_loop_step _ s _ (by simp [hp]) h1]
    rw [ih q _ fuel rfl (by simpa using hcur)]
    congr 1
    simp only [PState.cur, cur_set s _ hcur, add_point_to_path, List.set_set]
    simp [to_point]


/-! ## The loop of the `C` command -/

/-- The constant `0.1` as a `float` is `0x3DCCCCCD` and as a `double` is
`0x3FB999999999999A`. -/
theorem tenth_values :
    roundRat binary32 1 10 = Fp.fin 13421773 (-27) ∧
      dbl_0_1 = Fp.fin 3602879701896397 (-55) := by decide

/-- Ten additions of `0.1` to a `float` that starts at `0` end above `1`. -/
theorem tenth_sum_above_one :
    Nat.iterate float_add_0_1 10 (0 : F32) = Fp.fin 8388609 (-23) ∧
      Fp.le (Fp.fin 8388609 (-23)) (1 : F32) = false := by decide

theorem cubic_ts_run : is_t_run (0 : F32) cubic_ts = true := by decide

theorem cubic_loop_run (x1 y1 x2 y2 x3 y3 : F32) :
    ∀ (ts : List F32) (t : F32) (s : PState) (fuel : Nat), is_t_run t ts = true →
      ts.length < fuel →
      cubic_loop x1 y1 x2 y2 x3 y3 fuel t s =
        .ok (s.add_points (ts.map (fun t =>
          ⟨cubic_bezier s.current_point.x x1 x2 x3 t, cubic_bezier s.current_point.y y1 y2 y3 t⟩))) := by
  intro ts
  induction ts with
  | nil =>
    intro t s fuel h hf
    obtain ⟨k, rfl⟩ : ∃ k, fuel = k + 1 := ⟨fuel - 1, by simp at hf; omega⟩
    simp only [is_t_run, Bool.not_eq_true'] at h
    simp [cubic_loop, h, PState.add_points]
  | cons u us ih =>
    intro t s fuel h hf
    obtain ⟨k, rfl⟩ : ∃ k, fuel = k + 1 := ⟨fuel - 1, by simp at hf; omega⟩
    simp only [is_t_run, Bool.and_eq_true, decide_eq_true_eq] at h
    obtain ⟨⟨rfl, hle⟩, hrun⟩ := h
    rw [cubic_loop, if_pos hle]
    rw [ih _ _ k hrun (by simpa using hf)]
    rfl

theorem add_points_fields (pts : List Point) :
    ∀ s : PState, (s.add_points pts).p = s.p ∧ (s.add_points pts).command = s.command ∧
      (s.add_points pts).new_subpath = s.new_subpath ∧
      (s.add_points pts).current_path = s.current_path ∧
      (s.add_points pts).current_point = s.current_point ∧
      (s.add_points pts).start_point = s.start_point ∧
      (s.add_points pts).compound.num_paths = s.compound.num_paths := by
  induction pts with
  | nil => intro s; simp [PState.add_points]
  | cons q pts ih =>
    intro s
    have := ih (s.add_point q.x q.y)
    simpa [PState.add_points, PState.add_point] using this

theorem set_get_same {α : Type} : ∀ (l : List α) (i : Nat) (h : i < l.length),
    l.set i (l.get ⟨i, h⟩) = l
  | [], _, h => absurd h (by simp)
  | _ :: _, 0, _ => rfl
  | a :: l, i + 1, h => by
    have := set_get_same l i (by simpa using h)
    simpa [List.set] using this

theorem add_points_paths (pts : List Point) :
    ∀ s : PState, s.current_path < s.compound.paths.length →
      (s.add_points pts).compound.paths =
        s.compound.paths.set s.current_path ⟨s.cur.points ++ pts, s.cur.is_hole⟩ := by
  induction pts with
  | nil =>
    intro s h
    simp only [PState.add_points, List.foldl_nil, List.append_nil, PState.cur]
    rw [List.getD_eq_getElem _ _ h]
    exact (set_get_same _ _ h).symm
  | cons q pts ih =>
    intro s h
    have h2 : (s.add_point q.x q.y).current_path < (s.add_point q.x q.y).compound.paths.length := by
      simpa [PState.add_point] using h
    have := ih (s.add_point q.x q.y) h2
    simp only [PState.add_points, List.foldl_cons] at this ⊢
    rw [this]
    simp only [PState.add_point, PState.cur, cur_set s _ h, add_point_to_path, List.set_set]
    simp


theorem stops_number_operands (ns : List Numeral) (rest : List Char)
    (h : stops_number rest = true) : stops_number (operands_text ns ++ rest) = true := by
  cases ns with
  | nil => exact h
  | cons n ns => rfl

theorem parse_number_operand (n : Numeral) (ns : List Numeral) (rest : List Char)
    (h : stops_number rest = true) :
    parse_number (operands_text (n :: ns) ++ rest) = (n.toFloat, operands_text ns ++ rest) := by
  have hsp : ∀ c ∈ [' '], is_sep c = true := by decide
  have := parse_number_numeral [' '] hsp n (operands_text ns ++ rest)
    (stops_number_operands ns rest h)
  simpa [operands_text] using this

theorem loop_body_C (fuel : Nat) (hfuel : 11 ≤ fuel) (s : PState)
    (x1 y1 x2 y2 x3 y3 : Numeral) (rest : List Char)
    (hp : s.p = 'C' :: (operands_text [x1, y1, x2, y2, x3, y3] ++ rest))
    (hcur : s.current_path < s.compound.paths.length)
    (h : stops_number rest = true) :
    loop_body fuel s = .ok
      ⟨rest.dropWhile isspace, 'C', false,
        ⟨s.compound.paths.set s.current_path
            ⟨s.cur.points ++ cubic_samples s.current_point ⟨x1.toFloat, y1.toFloat⟩
              ⟨x2.toFloat, y2.toFloat⟩ ⟨x3.toFloat, y3.toFloat⟩, s.cur.is_hole⟩,
          s.compound.num_paths⟩,
        s.current_path, ⟨x3.toFloat, y3.toFloat⟩, s.start_point⟩ := by
  have ha : isalpha 'C' = true := by decide
  have hm : ¬ ('C' = 'M') := by decide
  have hl : ¬ ('C' = 'L') := by decide
  have hh : ¬ ('C' = 'H') := by decide
  have hv : ¬ ('C' = 'V') := by decide
  have hz : ¬ ('C' = 'Z' ∨ 'C' = 'z') := by decide
  have e1 := parse_number_operand x1 [y1, x2, y2, x3, y3] rest h
  have e2 := parse_number_operand y1 [x2, y2, x3, y3] rest h
  have e3 := parse_number_operand x2 [y2, x3, y3] rest h
  have e4 := parse_number_operand y2 [x3, y3] rest h
  have e5 := parse_number_operand x3 [y3] rest h
  have e6 := parse_number_operand y3 [] rest h
  have hlen : cubic_ts.length < fuel := by
    have : cubic_ts.length = 10 := rfl
    omega
  unfold loop_body
  rw [hp]
  simp only [ha, if_true, take_letter, hm, false_and, if_false, process_command, hl, hh, hv, hz,
    e1, e2, e3, e4, e5, e6, decide_False]
  have hrun := fun S => cubic_loop_run x1.toFloat y1.toFloat x2.toFloat y2.toFloat x3.toFloat
    y3.toFloat cubic_ts 0 S fuel cubic_ts_run hlen
  rw [hrun]
  have hs : cubic_samples s.current_point ⟨x1.toFloat, y1.toFloat⟩ ⟨x2.toFloat, y2.toFloat⟩
      ⟨x3.toFloat, y3.toFloat⟩ =
      cubic_ts.map (fun t =>
        (⟨cubic_bezier (PState.mk (operands_text [] ++ rest) 'C' false s.compound s.current_path
            s.current_point s.start_point).current_point.x x1.toFloat x2.toFloat x3.toFloat t,
          cubic_bezier (PState.mk (operands_text [] ++ rest) 'C' false s.compound s.current_path
            s.current_point s.start_point).current_point.y y1.toFloat y2.toFloat y3.toFloat t⟩ :
          Point)) := rfl
  rw [hs]
  generalize cubic_ts.map (fun t =>
        (⟨cubic_bezier (PState.mk (operands_text [] ++ rest) 'C' false s.compound s.current_path
            s.current_point s.start_point).current_point.x x1.toFloat x2.toFloat x3.toFloat t,
          cubic_bezier (PState.mk (operands_text [] ++ rest) 'C' false s.compound s.current_path
            s.current_point s.start_point).current_point.y y1.toFloat y2.toFloat y3.toFloat t⟩ :
          Point)) = pts
  have hf := add_points_fields pts
    ⟨operands_text [] ++ rest, 'C', false, s.compound, s.current_path, s.current_point,
      s.start_point⟩
  have hpaths := add_points_paths pts
    ⟨operands_text [] ++ rest, 'C', false, s.compound, s.current_path, s.current_point,
      s.start_point⟩ hcur
  obtain ⟨f1, f2, f3, f4, f5, f6, f7⟩ := hf
  simp only [Except.ok.injEq, PState.mk.injEq]
  refine ⟨?_, f2, f3, ?_, f4, trivial, f6⟩
  · rw [f1]; rfl
  · exact congrArg₂ CompoundPath.mk hpaths f7

/-! ## Sub-paths and the commands between two moves -/

theorem at_boundary_cases {rest : List Char} (h : at_boundary rest = true) :
    rest = [] ∨ ∃ d r, rest = ' ' :: d :: r ∧ isalpha d = true := by
  match rest, h with
  | [], _ => exact Or.inl rfl
  | [_], h => simp [at_boundary] at h
  | c :: d :: r, h =>
    simp only [at_boundary, Bool.and_eq_true, decide_eq_true_eq] at h
    exact Or.inr ⟨d, r, by rw [h.1], h.2⟩

theorem isalpha_not_space {d : Char} (h : isalpha d = true) : isspace d = false := by
  simp only [isalpha, Bool.or_eq_true, Bool.and_eq_true, decide_eq_true_eq] at h
  simp only [isspace, Bool.or_eq_false_iff, decide_eq_false_iff_not, Bool.and_eq_false_imp,
    decide_eq_true_eq]
  omega

theorem at_boundary_dropWhile_idem {rest : List Char} (h : at_boundary rest = true) :
    (rest.dropWhile isspace).dropWhile isspace = rest.dropWhile isspace := by
  rcases at_boundary_cases h with rfl | ⟨d, r, rfl, hd⟩
  · rfl
  · have a2 : isspace ' ' = true := by decide
    simp [List.dropWhile, a2, isalpha_not_space hd]

/-- C1: for points `p0, p1, ..., pn` (`n ≥ 1`) written as decimal numerals, the two
coordinates of a point separated by white space or commas, and channels
`R, G, B ≤ 255`, the text `M p0 L p1 ... L pn Z` with the colour text `rgb(R,G,B)`
parses (given fuel for its `n + 2` commands) to one polygon that is not a hole,
with the points `p0, ..., pn` followed by a copy of `p0`, and the fill colour
`(R, G, B, 255)`. -/
theorem parse_svg_path_polyline (sep : List Char) (hsep : ∀ c ∈ sep, is_sep c = true)
    (hne : sep ≠ []) (g : Globals) (p0 p1 : Numeral × Numeral)
    (ps : List (Numeral × Numeral)) (r gr b : Nat) (hr : r ≤ 255) (hg : gr ≤ 255)
    (hb : b ≤ 255) (fuel : Nat) (hfuel : ps.length + 3 ≤ fuel) :
    parse_svg_path fuel g (polyline_text sep p0 (p1 :: ps)) (rgb_text r gr b) =
      .ok (⟨[⟨(p0 :: p1 :: ps).map to_point ++ [to_point p0], false⟩], ⟨r, gr, b, 255⟩⟩,
        ⟨to_point ((p1 :: ps).getLast (List.cons_ne_nil _ _)), to_point p0⟩) := by
  obtain ⟨k, rfl⟩ : ∃ k, fuel = ((k + 1) + (ps.length + 1)) + 1 := ⟨fuel - (ps.length + 3), by omega⟩
  have hsp : ∀ c ∈ [' '], is_sep c = true := by decide
  have hZ : stops_number [' ', 'Z'] = true := by decide
  have hdZ : [' ', 'Z'].dropWhile isspace = ['Z'] := by decide
  have hrest : lineto_text sep (p1 :: ps) ++ [' ', 'Z'] =
      ' ' :: 'L' :: ' ' :: (point_text sep p1 ++ (lineto_text sep ps ++ [' ', 'Z'])) := by
    simp [lineto_text]
  have hdw : (' ' :: 'L' :: ' ' :: (point_text sep p1 ++
      (lineto_text sep ps ++ [' ', 'Z']))).dropWhile isspace =
      'L' :: ' ' :: (point_text sep p1 ++ (lineto_text sep ps ++ [' ', 'Z'])) := by
    have a1 : isspace ' ' = true := by decide
    have a2 : isspace 'L' = false := by decide
    simp [List.dropWhile, a1, a2]
  have hp0 : (initial_state g (polyline_text sep p0 (p1 :: ps))).p =
      'M' :: ([' '] ++ (p0.1.text ++ (sep ++ (p0.2.text ++
        (' ' :: 'L' :: ' ' :: (point_text sep p1 ++ (lineto_text sep ps ++ [' ', 'Z']))))))) := by
    simp [initial_state, polyline_text, point_text, lineto_text]
  have h1 := loop_body_M ((k + 1) + (ps.length + 1)) _ [' '] sep p0.1 p0.2 _ hp0 hsp hsep hne
    (stops_number_space _)
  rw [hdw] at h1
  unfold parse_svg_path run_from
  rw [parse_loop_step _ _ _ (by rw [hp0]; simp) h1,
    run_linetos sep hsep hne [' ', 'Z'] hZ ps p1 _ (k + 1) rfl
      (by simp [take_letter, initial_state, MAX_SUBPATHS]),
    hdZ, parse_loop_step k _ _ (by simp) (loop_body_Z k _ 'Z' (Or.inl rfl) [] rfl),
    parse_loop_nil k _ rfl]
  simp [finish, PState.cur, take_letter, initial_state, MAX_SUBPATHS, List.replicate,
    add_point_to_path, add_compound_path_to_svg, add_compound_loop,
    parse_color_rgb_text r gr b hr hg hb, to_point]

/-- C1, at the text and colour of the specification's example. -/
theorem parse_svg_path_polyline_witness :
    polyline_text [','] (⟨false, 0, [], []⟩, ⟨false, 0, [], []⟩)
        [(⟨false, 1, [0], []⟩, ⟨false, 0, [], []⟩), (⟨false, 1, [0], []⟩, ⟨false, 1, [0], []⟩),
          (⟨false, 0, [], []⟩, ⟨false, 1, [0], []⟩)] = "M 0,0 L 10,0 L 10,10 L 0,10 Z".toList ∧
      rgb_text 1 2 3 = "rgb(1,2,3)".toList ∧
      parse_svg_path 5 Globals.initial
        (polyline_text [','] (⟨false, 0, [], []⟩, ⟨false, 0, [], []⟩)
          ((⟨false, 1, [0], []⟩, ⟨false, 0, [], []⟩) :: [(⟨false, 1, [0], []⟩, ⟨false, 1, [0], []⟩),
            (⟨false, 0, [], []⟩, ⟨false, 1, [0], []⟩)])) (rgb_text 1 2 3) =
        .ok (⟨[⟨[⟨0, 0⟩, ⟨10, 0⟩, ⟨10, 10⟩, ⟨0, 10⟩, ⟨0, 0⟩], false⟩], ⟨1, 2, 3, 255⟩⟩,
          ⟨⟨0, 10⟩, ⟨0, 0⟩⟩) :=
  ⟨by decide, by decide,
    parse_svg_path_polyline [','] (by decide) (by decide) Globals.initial
      (⟨false, 0, [], []⟩, ⟨false, 0, [], []⟩) (⟨false, 1, [0], []⟩, ⟨false, 0, [], []⟩)
      [(⟨false, 1, [0], []⟩, ⟨false, 1, [0], []⟩), (⟨false, 0, [], []⟩, ⟨false, 1, [0], []⟩)]
      1 2 3 (by decide) (by decide) (by decide) 5 (by decide)⟩

/-! ## C2: one polygon for each `M` -/

theorem add_compound_loop_flags (compound : CompoundPath) (n : Nat) :
    ∀ (i : Nat) (svg res : SVGPath), add_compound_loop compound n i svg = .ok res →
      ∃ l : List Path, res.paths = svg.paths ++ l ∧ l.length = n ∧
        ∀ (k : Nat) (hk : k < l.length), (l.get ⟨k, hk⟩).is_hole = decide (0 < i + k) := by
  induction n with
  | zero =>
    intro i svg res h
    simp only [add_compound_loop, Except.ok.injEq] at h
    subst h
    exact ⟨[], by simp, rfl, fun k hk => absurd hk (by simp)⟩
  | succ n ih =>
    intro i svg res h
    rw [add_compound_loop] at h
    cases hget : compound.paths.get? i with
    | none => rw [hget] at h; cases h
    | some path =>
      rw [hget] at h
      obtain ⟨l, hl, hlen, hflag⟩ := ih (i + 1) _ res h
      refine ⟨{ path with is_hole := decide (0 < i) } :: l, by simpa using hl, by simp [hlen], ?_⟩
      intro k hk
      cases k with
      | zero => rfl
      | succ k =>
        have := hflag k (by simpa using hk)
        simpa [Nat.add_assoc, Nat.add_comm 1 k] using this

/-- C3: in the shape `parse_svg_path` returns, the polygon at index 0 is not a
hole and every polygon at an index from 1 on is a hole. -/
theorem parse_svg_path_hole_flags (fuel : Nat) (g : Globals) (path_data style : List Char)
    (svg : SVGPath) (g1 : Globals)
    (h : parse_svg_path fuel g path_data style = .ok (svg, g1)) :
    ∀ (i : Nat) (hi : i < svg.paths.length), (svg.paths.get ⟨i, hi⟩).is_hole = decide (0 < i) := by
  unfold parse_svg_path run_from at h
  cases hl : parse_loop fuel (initial_state g path_data) with
  | error e => rw [hl] at h; cases h
  | ok s =>
    rw [hl] at h
    unfold finish at h
    simp only at h
    split at h
    · cases h
    · rename_i res hres
      simp only [Except.ok.injEq, Prod.mk.injEq] at h
      obtain ⟨rfl, -⟩ := h
      obtain ⟨l, hl2, -, hflag⟩ := add_compound_loop_flags _ _ 0 _ _ hres
      simp only [List.nil_append] at hl2
      intro i hi
      have hi2 : i < l.length := by rw [← hl2]; exact hi
      have := hflag i hi2
      simp only [Nat.zero_add] at this
      rw [← this]
      congr 1
      simp [hl2]

/-- C3, at a text with three sub-paths. -/
theorem parse_svg_path_hole_flags_witness :
    parse_svg_path 6 Globals.initial "M 0 0 L 1 1 M 2 2 L 3 3 M 4 4 Z".toList "rgb(1,2,3)".toList =
        .ok (⟨[⟨[⟨0, 0⟩, ⟨1, 1⟩], false⟩, ⟨[⟨2, 2⟩, ⟨3, 3⟩], true⟩, ⟨[⟨4, 4⟩, ⟨4, 4⟩], true⟩],
          ⟨1, 2, 3, 255⟩⟩, ⟨⟨4, 4⟩, ⟨4, 4⟩⟩) ∧
      ∀ (i : Nat) (hi : i < ([⟨[⟨0, 0⟩, ⟨1, 1⟩], false⟩, ⟨[⟨2, 2⟩, ⟨3, 3⟩], true⟩,
          ⟨[⟨4, 4⟩, ⟨4, 4⟩], true⟩] : List Path).length),
        (([⟨[⟨0, 0⟩, ⟨1, 1⟩], false⟩, ⟨[⟨2, 2⟩, ⟨3, 3⟩], true⟩, ⟨[⟨4, 4⟩, ⟨4, 4⟩], true⟩] :
          List Path).get ⟨i, hi⟩).is_hole = decide (0 < i) :=
  ⟨by decide,
    parse_svg_path_hole_flags 6 Globals.initial "M 0 0 L 1 1 M 2 2 L 3 3 M 4 4 Z".toList
      "rgb(1,2,3)".toList
      ⟨[⟨[⟨0, 0⟩, ⟨1, 1⟩], false⟩, ⟨[⟨2, 2⟩, ⟨3, 3⟩], true⟩, ⟨[⟨4, 4⟩, ⟨4, 4⟩], true⟩],
        ⟨1, 2, 3, 255⟩⟩ ⟨⟨4, 4⟩, ⟨4, 4⟩⟩ (by decide)⟩

/-! ## C4: more than ten sub-paths -/

/-- C4 (refuted on the code): a text with eleven sub-paths.  When the command
loop ends the tenth slot holds the points of the tenth and of the eleventh
sub-path, the count stands at ten and is raised to eleven, and
`add_compound_path_to_svg` then reads an eleventh slot that does not exist. -/
theorem parse_svg_path_eleven_subpaths :
    (parse_loop 22 (initial_state Globals.initial
          "M 0 0 Z M 1 1 Z M 2 2 Z M 3 3 Z M 4 4 Z M 5 5 Z M 6 6 Z M 7 7 Z M 8 8 Z M 9 9 Z M 10 10 Z".toList)).map
        (fun s => (s.current_path, s.compound.num_paths, (s.compound.paths.getD 9 ⟨[], false⟩).points)) =
        .ok (9, 10, [⟨9, 9⟩, ⟨9, 9⟩, ⟨10, 10⟩, ⟨10, 10⟩]) ∧
      parse_svg_path 22 Globals.initial
          "M 0 0 Z M 1 1 Z M 2 2 Z M 3 3 Z M 4 4 Z M 5 5 Z M 6 6 Z M 7 7 Z M 8 8 Z M 9 9 Z M 10 10 Z".toList
          "rgb(1,2,3)".toList = .error .out_of_bounds := by
  decide

/-! ## C5: the samples of a cubic curve -/

/-- C5 (refuted on the code): `M 0 0 C 0 0 8 8 8 8`.  The loop over `t` runs ten
times, not eleven: the polygon has the point of `M` and ten samples, the last
sample is the one at `t` near `0.9` and not the end point `(8, 8)`, which is
never appended; the current point afterwards is `(8, 8)`. -/
theorem parse_svg_path_cubic_ten_samples :
    (parse_svg_path 13 Globals.initial "M 0 0 C 0 0 8 8 8 8".toList "rgb(1,2,3)".toList).map
        (fun r => (r.1.paths.map (fun q => (q.points.length, q.points.head?, q.points.getLast?)),
          r.2.current_point)) =
      .ok ([(11, some ⟨0, 0⟩, some ⟨Fp.fin 8153727 (-20), Fp.fin 8153727 (-20)⟩)], ⟨8, 8⟩) ∧
      (⟨Fp.fin 8153727 (-20), Fp.fin 8153727 (-20)⟩ : Point) ≠ ⟨8, 8⟩ := by
  decide

/-! ## C6: a cubic curve that is a straight segment -/

/-- C6 (counterexample): in `M 5 0 C 5 0 5 9 5 9` the first control point is the
current point `(5, 0)` and the second is the end point `(5, 9)`, yet the third
vertex the command appends has an abscissa other than `5`: it is not on the
segment from `(5, 0)` to `(5, 9)`. -/
theorem cubic_straight_sample_off_segment :
    (parse_svg_path 13 Globals.initial "M 5 0 C 5 0 5 9 5 9".toList "rgb(1,2,3)".toList).map
        (fun r => r.1.paths.map (fun q => q.points.get? 3)) =
      .ok [some ⟨Fp.fin 10485761 (-21), Fp.fin 3925869 (-22)⟩] ∧
      ¬ on_segment ⟨Fp.fin 5 0, Fp.fin 0 0⟩ ⟨Fp.fin 5 0, Fp.fin 9 0⟩
        ⟨Fp.fin 10485761 (-21), Fp.fin 3925869 (-22)⟩ := by
  refine ⟨by decide, ?_⟩
  rintro ⟨a, b, q, ha, hb, hq, s, -, -, hx, -⟩
  simp only [Point.toRat, Fp.toRat, Option.some.injEq] at ha hb hq
  subst ha hb hq
  norm_num at hx

theorem cubic_bezier_exact (a b t : ℚ) :
    cubic_bezier a a b b t = a + (3 * t ^ 2 - 2 * t ^ 3) * (b - a) := by
  unfold cubic_bezier
  ring

theorem cubic_ts_in_unit : ∀ t ∈ cubic_ts, ∃ tq : ℚ, Fp.toRat t = some tq ∧ 0 ≤ tq ∧ tq ≤ 1 := by
  intro t ht
  simp only [cubic_ts, List.mem_cons, List.mem_singleton, List.not_mem_nil, or_false] at ht
  rcases ht with rfl | rfl | rfl | rfl | rfl | rfl | rfl | rfl | rfl | rfl <;>
    exact ⟨_, rfl, by norm_num, by norm_num⟩

/-- C6 (as amended): in every state the command loop reaches on a path, for a `C`
command whose first control point is the current point `P0` and whose second
control point is the end point `P3`, the vertices
appended are the values of the Bezier expression in `float` arithmetic at the ten
values of `t`; each of these `t` is a number between 0 and 1, and evaluated
exactly at such a `t` the expression is `P0 + r * (P3 - P0)` with the same
`0 ≤ r ≤ 1` for both coordinates.  The samples are colinear up to round-off. -/
theorem cubic_straight_colinear_exact (g : Globals) (path_data : List Char) (n fuel0 : Nat)
    (fuel : Nat) (hfuel : 11 ≤ fuel) (s : PState)
    (x1 y1 x2 y2 x3 y3 : Numeral) (rest : List Char)
    (hreach : passes_from fuel0 n (initial_state g path_data) = .ok s)
    (hp : s.p = 'C' :: (operands_text [x1, y1, x2, y2, x3, y3] ++ rest))
    (hrest : stops_number rest = true)
    (h1 : (⟨x1.toFloat, y1.toFloat⟩ : Point) = s.current_point)
    (h2 : x2.toFloat = x3.toFloat ∧ y2.toFloat = y3.toFloat) :
    (∃ s1, loop_body fuel s = .ok s1 ∧
      s1.cur.points = s.cur.points ++
        cubic_ts.map (fun t =>
          ⟨cubic_bezier s.current_point.x s.current_point.x x3.toFloat x3.toFloat t,
            cubic_bezier s.current_point.y s.current_point.y y3.toFloat y3.toFloat t⟩)) ∧
      (∀ t ∈ cubic_ts, ∃ tq : ℚ, Fp.toRat t = some tq ∧ 0 ≤ tq ∧ tq ≤ 1) ∧
      (∀ a b c d t : ℚ, 0 ≤ t → t ≤ 1 →
        ∃ r : ℚ, 0 ≤ r ∧ r ≤ 1 ∧ cubic_bezier a a b b t = a + r * (b - a) ∧
          cubic_bezier c c d d t = c + r * (d - c)) := by
  have hcur := reached_slot fuel0 g path_data n s hreach
  refine ⟨?_, cubic_ts_in_unit, ?_⟩
  · refine ⟨_, loop_body_C fuel hfuel s x1 y1 x2 y2 x3 y3 rest hp hcur hrest, ?_⟩
    simp only [PState.cur, cur_set s _ hcur, cubic_samples, ← h1, h2.1, h2.2]
  · intro a b c d t h0 ht1
    refine ⟨3 * t ^ 2 - 2 * t ^ 3, ?_, ?_, cubic_bezier_exact a b t, cubic_bezier_exact c d t⟩
    · have : 3 * t ^ 2 - 2 * t ^ 3 = t ^ 2 * (3 - 2 * t) := by ring
      rw [this]
      exact mul_nonneg (sq_nonneg t) (by linarith)
    · have : 1 - (3 * t ^ 2 - 2 * t ^ 3) = (1 - t) ^ 2 * (1 + 2 * t) := by ring
      have h3 : 0 ≤ (1 - t) ^ 2 * (1 + 2 * t) := mul_nonneg (sq_nonneg _) (by linarith)
      linarith

/-- C6 (as amended), after the `M 5 0` of the path `M 5 0 C 5 0 5 9 5 9`. -/
theorem cubic_straight_colinear_exact_witness :
    passes_from 0 1 (initial_state Globals.initial "M 5 0 C 5 0 5 9 5 9".toList) =
        .ok (PState.mk "C 5 0 5 9 5 9".toList 'L' true
          ⟨⟨[⟨5, 0⟩], false⟩ :: List.replicate 9 ⟨[], false⟩, 0⟩ 0 ⟨5, 0⟩ ⟨5, 0⟩) ∧
    (∃ s1, loop_body 11 (PState.mk "C 5 0 5 9 5 9".toList 'L' true
          ⟨⟨[⟨5, 0⟩], false⟩ :: List.replicate 9 ⟨[], false⟩, 0⟩ 0 ⟨5, 0⟩ ⟨5, 0⟩) = .ok s1 ∧
        s1.cur.points = [⟨5, 0⟩] ++
          cubic_ts.map (fun t => ⟨cubic_bezier (5 : F32) 5 5 5 t, cubic_bezier (0 : F32) 0 9 9 t⟩)) ∧
      (∀ t ∈ cubic_ts, ∃ tq : ℚ, Fp.toRat t = some tq ∧ 0 ≤ tq ∧ tq ≤ 1) ∧
      (∀ a b c d t : ℚ, 0 ≤ t → t ≤ 1 →
        ∃ r : ℚ, 0 ≤ r ∧ r ≤ 1 ∧ cubic_bezier a a b b t = a + r * (b - a) ∧
          cubic_bezier c c d d t = c + r * (d - c)) :=
  ⟨by decide,
    cubic_straight_colinear_exact Globals.initial "M 5 0 C 5 0 5 9 5 9".toList 1 0 11 (by decide)
      (PState.mk "C 5 0 5 9 5 9".toList 'L' true
        ⟨⟨[⟨5, 0⟩], false⟩ :: List.replicate 9 ⟨[], false⟩, 0⟩ 0 ⟨5, 0⟩ ⟨5, 0⟩)
      ⟨false, 5, [], []⟩ ⟨false, 0, [], []⟩ ⟨false, 5, [], []⟩ ⟨false, 9, [], []⟩
      ⟨false, 5, [], []⟩ ⟨false, 9, [], []⟩ [] (by decide) (by decide) (by decide) (by decide)
      (by decide)⟩

/-! ## C7: bare pairs after a move -/

theorem run_bare_pairs (sep : List Char) (hsep : ∀ c ∈ sep, is_sep c = true) (hne : sep ≠ [])
    (tail : List Char) (htail : stops_number tail = true) :
    ∀ (ps : List (Numeral × Numeral)) (p : Numeral × Numeral) (s : PState) (fuel : Nat),
      s.command = 'L' →
      s.p = point_text sep p ++ (bare_pairs sep ps ++ tail) →
      s.current_path < s.compound.paths.length →
      parse_loop (fuel + (ps.length + 1)) s =
        parse_loop fuel
          ⟨tail.dropWhile isspace, 'L', s.new_subpath,
            ⟨s.compound.paths.set s.current_path
                ⟨s.cur.points ++ (p :: ps).map to_point, s.cur.is_hole⟩,
              s.compound.num_paths⟩,
            s.current_path, to_point ((p :: ps).getLast (List.cons_ne_nil _ _)),
            s.start_point⟩ := by
  intro ps
  induction ps with
  | nil =>
    intro p s fuel hc hp _
    have hp2 : s.p = p.1.text ++ (sep ++ (p.2.text ++ tail)) := by
      rw [hp]; simp [point_text, bare_pairs]
    have h1 := loop_body_implicit_L fuel s sep p.1 p.2 tail hc hp2 hsep hne htail
    obtain ⟨c, t, ht, -, -, -⟩ := p.1.text_head
    rw [List.length_nil, Nat.zero_add, parse_loop_step fuel s _ (by simp [hp2, ht]) h1]
    rfl
  | cons q ps ih =>
    intro p s fuel hc hp hcur
    have hrest : bare_pairs sep (q :: ps) ++ tail =
        ' ' :: (point_text sep q ++ (bare_pairs sep ps ++ tail)) := by
      simp [bare_pairs]
    have hp2 : s.p = p.1.text ++ (sep ++ (p.2.text ++
        (' ' :: (point_text sep q ++ (bare_pairs sep ps ++ tail))))) := by
      rw [hp, hrest]; simp [point_text]
    have h1 := loop_body_implicit_L (fuel + (ps.length + 1)) s sep p.1 p.2 _ hc hp2 hsep hne
      (stops_number_space _)
    obtain ⟨c, t, ht, -, -, -⟩ := p.1.text_head
    obtain ⟨c2, t2, ht2, -, -, hsp2⟩ := q.1.text_head
    have hdw : (' ' :: (point_text sep q ++ (bare_pairs sep ps ++ tail))).dropWhile isspace =
        point_text sep q ++ (bare_pairs sep ps ++ tail) := by
      have a1 : isspace ' ' = true := by decide
      simp [List.dropWhile, a1, point_text, ht2, hsp2]
    rw [hdw] at h1
    have hlen : fuel + ((q :: ps).length + 1) = (fuel + (ps.length + 1)) + 1 := by
      simp; omega
    rw [hlen, parse_loop_step _ s _ (by simp [hp2, ht]) h1]
    rw [ih q _ fuel rfl rfl (by simpa using hcur)]
    congr 1
    simp only [PState.cur, cur_set s _ hcur, add_point_to_path, List.set_set]
    simp [to_point]

/-- C7: the text `M p0 p1 ... pn`, with bare coordinate pairs after the move,
and the text `M p0 L p1 ... L pn` parse to the same result: one polygon with
the points `p0, ..., pn`, each bare pair having been taken as a line-to. -/
theorem parse_svg_path_implicit_lineto (sep : List Char) (hsep : ∀ c ∈ sep, is_sep c = true)
    (hne : sep ≠ []) (g : Globals) (p0 : Numeral × Numeral) (ps : List (Numeral × Numeral))
    (style : List Char) (fuel : Nat) (hfuel : ps.length + 1 ≤ fuel) :
    parse_svg_path fuel g (bare_text sep p0 ps) style =
        parse_svg_path fuel g (moveto_lineto_text sep p0 ps) style ∧
      parse_svg_path fuel g (bare_text sep p0 ps) style =
        .ok (⟨[⟨(p0 :: ps).map to_point, false⟩], parse_color style⟩,
          ⟨to_point ((p0 :: ps).getLast (List.cons_ne_nil _ _)), to_point p0⟩) := by
  have hsp : ∀ c ∈ [' '], is_sep c = true := by decide
  have key : parse_svg_path fuel g (bare_text sep p0 ps) style =
        .ok (⟨[⟨(p0 :: ps).map to_point, false⟩], parse_color style⟩,
          ⟨to_point ((p0 :: ps).getLast (List.cons_ne_nil _ _)), to_point p0⟩) ∧
      parse_svg_path fuel g (moveto_lineto_text sep p0 ps) style =
        .ok (⟨[⟨(p0 :: ps).map to_point, false⟩], parse_color style⟩,
          ⟨to_point ((p0 :: ps).getLast (List.cons_ne_nil _ _)), to_point p0⟩) := by
    cases ps with
    | nil =>
      obtain ⟨k, rfl⟩ : ∃ k, fuel = k + 1 := ⟨fuel - 1, by simp at hfuel; omega⟩
      have hp0 : (initial_state g (bare_text sep p0 [])).p =
          'M' :: ([' '] ++ (p0.1.text ++ (sep ++ (p0.2.text ++ [])))) := by
        simp [initial_state, bare_text, point_text, bare_pairs]
      have h1 := loop_body_M k _ [' '] sep p0.1 p0.2 _ hp0 hsp hsep hne rfl
      have hsame : moveto_lineto_text sep p0 [] = bare_text sep p0 [] := rfl
      rw [hsame, and_self]
      unfold parse_svg_path run_from
      rw [parse_loop_step _ _ _ (by rw [hp0]; simp) h1, parse_loop_nil k _ rfl]
      simp [finish, PState.cur, take_letter, initial_state, MAX_SUBPATHS, List.replicate,
        add_point_to_path, add_compound_path_to_svg, add_compound_loop, to_point]
    | cons p1 ps =>
      obtain ⟨k, rfl⟩ : ∃ k, fuel = (k + (ps.length + 1)) + 1 :=
        ⟨fuel - (ps.length + 2), by simp at hfuel; omega⟩
      constructor
      · obtain ⟨c2, t2, ht2, -, -, hsp2⟩ := p1.1.text_head
        have hdw : (' ' :: (point_text sep p1 ++ (bare_pairs sep ps ++ []))).dropWhile isspace =
            point_text sep p1 ++ (bare_pairs sep ps ++ []) := by
          have a1 : isspace ' ' = true := by decide
          simp [List.dropWhile, a1, point_text, ht2, hsp2]
        have hp0 : (initial_state g (bare_text sep p0 (p1 :: ps))).p =
            'M' :: ([' '] ++ (p0.1.text ++ (sep ++ (p0.2.text ++
              (' ' :: (point_text sep p1 ++ (bare_pairs sep ps ++ []))))))) := by
          simp [initial_state, bare_text, point_text, bare_pairs]
        have h1 := loop_body_M (k + (ps.length + 1)) _ [' '] sep p0.1 p0.2 _ hp0 hsp hsep hne
          (stops_number_space _)
        rw [hdw] at h1
        unfold parse_svg_path run_from
        rw [parse_loop_step _ _ _ (by rw [hp0]; simp) h1,
          run_bare_pairs sep hsep hne [] rfl ps p1 _ k rfl rfl
            (by simp [take_letter, initial_state, MAX_SUBPATHS]),
          parse_loop_nil k _ rfl]
        simp [finish, PState.cur, take_letter, initial_state, MAX_SUBPATHS, List.replicate,
          add_point_to_path, add_compound_path_to_svg, add_compound_loop, to_point]
      · have hdw : (' ' :: 'L' :: ' ' :: (point_text sep p1 ++
            (lineto_text sep ps ++ []))).dropWhile isspace =
            'L' :: ' ' :: (point_text sep p1 ++ (lineto_text sep ps ++ [])) := by
          have a1 : isspace ' ' = true := by decide
          have a2 : isspace 'L' = false := by decide
          simp [List.dropWhile, a1, a2]
        have hp0 : (initial_state g (moveto_lineto_text sep p0 (p1 :: ps))).p =
            'M' :: ([' '] ++ (p0.1.text ++ (sep ++ (p0.2.text ++
              (' ' :: 'L' :: ' ' :: (point_text sep p1 ++ (lineto_text sep ps ++ []))))))) := by
          simp [initial_state, moveto_lineto_text, point_text, lineto_text]
        have h1 := loop_body_M (k + (ps.length + 1)) _ [' '] sep p0.1 p0.2 _ hp0 hsp hsep hne
          (stops_number_space _)
        rw [hdw] at h1
        unfold parse_svg_path run_from
        rw [parse_loop_step _ _ _ (by rw [hp0]; simp) h1,
          run_linetos sep hsep hne [] rfl ps p1 _ k rfl
            (by simp [take_letter, initial_state, MAX_SUBPATHS]),
          parse_loop_nil k _ rfl]
        simp [finish, PState.cur, take_letter, initial_state, MAX_SUBPATHS, List.replicate,
          add_point_to_path, add_compound_path_to_svg, add_compound_loop, to_point]
  exact ⟨key.1.trans key.2.symm, key.1⟩

/-- C7, at the texts `M 0 0 10 0 10 10` and `M 0 0 L 10 0 L 10 10`. -/
theorem parse_svg_path_implicit_lineto_witness :
    bare_text [' '] (⟨false, 0, [], []⟩, ⟨false, 0, [], []⟩)
        [(⟨false, 1, [0], []⟩, ⟨false, 0, [], []⟩), (⟨false, 1, [0], []⟩, ⟨false, 1, [0], []⟩)] =
        "M 0 0 10 0 10 10".toList ∧
      moveto_lineto_text [' '] (⟨false, 0, [], []⟩, ⟨false, 0, [], []⟩)
        [(⟨false, 1, [0], []⟩, ⟨false, 0, [], []⟩), (⟨false, 1, [0], []⟩, ⟨false, 1, [0], []⟩)] =
        "M 0 0 L 10 0 L 10 10".toList ∧
      parse_svg_path 3 Globals.initial "M 0 0 10 0 10 10".toList "rgb(1,2,3)".toList =
        parse_svg_path 3 Globals.initial "M 0 0 L 10 0 L 10 10".toList "rgb(1,2,3)".toList ∧
      parse_svg_path 3 Globals.initial "M 0 0 10 0 10 10".toList "rgb(1,2,3)".toList =
        .ok (⟨[⟨[⟨0, 0⟩, ⟨10, 0⟩, ⟨10, 10⟩], false⟩], ⟨1, 2, 3, 255⟩⟩, ⟨⟨10, 10⟩, ⟨0, 0⟩⟩) :=
  ⟨by decide, by decide,
    parse_svg_path_implicit_lineto [' '] (by decide) (by decide) Globals.initial
      (⟨false, 0, [], []⟩, ⟨false, 0, [], []⟩)
      [(⟨false, 1, [0], []⟩, ⟨false, 0, [], []⟩), (⟨false, 1, [0], []⟩, ⟨false, 1, [0], []⟩)]
      "rgb(1,2,3)".toList 3 (by decide)⟩

/-! ## C8: horizontal and vertical line-to -/

/-- C8: in every state `s` the command loop reaches on a path, with current point
`(cx, cy)`, a pass over `H x` appends the vertex `(x, cy)` to the active sub-path
and makes it the current point, and a pass over `V y` appends `(cx, y)` and makes
it the current point; the active sub-path stays the same one. -/
theorem loop_body_horizontal_vertical (g : Globals) (path_data : List Char) (n fuel0 : Nat)
    (fuel : Nat) (s : PState) (cx cy : F32) (c : Char)
    (g1 : List Char) (x : Numeral) (rest : List Char)
    (hreach : passes_from fuel0 n (initial_state g path_data) = .ok s)
    (hc : c = 'H' ∨ c = 'V')
    (hp : s.p = c :: (g1 ++ (x.text ++ rest)))
    (hcp : s.current_point = ⟨cx, cy⟩)
    (hg1 : ∀ d ∈ g1, is_sep d = true) (hrest : stops_number rest = true) :
    ∃ s1, loop_body fuel s = .ok s1 ∧
      s1.cur.points =
        s.cur.points ++ [if c = 'H' then ⟨x.toFloat, cy⟩ else ⟨cx, x.toFloat⟩] ∧
      s1.current_point = (if c = 'H' then ⟨x.toFloat, cy⟩ else ⟨cx, x.toFloat⟩) ∧
      s1.current_path = s.current_path ∧ s1.p = rest.dropWhile isspace := by
  have hcur := reached_slot fuel0 g path_data n s hreach
  rcases hc with rfl | rfl
  · refine ⟨_, loop_body_H fuel s g1 x rest hp hg1 hrest, ?_, ?_, rfl, rfl⟩
    · simp only [PState.cur, cur_set s _ hcur, add_point_to_path, hcp, if_true]
    · simp only [hcp, if_true]
  · have hne : ¬ ('V' = 'H') := by decide
    refine ⟨_, loop_body_V fuel s g1 x rest hp hg1 hrest, ?_, ?_, rfl, rfl⟩
    · simp only [PState.cur, cur_set s _ hcur, add_point_to_path, hcp, if_neg hne]
    · simp only [hcp, if_neg hne]

/-- C8, after the `M 1 2` of the paths `M 1 2 H 5` and `M 1 2 V 5`. -/
theorem loop_body_horizontal_vertical_witness :
    passes_from 0 1 (initial_state Globals.initial "M 1 2 H 5".toList) =
        .ok (PState.mk "H 5".toList 'L' true
          ⟨⟨[⟨1, 2⟩], false⟩ :: List.replicate 9 ⟨[], false⟩, 0⟩ 0 ⟨1, 2⟩ ⟨1, 2⟩) ∧
      (∃ s1, loop_body 0 (PState.mk "H 5".toList 'L' true
            ⟨⟨[⟨1, 2⟩], false⟩ :: List.replicate 9 ⟨[], false⟩, 0⟩ 0 ⟨1, 2⟩ ⟨1, 2⟩) = .ok s1 ∧
          s1.cur.points = [⟨1, 2⟩] ++ [if 'H' = 'H' then ⟨5, 2⟩ else ⟨1, 5⟩] ∧
          s1.current_point = (if 'H' = 'H' then ⟨5, 2⟩ else ⟨1, 5⟩) ∧
          s1.current_path = 0 ∧ s1.p = []) ∧
      (∃ s1, loop_body 0 (PState.mk "V 5".toList 'L' true
            ⟨⟨[⟨1, 2⟩], false⟩ :: List.replicate 9 ⟨[], false⟩, 0⟩ 0 ⟨1, 2⟩ ⟨1, 2⟩) = .ok s1 ∧
          s1.cur.points = [⟨1, 2⟩] ++ [if 'V' = 'H' then ⟨5, 2⟩ else ⟨1, 5⟩] ∧
          s1.current_point = (if 'V' = 'H' then ⟨5, 2⟩ else ⟨1, 5⟩) ∧
          s1.current_path = 0 ∧ s1.p = []) :=
  ⟨by decide,
    loop_body_horizontal_vertical Globals.initial "M 1 2 H 5".toList 1 0 0
      (PState.mk "H 5".toList 'L' true
        ⟨⟨[⟨1, 2⟩], false⟩ :: List.replicate 9 ⟨[], false⟩, 0⟩ 0 ⟨1, 2⟩ ⟨1, 2⟩) 1 2 'H' [' ']
      ⟨false, 5, [], []⟩ [] (by decide) (Or.inl rfl) (by decide) rfl (by decide) (by decide),
    loop_body_horizontal_vertical Globals.initial "M 1 2 V 5".toList 1 0 0
      (PState.mk "V 5".toList 'L' true
        ⟨⟨[⟨1, 2⟩], false⟩ :: List.replicate 9 ⟨[], false⟩, 0⟩ 0 ⟨1, 2⟩ ⟨1, 2⟩) 1 2 'V' [' ']
      ⟨false, 5, [], []⟩ [] (by decide) (Or.inr rfl) (by decide) rfl (by decide) (by decide)⟩

/-! ## C9: unsupported commands -/

theorem finish_congr (style : List Char) (s t : PState) (h1 : s.compound = t.compound)
    (h2 : s.current_path = t.current_path) (h3 : s.current_point = t.current_point)
    (h4 : s.start_point = t.start_point) : finish style s = finish style t := by
  unfold finish PState.cur
  rw [h1, h2, h3, h4]

theorem take_letter_congr (b : Char) (r : List Char) (s t : PState)
    (h1 : s.compound = t.compound) (h2 : s.current_path = t.current_path)
    (h3 : s.current_point = t.current_point) (h4 : s.start_point = t.start_point)
    (h5 : b ≠ 'M' ∨ (s.new_subpath = t.new_subpath) ∨
      (s.new_subpath = false ∧ s.cur.points = [])) :
    take_letter b r s = take_letter b r t := by
  have hcur : s.cur = t.cur := by unfold PState.cur; rw [h1, h2]
  unfold take_letter
  rcases h5 with h5 | h5 | ⟨h5, h6⟩
  · simp only [h5, false_and, if_false, PState.mk.injEq, h1, h2, h3, h4, and_self]
  · simp only [h5, hcur, h1, h2]
    split_ifs <;> simp [h1, h2, h3, h4]
  · have h7 : ¬ (0 < s.cur.points.length) := by simp [h6]
    have h8 : ¬ (0 < t.cur.points.length) := by rw [← hcur]; exact h7
    simp only [h5, h7, h8, if_false]
    split_ifs <;> simp [h1, h2, h3, h4]

/-- C9 (counterexample): with `A = "M 0 0 "`, the unsupported command `Q 1 2 ` and
`B = "M 5 5"`, the text with the command has two polygons and the text without
it has one. -/
theorem parse_svg_path_unsupported_command_splits :
    parse_svg_path 3 Globals.initial ("M 0 0 ".toList ++ 'Q' :: " 1 2 ".toList ++ "M 5 5".toList)
        "rgb(1,2,3)".toList =
        .ok (⟨[⟨[⟨0, 0⟩], false⟩, ⟨[⟨5, 5⟩], true⟩], ⟨1, 2, 3, 255⟩⟩, ⟨⟨5, 5⟩, ⟨5, 5⟩⟩) ∧
      parse_svg_path 3 Globals.initial ("M 0 0 ".toList ++ "M 5 5".toList) "rgb(1,2,3)".toList =
        .ok (⟨[⟨[⟨0, 0⟩, ⟨5, 5⟩], false⟩], ⟨1, 2, 3, 255⟩⟩, ⟨⟨5, 5⟩, ⟨5, 5⟩⟩) ∧
      (⟨[⟨[⟨0, 0⟩], false⟩, ⟨[⟨5, 5⟩], true⟩], ⟨1, 2, 3, 255⟩⟩ : SVGPath) ≠
        ⟨[⟨[⟨0, 0⟩, ⟨5, 5⟩], false⟩], ⟨1, 2, 3, 255⟩⟩ := by
  decide

/-- C9 (as amended): in any state of the command loop, an unsupported command
letter `c` followed by operands `o` without a letter has no effect on the result,
provided the text `B` after it is empty, or starts with a letter other than `M`,
or starts with `M` while the last command letter was not `M` or the active
sub-path is still empty.  The run with the command needs one more pass. -/
theorem unsupported_command_skipped (fuel : Nat) (style : List Char) (s : PState) (c : Char)
    (o B : List Char) (hc : isalpha c = true)
    (hcmd : c ≠ 'M' ∧ c ≠ 'L' ∧ c ≠ 'H' ∧ c ≠ 'V' ∧ c ≠ 'C' ∧ c ≠ 'Z' ∧ c ≠ 'z')
    (ho : ∀ d ∈ o, isalpha d = false)
    (hp : s.p = c :: (o ++ B))
    (hB : B = [] ∨ ∃ b r, B = b :: r ∧ isalpha b = true ∧
      (b ≠ 'M' ∨ s.new_subpath = false ∨ s.cur.points = [])) :
    run_from (fuel + 1) style s = run_from fuel style { s with p := B } := by
  obtain ⟨hM, hL, hH, hV, hC, hZ, hz⟩ := hcmd
  have hdrop : (o ++ B).dropWhile (fun d => !isalpha d) = B := by
    rw [List.dropWhile_append_of_pos (fun d hd => by simp [ho d hd])]
    rcases hB with rfl | ⟨b, r, rfl, hb, -⟩
    · rfl
    · simp [List.dropWhile, hb]
  have hsp : B.dropWhile isspace = B := by
    rcases hB with rfl | ⟨b, r, rfl, hb, -⟩
    · rfl
    · have : isspace b = false := by
        simp only [isalpha, Bool.or_eq_true, Bool.and_eq_true, decide_eq_true_eq] at hb
        simp only [isspace, Bool.or_eq_false_iff, decide_eq_false_iff_not, Bool.and_eq_false_imp,
          decide_eq_true_eq]
        omega
      simp [List.dropWhile, this]
  have hstep : loop_body fuel s = .ok { s with p := B, command := c, new_subpath := false } := by
    unfold loop_body
    rw [hp]
    simp only [hc, if_true, take_letter, hM, false_and, if_false, process_command, hL, hH, hV,
      hZ, hz, hC, or_self, decide_False, hdrop, hsp]
  unfold run_from
  rw [parse_loop_step fuel s _ (by simp [hp]) hstep]
  rcases hB with rfl | ⟨b, r, rfl, hb, hcase⟩
  · rw [parse_loop_nil fuel _ rfl, parse_loop_nil fuel _ rfl]
    exact finish_congr style _ _ rfl rfl rfl rfl
  · cases fuel with
    | zero => simp [parse_loop]
    | succ k =>
      have hbody : loop_body k { s with p := b :: r, command := c, new_subpath := false } =
          loop_body k { s with p := b :: r } := by
        unfold loop_body
        simp only [hb, if_true]
        rw [take_letter_congr b r { s with p := b :: r, command := c, new_subpath := false }
          { s with p := b :: r } rfl rfl rfl rfl]
        rcases hcase with h | h | h
        · exact Or.inl h
        · exact Or.inr (Or.inl h.symm)
        · exact Or.inr (Or.inr ⟨rfl, h⟩)
      rw [parse_loop, parse_loop]
      simp only [List.cons_ne_nil, if_false, reduceCtorEq]
      rw [hbody]

/-- C9 (as amended), at the text `Q 1 2 M 3 4` read from the start: the result is
that of `M 3 4`. -/
theorem unsupported_command_skipped_witness :
    run_from 2 "rgb(1,2,3)".toList (initial_state Globals.initial "Q 1 2 M 3 4".toList) =
        run_from 1 "rgb(1,2,3)".toList
          { initial_state Globals.initial "Q 1 2 M 3 4".toList with p := "M 3 4".toList } ∧
      parse_svg_path 1 Globals.initial "M 3 4".toList "rgb(1,2,3)".toList =
        .ok (⟨[⟨[⟨3, 4⟩], false⟩], ⟨1, 2, 3, 255⟩⟩, ⟨⟨3, 4⟩, ⟨3, 4⟩⟩) :=
  ⟨unsupported_command_skipped 1 "rgb(1,2,3)".toList
      (initial_state Globals.initial "Q 1 2 M 3 4".toList) 'Q' " 1 2 ".toList "M 3 4".toList
      (by decide) (by decide) (by decide) (by decide)
      (Or.inr ⟨'M', " 3 4".toList, by decide, by decide, Or.inr (Or.inr (by decide))⟩),
    by decide⟩

/-! ## C10: termination -/

theorem stuck_after_Z (fuel : Nat) (s : PState) (hp : s.p = ['5']) (hc : s.command = 'Z') :
    ∃ s1, loop_body fuel s = .ok s1 ∧ s1.p = ['5'] ∧ s1.command = 'Z' := by
  have ha : isalpha '5' = false := by decide
  have hs : isspace '5' = false := by decide
  have hm : ¬ ('Z' = 'M') := by decide
  have hl : ¬ ('Z' = 'L') := by decide
  have hh : ¬ ('Z' = 'H') := by decide
  have hv : ¬ ('Z' = 'V') := by decide
  unfold loop_body
  rw [hp]
  simp only [ha, Bool.false_eq_true, if_false, process_command, hc, hm, hl, hh, hv, true_or,
    if_true]
  split_ifs
  · exact ⟨_, rfl, by simp [PState.add_point, hp, hs], by simp [PState.add_point, hc]⟩
  · exact ⟨_, rfl, by simp [hp, hs], by simp [hc]⟩

theorem parse_loop_stuck (fuel : Nat) :
    ∀ s : PState, s.p = ['5'] → s.command = 'Z' → parse_loop fuel s = .error .fuel := by
  induction fuel with
  | zero => intro s hp _; simp [parse_loop, hp]
  | succ n ih =>
    intro s hp hc
    obtain ⟨s1, h1, hp1, hc1⟩ := stuck_after_Z n s hp hc
    rw [parse_loop_step n s s1 (by simp [hp]) h1]
    exact ih s1 hp1 hc1

/-- C10 (refuted on the code): on the text `M 0 0 Z 5` the command loop of
`parse_svg_path` never ends.  Once `Z` is the active command and the text left is
`5`, a pass consumes no character, so whatever the fuel the parser runs out of
it and returns no shape. -/
theorem parse_svg_path_operand_after_Z_never_returns (fuel : Nat) (g : Globals)
    (style : List Char) :
    parse_svg_path fuel g "M 0 0 Z 5".toList style = .error .fuel := by
  have ht : "M 0 0 Z 5".toList =
      'M' :: ([' '] ++ ((⟨false, 0, [], []⟩ : Numeral).text ++
        ([' '] ++ ((⟨false, 0, [], []⟩ : Numeral).text ++ " Z 5".toList)))) := by decide
  have hsp : ∀ c ∈ [' '], is_sep c = true := by decide
  have e1 : " Z 5".toList.dropWhile isspace = 'Z' :: " 5".toList := by decide
  have e2 : " 5".toList.dropWhile isspace = ['5'] := by decide
  have h1 := fun f => loop_body_M f (initial_state g "M 0 0 Z 5".toList) [' '] [' ']
    ⟨false, 0, [], []⟩ ⟨false, 0, [], []⟩ " Z 5".toList (by rw [ht]; rfl) hsp hsp (by simp)
    (by decide)
  rw [e1] at h1
  unfold parse_svg_path run_from
  rcases fuel with _ | fuel
  · simp [parse_loop, initial_state]
  · rw [parse_loop_step fuel _ _ (by simp [initial_state]) (h1 fuel)]
    rcases fuel with _ | fuel
    · simp [parse_loop]
    · rw [parse_loop_step fuel _ _ (by simp) (loop_body_Z fuel _ 'Z' (Or.inl rfl) " 5".toList rfl),
        parse_loop_stuck fuel _ e2 rfl]


/-! ## C11: colour texts that give the default colour -/

theorem scan_lit_inv (c : Char) (s r : List Char) (h : scan_lit c s = some r) : s = c :: r := by
  cases s with
  | nil => simp [scan_lit] at h
  | cons d t =>
    simp only [scan_lit] at h
    split at h
    · rename_i hd
      simp only [Option.some.injEq] at h
      rw [hd, h]
    · exact absurd h (by simp)

theorem opt_sign_inv (s : List Char) :
    ∃ sg : List Char, (sg = [] ∨ sg = ['-'] ∨ sg = ['+']) ∧ s = sg ++ (opt_sign s).2 := by
  cases s with
  | nil => exact ⟨[], Or.inl rfl, rfl⟩
  | cons c r =>
    simp only [opt_sign]
    by_cases h1 : c = '-'
    · exact ⟨['-'], Or.inr (Or.inl rfl), by simp [h1]⟩
    · by_cases h2 : c = '+'
      · exact ⟨['+'], Or.inr (Or.inr rfl), by simp [h1, h2]⟩
      · exact ⟨[], Or.inl rfl, by simp [h1, h2]⟩

theorem scan_int_inv (s r : List Char) (v : Int) (h : scan_int s = some (v, r)) :
    ∃ f : List Char, is_int_field f ∧ s = f ++ r := by
  simp only [scan_int] at h
  split at h
  · exact absurd h (by simp)
  · rename_i hds
    simp only [Option.some.injEq, Prod.mk.injEq] at h
    obtain ⟨sg, hsg, hs⟩ := opt_sign_inv (s.dropWhile isspace)
    refine ⟨s.takeWhile isspace ++ sg ++ (opt_sign (s.dropWhile isspace)).2.takeWhile isdigit,
      ⟨_, _, _, rfl, ?_, hsg, hds, ?_⟩, ?_⟩
    · intro c hc
      exact List.mem_takeWhile_imp hc
    · intro c hc
      exact List.mem_takeWhile_imp hc
    · rw [← h.2, List.append_assoc, List.append_assoc, List.takeWhile_append_dropWhile, ← hs,
        List.takeWhile_append_dropWhile]

theorem sscanf_rgb_three (s : List Char) (h : (sscanf_rgb s).1 = 3) : rgb_prefix_form s := by
  unfold sscanf_rgb at h
  cases h0 : (scan_lit 'r' s).bind (scan_lit 'g') |>.bind (scan_lit 'b') |>.bind (scan_lit '(') with
  | none => rw [h0] at h; simp at h
  | some s1 =>
    rw [h0] at h
    simp only at h
    cases h1 : scan_int s1 with
    | none => rw [h1] at h; simp at h
    | some p1 =>
      obtain ⟨r, s2⟩ := p1
      rw [h1] at h
      simp only at h
      cases h2 : (scan_lit ',' s2).bind scan_int with
      | none => rw [h2] at h; simp at h
      | some p2 =>
        obtain ⟨g, s3⟩ := p2
        rw [h2] at h
        simp only at h
        cases h3 : (scan_lit ',' s3).bind scan_int with
        | none => rw [h3] at h; simp at h
        | some p3 =>
          obtain ⟨b, s4⟩ := p3
          simp only [Option.bind_eq_some] at h0 h2 h3
          obtain ⟨a3, ⟨a2, ⟨a1, ha1, ha2⟩, ha3⟩, ha4⟩ := h0
          obtain ⟨t2, ht2, hg⟩ := h2
          obtain ⟨t3, ht3, hb⟩ := h3
          obtain ⟨f1, hf1, e1⟩ := scan_int_inv _ _ _ h1
          obtain ⟨f2, hf2, e2⟩ := scan_int_inv _ _ _ hg
          obtain ⟨f3, hf3, e3⟩ := scan_int_inv _ _ _ hb
          refine ⟨f1, f2, f3, s4, hf1, hf2, hf3, ?_⟩
          rw [scan_lit_inv _ _ _ ha1, scan_lit_inv _ _ _ ha2, scan_lit_inv _ _ _ ha3,
            scan_lit_inv _ _ _ ha4, e1, scan_lit_inv _ _ _ ht2, e2, scan_lit_inv _ _ _ ht3, e3]

/-- C11, as stated, fails: a text `rgb(1,2,3` without the closing parenthesis
does not give the default colour, it gives the colour `(1,2,3,255)`. -/
theorem parse_color_missing_parenthesis :
    parse_color "rgb(1,2,3".toList = ⟨1, 2, 3, 255⟩ ∧
      parse_color "rgb(1,2,3".toList ≠ ⟨0, 0, 0, 255⟩ := by
  decide

/-- C11, amended: every colour text that does not start with `rgb(` followed
by three integers separated by commas (each integer may be preceded by white
space and a sign) gives the opaque black default `(0,0,0,255)`. -/
theorem parse_color_default (s : List Char) (h : ¬ rgb_prefix_form s) :
    parse_color s = ⟨0, 0, 0, 255⟩ := by
  unfold parse_color
  split
  · simp only
    split
    · rename_i h3
      exact absurd (sscanf_rgb_three s h3) h
    · rfl
  · rfl

theorem parse_color_default_witness :
    ¬ rgb_prefix_form "blue".toList ∧ parse_color "blue".toList = ⟨0, 0, 0, 255⟩ :=
  ⟨by rintro ⟨f1, f2, f3, rest, -, -, -, h⟩; simp at h,
   parse_color_default "blue".toList
     (by rintro ⟨f1, f2, f3, rest, -, -, -, h⟩; simp at h)⟩

/-! ## Whole numbers in `float` arithmetic -/

theorem ilog2_loop_spec (fuel n : Nat) (h1 : 1 ≤ n) (hf : n ≤ fuel) :
    2 ^ ilog2_loop fuel n ≤ n ∧ n < 2 ^ (ilog2_loop fuel n + 1) := by
  induction fuel generalizing n with
  | zero => omega
  | succ fuel ih =>
    unfold ilog2_loop
    split
    · simp only [pow_zero, zero_add, pow_one]
      omega
    · obtain ⟨h2, h3⟩ := ih (n / 2) (by omega) (by omega)
      rw [pow_succ] at h3
      rw [pow_succ, pow_succ, pow_succ]
      omega

theorem ilog2_spec (n : Nat) (h1 : 1 ≤ n) : 2 ^ ilog2 n ≤ n ∧ n < 2 ^ (ilog2 n + 1) :=
  ilog2_loop_spec n n h1 (le_refl n)

theorem ilog2_lt (n b : Nat) (h1 : 1 ≤ n) (h : n < 2 ^ b) : ilog2 n < b :=
  (Nat.pow_lt_pow_iff_right (by decide : 1 < 2)).1 (lt_of_le_of_lt (ilog2_spec n h1).1 h)

theorem le_ilog2 (n b : Nat) (h : 2 ^ b ≤ n) : b ≤ ilog2 n := by
  have h1 : 1 ≤ n := le_trans Nat.one_le_two_pow h
  have := (Nat.pow_lt_pow_iff_right (by decide : 1 < 2)).1
    (lt_of_le_of_lt h (ilog2_spec n h1).2)
  omega

theorem ilog2_pow (j : Nat) : ilog2 (2 ^ j) = j := by
  have h1 := ilog2_lt (2 ^ j) (j + 1) Nat.one_le_two_pow
    (Nat.pow_lt_pow_right (by decide) (by omega))
  have h2 := le_ilog2 (2 ^ j) j (le_refl _)
  omega

theorem roundPos_int (n : Nat) (h1 : 1 ≤ n) (h : n < 2 ^ 24) :
    roundPos binary32 n 1 = (n * 2 ^ (23 - ilog2 n), (ilog2 n : Int) - 23) := by
  obtain ⟨hl1, hl2⟩ := ilog2_spec n h1
  have hL : ilog2 n < 24 := ilog2_lt n 24 h1 h
  have h0 : ilog2 1 = 0 := rfl
  unfold roundPos
  simp only [h0, binary32]
  generalize ilog2 n = L at *
  have hb : (if (0 : Int) ≤ (L : Int) - ((0 : Nat) : Int) then
      decide (n < 1 * 2 ^ ((L : Int) - ((0 : Nat) : Int)).toNat)
      else decide (n * 2 ^ (-((L : Int) - ((0 : Nat) : Int))).toNat < 1)) = false := by
    rw [if_pos (by omega)]
    have : ((L : Int) - ((0 : Nat) : Int)).toNat = L := by omega
    rw [this, one_mul]
    simpa using hl1
  rw [hb]
  simp only [Bool.false_eq_true, if_false]
  have hq : max ((L : Int) - ((0 : Nat) : Int) - (((24 : Nat) : Int) - 1)) (-149) = (L : Int) - 23 := by
    omega
  rw [hq]
  by_cases hlt : (L : Int) - 23 < 0
  · simp only [hlt, if_true, Nat.div_one, Nat.mod_one]
    have : (-((L : Int) - 23)).toNat = 23 - L := by omega
    rw [this]
    simp
  · have hL23 : L = 23 := by omega
    subst hL23
    simp [Nat.mod_one]

theorem ofInt_is_int (X : Int) (h : |X| < 2 ^ 24) : Fp.is_int (F32.ofInt X) X := by
  unfold F32.ofInt roundRat
  by_cases hX : X = 0
  · rw [if_pos hX]
    exact ⟨0, 0, rfl, le_refl _, by simp [hX]⟩
  · rw [if_neg hX]
    have hn1 : 1 ≤ X.natAbs := Int.natAbs_pos.2 hX
    have hn2 : X.natAbs < 2 ^ 24 := by
      have := abs_lt.1 h
      omega
    simp only [roundPos_int X.natAbs hn1 hn2]
    obtain ⟨hl1, hl2⟩ := ilog2_spec X.natAbs hn1
    have hL : ilog2 X.natAbs < 24 := ilog2_lt _ 24 hn1 hn2
    generalize hLd : ilog2 X.natAbs = L at *
    generalize hkd : X.natAbs * 2 ^ (23 - L) = k at *
    have hk1 : 2 ^ (23 - L) ≤ k := by
      rw [← hkd]
      exact Nat.le_mul_of_pos_left _ (by omega)
    have hk2 : k < 2 ^ 24 := by
      rw [← hkd]
      calc X.natAbs * 2 ^ (23 - L) < 2 ^ (L + 1) * 2 ^ (23 - L) :=
            Nat.mul_lt_mul_of_pos_right hl2 (by positivity)
        _ = 2 ^ 24 := by rw [← pow_add]; congr 1; omega
    have hk0 : 1 ≤ k := le_trans Nat.one_le_two_pow hk1
    have hLk : ilog2 k < 24 := ilog2_lt k 24 hk0 hk2
    have hLk2 : 23 - L ≤ ilog2 k := le_ilog2 k _ hk1
    have hover : decide ((binary32.emax : Int) ≤ (ilog2 k : Int) + ((L : Int) - 23)) = false := by
      simp only [binary32, decide_eq_false_iff_not]
      omega
    rw [hover]
    simp only [Bool.false_eq_true, if_false]
    unfold mkFin
    rw [if_neg (by omega)]
    simp only
    obtain ⟨j, hj, hg⟩ := (Nat.dvd_prime_pow Nat.prime_two).1 (Nat.gcd_dvd_right k (2 ^ ilog2 k))
    have hdk : 2 ^ (23 - L) ∣ k := ⟨X.natAbs, by rw [← hkd, Nat.mul_comm]⟩
    have hdg : 2 ^ (23 - L) ∣ Nat.gcd k (2 ^ ilog2 k) :=
      Nat.dvd_gcd hdk (Nat.pow_dvd_pow 2 hLk2)
    rw [hg] at hdg
    have hj2 : 23 - L ≤ j := (Nat.pow_dvd_pow_iff_le_right (by decide)).1 hdg
    have hgk : 2 ^ j ∣ k := hg ▸ Nat.gcd_dvd_left k (2 ^ ilog2 k)
    rw [hg, ilog2_pow]
    obtain ⟨c, hc⟩ := hgk
    have hdiv : k / 2 ^ j = c := by
      rw [hc]
      exact Nat.mul_div_cancel_left c (by positivity)
    rw [hdiv]
    have hval : c * 2 ^ (j - (23 - L)) = X.natAbs := by
      have e1 : 2 ^ j = 2 ^ (j - (23 - L)) * 2 ^ (23 - L) := by
        rw [← pow_add]; congr 1; omega
      have e2 : X.natAbs * 2 ^ (23 - L) = c * 2 ^ (j - (23 - L)) * 2 ^ (23 - L) := by
        rw [hkd, hc, e1]; ring
      exact (Nat.eq_of_mul_eq_mul_right (by positivity) e2).symm
    have hexp : ((L : Int) - 23 + (j : Int)).toNat = j - (23 - L) := by omega
    refine ⟨_, _, rfl, by omega, ?_⟩
    rw [hexp]
    have hcast : (c : Int) * 2 ^ (j - (23 - L)) = (X.natAbs : Int) := by
      exact_mod_cast hval
    by_cases hneg : X < 0
    · simp only [hneg, decide_True, if_true]
      rw [neg_mul, hcast]
      omega
    · simp only [hneg, decide_False, Bool.false_eq_true, if_false]
      rw [hcast]
      omega

theorem shift_pow (m e e0 : Int) (h0 : 0 ≤ e0) (h : e0 ≤ e) :
    m * 2 ^ (e - e0).toNat * 2 ^ e0.toNat = m * 2 ^ e.toNat := by
  rw [mul_assoc, ← pow_add]
  congr 2
  omega

theorem roundDyadic_int (m e : Int) (h0 : 0 ≤ e) :
    roundDyadic binary32 m e = F32.ofInt (m * 2 ^ e.toNat) := by
  unfold roundDyadic F32.ofInt
  rw [if_pos h0]

theorem is_int_zero : Fp.is_int (Fp.fin 0 0) 0 := ⟨0, 0, rfl, le_refl _, by simp⟩

theorem is_int_neg (b : F32) (B : Int) (hb : Fp.is_int b B) : Fp.is_int (Fp.neg b) (-B) := by
  obtain ⟨m, e, rfl, h0, rfl⟩ := hb
  exact ⟨-m, e, rfl, h0, by ring⟩

theorem is_int_add (a b : F32) (A B : Int) (ha : Fp.is_int a A) (hb : Fp.is_int b B) :
    a + b = F32.ofInt (A + B) := by
  obtain ⟨m1, e1, rfl, h1, rfl⟩ := ha
  obtain ⟨m2, e2, rfl, h2, rfl⟩ := hb
  show Fp.add binary32 (.fin m1 e1) (.fin m2 e2) = _
  simp only [Fp.add]
  rw [roundDyadic_int _ _ (le_min h1 h2), add_mul,
    shift_pow m1 e1 _ (le_min h1 h2) (min_le_left _ _),
    shift_pow m2 e2 _ (le_min h1 h2) (min_le_right _ _)]

theorem is_int_sub (a b : F32) (A B : Int) (ha : Fp.is_int a A) (hb : Fp.is_int b B) :
    a - b = F32.ofInt (A - B) := by
  have h := is_int_add a (Fp.neg b) A (-B) ha (is_int_neg b B hb)
  rw [← sub_eq_add_neg] at h
  exact h

theorem is_int_mul (a b : F32) (A B : Int) (ha : Fp.is_int a A) (hb : Fp.is_int b B) :
    a * b = F32.ofInt (A * B) := by
  obtain ⟨m1, e1, rfl, h1, rfl⟩ := ha
  obtain ⟨m2, e2, rfl, h2, rfl⟩ := hb
  show Fp.mul binary32 (.fin m1 e1) (.fin m2 e2) = _
  simp only [Fp.mul]
  rw [roundDyadic_int _ _ (by omega)]
  congr 1
  have : (e1 + e2).toNat = e1.toNat + e2.toNat := by omega
  rw [this, pow_add]
  ring

theorem is_int_le (a b : F32) (A B : Int) (ha : Fp.is_int a A) (hb : Fp.is_int b B) :
    Fp.le a b = decide (A ≤ B) := by
  obtain ⟨m1, e1, rfl, h1, rfl⟩ := ha
  obtain ⟨m2, e2, rfl, h2, rfl⟩ := hb
  simp only [Fp.le]
  rw [← shift_pow m1 e1 _ (le_min h1 h2) (min_le_left _ _),
    ← shift_pow m2 e2 _ (le_min h1 h2) (min_le_right _ _)]
  congr 1
  exact propext (mul_le_mul_right (by positivity)).symm

theorem is_int_lt (a b : F32) (A B : Int) (ha : Fp.is_int a A) (hb : Fp.is_int b B) :
    Fp.lt a b = decide (A < B) := by
  obtain ⟨m1, e1, rfl, h1, rfl⟩ := ha
  obtain ⟨m2, e2, rfl, h2, rfl⟩ := hb
  simp only [Fp.lt]
  rw [← shift_pow m1 e1 _ (le_min h1 h2) (min_le_left _ _),
    ← shift_pow m2 e2 _ (le_min h1 h2) (min_le_right _ _)]
  congr 1
  exact propext (mul_lt_mul_right (by positivity)).symm

theorem is_int_eq (a b : F32) (A B : Int) (ha : Fp.is_int a A) (hb : Fp.is_int b B) :
    Fp.eq a b = decide (A = B) := by
  obtain ⟨m1, e1, rfl, h1, rfl⟩ := ha
  obtain ⟨m2, e2, rfl, h2, rfl⟩ := hb
  simp only [Fp.eq]
  rw [← shift_pow m1 e1 _ (le_min h1 h2) (min_le_left _ _),
    ← shift_pow m2 e2 _ (le_min h1 h2) (min_le_right _ _)]
  congr 1
  exact propext (mul_left_inj' (by positivity)).symm

theorem float_to_int_is_int (pf : Platform) (a : F32) (A : Int) (ha : Fp.is_int a A)
    (h1 : -2 ^ 31 ≤ A) (h2 : A < 2 ^ 31) : float_to_int pf a = A := by
  obtain ⟨m, e, rfl, h0, rfl⟩ := ha
  unfold float_to_int
  simp only [Fp.trunc, if_pos h0]
  rw [if_pos ⟨h1, h2⟩]

theorem ofInt_zero : F32.ofInt 0 = Fp.fin 0 0 := rfl

theorem zero_div_is_int (d : F32) (D : Int) (hd : Fp.is_int d D) (hD : D ≠ 0) :
    F32.ofInt 0 / d = F32.ofInt 0 := by
  obtain ⟨m, e, rfl, h0, rfl⟩ := hd
  have hm : m ≠ 0 := by
    rintro rfl
    simp at hD
  show Fp.div binary32 (F32.ofInt 0) (.fin m e) = _
  rw [ofInt_zero]
  simp only [Fp.div, if_neg hm, neg_zero, ite_self, zero_mul, roundRat, if_true]

/-- The abscissa at which a vertical edge with whole coordinates crosses a row. -/
theorem edge_x_vertical (x1 y1 x2 y2 fy : F32) (X Y1 Y2 y : Int)
    (hx1 : Fp.is_int x1 X) (hx2 : Fp.is_int x2 X) (hy1 : Fp.is_int y1 Y1)
    (hy2 : Fp.is_int y2 Y2) (hy : Fp.is_int fy y) (hne : Y1 ≠ Y2)
    (hX : |X| < 2 ^ 24) (hd : |Y2 - Y1| < 2 ^ 24) (hd2 : |y - Y1| < 2 ^ 24) :
    Fp.is_int (edge_x x1 y1 x2 y2 fy) X := by
  unfold edge_x
  rw [is_int_eq y1 y2 Y1 Y2 hy1 hy2, decide_eq_false hne]
  simp only [Bool.false_eq_true, if_false]
  rw [is_int_sub x2 x1 X X hx2 hx1, sub_self, is_int_sub fy y1 y Y1 hy hy1,
    is_int_mul _ _ _ _ (ofInt_is_int (y - Y1) hd2) (ofInt_is_int 0 (by decide)), mul_zero,
    is_int_sub y2 y1 Y2 Y1 hy2 hy1,
    zero_div_is_int _ _ (ofInt_is_int (Y2 - Y1) hd) (sub_ne_zero.2 (Ne.symm hne)),
    is_int_add x1 _ X 0 hx1 (ofInt_is_int 0 (by decide)), add_zero]
  exact ofInt_is_int X hX

/-! ## The rotation of points with whole coordinates -/

theorem center_x_value : BASE_SVG_WIDTH / (2 : F32) = F32.ofInt 642 := by decide

theorem center_y_value : BASE_SVG_HEIGHT / (2 : F32) = F32.ofInt 642 := by decide

theorem rotate_point_grid (c s : F32) (C S X Y : Int) (hc : Fp.is_int c C) (hs : Fp.is_int s S)
    (hC : C = -1 ∨ C = 0 ∨ C = 1) (hS : S = -1 ∨ S = 0 ∨ S = 1) (hCS : C = 0 ∨ S = 0)
    (hX2 : -2 ^ 23 ≤ X ∧ X ≤ 2 ^ 23) (hY2 : -2 ^ 23 ≤ Y ∧ Y ≤ 2 ^ 23) :
    rotate_point c s ⟨F32.ofInt X, F32.ofInt Y⟩ =
      ⟨F32.ofInt ((X - 642) * C - (Y - 642) * S + 642),
       F32.ofInt ((X - 642) * S + (Y - 642) * C + 642)⟩ := by
  have i642 : Fp.is_int (F32.ofInt 642) 642 := ofInt_is_int 642 (by decide)
  have iX : Fp.is_int (F32.ofInt X) X := ofInt_is_int X (abs_lt.2 ⟨by omega, by omega⟩)
  have iY : Fp.is_int (F32.ofInt Y) Y := ofInt_is_int Y (abs_lt.2 ⟨by omega, by omega⟩)
  have iX1 : Fp.is_int (F32.ofInt (X - 642)) (X - 642) :=
    ofInt_is_int _ (abs_lt.2 ⟨by omega, by omega⟩)
  have iY1 : Fp.is_int (F32.ofInt (Y - 642)) (Y - 642) :=
    ofInt_is_int _ (abs_lt.2 ⟨by omega, by omega⟩)
  have iXC : Fp.is_int (F32.ofInt ((X - 642) * C)) ((X - 642) * C) :=
    ofInt_is_int _ (abs_lt.2 (by rcases hC with rfl | rfl | rfl <;> constructor <;> omega))
  have iXS : Fp.is_int (F32.ofInt ((X - 642) * S)) ((X - 642) * S) :=
    ofInt_is_int _ (abs_lt.2 (by rcases hS with rfl | rfl | rfl <;> constructor <;> omega))
  have iYC : Fp.is_int (F32.ofInt ((Y - 642) * C)) ((Y - 642) * C) :=
    ofInt_is_int _ (abs_lt.2 (by rcases hC with rfl | rfl | rfl <;> constructor <;> omega))
  have iYS : Fp.is_int (F32.ofInt ((Y - 642) * S)) ((Y - 642) * S) :=
    ofInt_is_int _ (abs_lt.2 (by rcases hS with rfl | rfl | rfl <;> constructor <;> omega))
  have iNX : Fp.is_int (F32.ofInt ((X - 642) * C - (Y - 642) * S))
      ((X - 642) * C - (Y - 642) * S) :=
    ofInt_is_int _ (abs_lt.2 (by
      rcases hC with rfl | rfl | rfl <;> rcases hS with rfl | rfl | rfl <;>
        constructor <;> omega))
  have iNY : Fp.is_int (F32.ofInt ((X - 642) * S + (Y - 642) * C))
      ((X - 642) * S + (Y - 642) * C) :=
    ofInt_is_int _ (abs_lt.2 (by
      rcases hC with rfl | rfl | rfl <;> rcases hS with rfl | rfl | rfl <;>
        constructor <;> omega))
  unfold rotate_point rotate_x rotate_y
  simp only [center_x_value, center_y_value]
  rw [is_int_sub _ _ _ _ iX i642, is_int_sub _ _ _ _ iY i642,
    is_int_mul _ _ _ _ iX1 hc, is_int_mul _ _ _ _ iY1 hs,
    is_int_mul _ _ _ _ iX1 hs, is_int_mul _ _ _ _ iY1 hc,
    is_int_sub _ _ _ _ iXC iYS, is_int_add _ _ _ _ iXS iYC,
    is_int_add _ _ _ _ iNX i642, is_int_add _ _ _ _ iNY i642]

theorem is_int_one : Fp.is_int (1 : F32) 1 := ⟨1, 0, by decide, le_refl _, by decide⟩

theorem is_int_zero_lit : Fp.is_int (0 : F32) 0 := ⟨0, 0, by decide, le_refl _, by decide⟩

theorem is_int_minus_one : Fp.is_int (Fp.neg (1 : F32)) (-1) :=
  ⟨-1, 0, by decide, le_refl _, by decide⟩

theorem rotate_points_grid (c s : F32) (C S : Int) (hc : Fp.is_int c C) (hs : Fp.is_int s S)
    (hC : C = -1 ∨ C = 0 ∨ C = 1) (hS : S = -1 ∨ S = 0 ∨ S = 1) (hCS : C = 0 ∨ S = 0)
    (polys : List (List (Int × Int) × Bool)) (fill_color : Color)
    (h : ∀ q ∈ polys, ∀ p ∈ q.1, (-2 ^ 23 ≤ p.1 ∧ p.1 ≤ 2 ^ 23) ∧ (-2 ^ 23 ≤ p.2 ∧ p.2 ≤ 2 ^ 23)) :
    rotate_points c s (grid_shape polys fill_color) =
      grid_shape (map_corners (rotate_corner C S) polys) fill_color := by
  unfold rotate_points grid_shape map_corners polygon
  simp only [List.map_map, SVGPath.mk.injEq, and_true]
  apply List.map_congr_left
  intro q hq
  simp only [Function.comp, Path.mk.injEq, and_true, List.map_map]
  apply List.map_congr_left
  intro p hp
  exact rotate_point_grid c s C S p.1 p.2 hc hs hC hS hCS (h q hq p hp).1 (h q hq p hp).2

theorem angle_index_nonneg (angle : Int) (h0 : 0 ≤ angle) :
    Int.tmod (Int.tdiv angle 90) 4 = angle / 90 % 4 := by
  rw [Int.tdiv_eq_ediv h0 (by decide), Int.tmod_eq_emod (by omega) (by decide)]

theorem rotate_svg_path_index (svg : SVGPath) (angle : Int) (i : Nat) (hi : i < 4)
    (h : Int.tmod (Int.tdiv angle 90) 4 = (i : Int)) :
    rotate_svg_path svg angle =
      .ok (rotate_points (rotation_cos.getD i 0) (rotation_sin.getD i 0) svg) := by
  unfold rotate_svg_path
  simp only [h]
  interval_cases i <;> rfl

theorem map_corners_id (f : Int × Int → Int × Int) (polys : List (List (Int × Int) × Bool))
    (h : ∀ q ∈ polys, ∀ p ∈ q.1, f p = p) : map_corners f polys = polys := by
  unfold map_corners
  conv_rhs => rw [← List.map_id polys]
  apply List.map_congr_left
  intro q hq
  have : q.1.map f = q.1 := by
    conv_rhs => rw [← List.map_id q.1]
    exact List.map_congr_left (h q hq)
  rw [this]
  rfl

theorem map_corners_comp (f g : Int × Int → Int × Int) (polys : List (List (Int × Int) × Bool)) :
    map_corners f (map_corners g polys) = map_corners (fun p => f (g p)) polys := by
  unfold map_corners
  simp [List.map_map, Function.comp]

theorem map_corners_mem (f : Int × Int → Int × Int) (polys : List (List (Int × Int) × Bool))
    (P : Int × Int → Prop) (h : ∀ q ∈ polys, ∀ p ∈ q.1, P (f p)) :
    ∀ q ∈ map_corners f polys, ∀ p ∈ q.1, P p := by
  intro q hq p hp
  unfold map_corners at hq
  obtain ⟨q0, hq0, rfl⟩ := List.mem_map.1 hq
  obtain ⟨p0, hp0, rfl⟩ := List.mem_map.1 hp
  exact h q0 hq0 p0 hp0

theorem rotate_svg_path_grid (angle : Int) (i : Nat) (C S : Int) (hi : i < 4)
    (hidx : Int.tmod (Int.tdiv angle 90) 4 = (i : Int))
    (hc : Fp.is_int (rotation_cos.getD i 0) C) (hs : Fp.is_int (rotation_sin.getD i 0) S)
    (hC : C = -1 ∨ C = 0 ∨ C = 1) (hS : S = -1 ∨ S = 0 ∨ S = 1) (hCS : C = 0 ∨ S = 0)
    (polys : List (List (Int × Int) × Bool)) (fill_color : Color)
    (h : ∀ q ∈ polys, ∀ p ∈ q.1, (-2 ^ 23 ≤ p.1 ∧ p.1 ≤ 2 ^ 23) ∧ (-2 ^ 23 ≤ p.2 ∧ p.2 ≤ 2 ^ 23)) :
    rotate_svg_path (grid_shape polys fill_color) angle =
      .ok (grid_shape (map_corners (rotate_corner C S) polys) fill_color) := by
  rw [rotate_svg_path_index _ angle i hi hidx,
    rotate_points_grid _ _ C S hc hs hC hS hCS polys fill_color h]

theorem rotate_corner_values (C S : Int) (p : Int × Int) :
    rotate_corner C S p =
      ((p.1 - 642) * C - (p.2 - 642) * S + 642, (p.1 - 642) * S + (p.2 - 642) * C + 642) := rfl

/-! ## C12: the rotation by zero degrees -/

/-- C12, as stated, fails: the rotation by 0 degrees moves the point whose
coordinates are the `float` nearest to 0.1 to `819 / 8192 = 0.0999755859375`. -/
theorem rotate_svg_path_zero_round_off :
    rotate_svg_path
        ⟨[⟨[⟨roundRat binary32 1 10, roundRat binary32 1 10⟩], false⟩], ⟨0, 0, 0, 255⟩⟩ 0 =
      .ok ⟨[⟨[⟨Fp.fin 819 (-13), Fp.fin 819 (-13)⟩], false⟩], ⟨0, 0, 0, 255⟩⟩ ∧
    rotate_svg_path
        ⟨[⟨[⟨roundRat binary32 1 10, roundRat binary32 1 10⟩], false⟩], ⟨0, 0, 0, 255⟩⟩ 0 ≠
      .ok ⟨[⟨[⟨roundRat binary32 1 10, roundRat binary32 1 10⟩], false⟩], ⟨0, 0, 0, 255⟩⟩ := by
  decide

/-- C12, amended: the rotation by 0 degrees is the identity in exact
arithmetic, and in `float` arithmetic it returns unchanged every shape whose
coordinates are whole numbers between `-2 ^ 22` and `2 ^ 22`. -/
theorem rotate_svg_path_zero (polys : List (List (Int × Int) × Bool)) (fill_color : Color)
    (h : ∀ q ∈ polys, ∀ p ∈ q.1, (-2 ^ 22 ≤ p.1 ∧ p.1 ≤ 2 ^ 22) ∧ (-2 ^ 22 ≤ p.2 ∧ p.2 ≤ 2 ^ 22)) :
    rotate_svg_path (grid_shape polys fill_color) 0 = .ok (grid_shape polys fill_color) ∧
      ∀ p : ℚ × ℚ, rotate_exact 1 0 p = p := by
  constructor
  · rw [rotate_svg_path_grid 0 0 1 0 (by decide) (by decide) is_int_one is_int_zero_lit
      (by decide) (by decide) (by decide) polys fill_color
      (fun q hq p hp => by have := h q hq p hp; omega)]
    rw [map_corners_id]
    intro q _ p _
    rw [rotate_corner_values]
    ext <;> simp
  · intro p
    unfold rotate_exact rotate_x rotate_y
    ext <;> simp

theorem rotate_svg_path_zero_witness :
    (∀ q ∈ [([((0 : Int), (0 : Int)), (10, 0), (10, 10), (0, 10)], false)], ∀ p ∈ q.1,
        (-2 ^ 22 ≤ p.1 ∧ p.1 ≤ 2 ^ 22) ∧ (-2 ^ 22 ≤ p.2 ∧ p.2 ≤ 2 ^ 22)) ∧
      rotate_svg_path (grid_shape [([(0, 0), (10, 0), (10, 10), (0, 10)], false)] ⟨1, 2, 3, 255⟩) 0 =
        .ok (grid_shape [([(0, 0), (10, 0), (10, 10), (0, 10)], false)] ⟨1, 2, 3, 255⟩) :=
  ⟨by decide,
    (rotate_svg_path_zero [([(0, 0), (10, 0), (10, 10), (0, 10)], false)] ⟨1, 2, 3, 255⟩
      (by decide)).1⟩

/-! ## C13: the rotation by 180 degrees -/

/-- C13, as stated, fails: the rotation by 180 degrees moves the point whose
coordinates are the `float` nearest to 0.07, that is `9395241 / 2 ^ 27`, to
`5258977 / 4096`, which is not `1284 - 9395241 / 2 ^ 27`, and not the `float`
nearest to it either. -/
theorem rotate_svg_path_half_turn_round_off :
    rotate_svg_path
        ⟨[⟨[⟨roundRat binary32 7 100, roundRat binary32 7 100⟩], false⟩], ⟨0, 0, 0, 255⟩⟩ 180 =
      .ok ⟨[⟨[⟨Fp.fin 5258977 (-12), Fp.fin 5258977 (-12)⟩], false⟩], ⟨0, 0, 0, 255⟩⟩ ∧
    Fp.sub binary32 (F32.ofInt 1284) (roundRat binary32 7 100) = Fp.fin 10517955 (-13) ∧
    roundRat binary32 7 100 = Fp.fin 9395241 (-27) ∧
    (5258977 : ℚ) * 2 ^ (-12 : Int) ≠ 1284 - 9395241 * 2 ^ (-27 : Int) := by
  refine ⟨by decide, by decide, by decide, by norm_num⟩

/-- C13, amended: the rotation by 180 degrees replaces `(x, y)` by
`(1284 - x, 1284 - y)` in exact arithmetic, and in `float` arithmetic it does so
for every shape whose coordinates are whole numbers between `-2 ^ 22` and
`2 ^ 22`. -/
theorem rotate_svg_path_half_turn (polys : List (List (Int × Int) × Bool)) (fill_color : Color)
    (h : ∀ q ∈ polys, ∀ p ∈ q.1, (-2 ^ 22 ≤ p.1 ∧ p.1 ≤ 2 ^ 22) ∧ (-2 ^ 22 ≤ p.2 ∧ p.2 ≤ 2 ^ 22)) :
    rotate_svg_path (grid_shape polys fill_color) 180 =
        .ok (grid_shape (map_corners (fun p => (1284 - p.1, 1284 - p.2)) polys) fill_color) ∧
      ∀ p : ℚ × ℚ, rotate_exact (-1) 0 p = (1284 - p.1, 1284 - p.2) := by
  constructor
  · rw [rotate_svg_path_grid 180 2 (-1) 0 (by decide) (by decide) is_int_minus_one
      is_int_zero_lit (by decide) (by decide) (by decide) polys fill_color
      (fun q hq p hp => by have := h q hq p hp; omega)]
    have e : rotate_corner (-1) 0 = fun p => (1284 - p.1, 1284 - p.2) := by
      funext p
      rw [rotate_corner_values]
      ext <;> simp <;> omega
    rw [e]
  · intro p
    unfold rotate_exact rotate_x rotate_y
    ext <;> simp <;> ring

theorem rotate_svg_path_half_turn_witness :
    (∀ q ∈ [([((0 : Int), (0 : Int)), (10, 0), (10, 10), (0, 10)], false)], ∀ p ∈ q.1,
        (-2 ^ 22 ≤ p.1 ∧ p.1 ≤ 2 ^ 22) ∧ (-2 ^ 22 ≤ p.2 ∧ p.2 ≤ 2 ^ 22)) ∧
      rotate_svg_path (grid_shape [([(0, 0), (10, 0), (10, 10), (0, 10)], false)] ⟨1, 2, 3, 255⟩)
          180 =
        .ok (grid_shape [([(1284, 1284), (1274, 1284), (1274, 1274), (1284, 1274)], false)]
          ⟨1, 2, 3, 255⟩) :=
  ⟨by decide,
    (rotate_svg_path_half_turn [([(0, 0), (10, 0), (10, 10), (0, 10)], false)] ⟨1, 2, 3, 255⟩
      (by decide)).1⟩

/-! ## C14: four rotations by 90 degrees -/

/-- C14, as stated, fails: four rotations by 90 degrees take the point whose
coordinates are the `float` nearest to 0.1 to `819 / 8192 = 0.0999755859375`. -/
theorem rotate_svg_path_four_quarter_turns_round_off :
    rotate_times 90 4
        ⟨[⟨[⟨roundRat binary32 1 10, roundRat binary32 1 10⟩], false⟩], ⟨0, 0, 0, 255⟩⟩ =
      .ok ⟨[⟨[⟨Fp.fin 819 (-13), Fp.fin 819 (-13)⟩], false⟩], ⟨0, 0, 0, 255⟩⟩ ∧
    rotate_times 90 4
        ⟨[⟨[⟨roundRat binary32 1 10, roundRat binary32 1 10⟩], false⟩], ⟨0, 0, 0, 255⟩⟩ ≠
      .ok ⟨[⟨[⟨roundRat binary32 1 10, roundRat binary32 1 10⟩], false⟩], ⟨0, 0, 0, 255⟩⟩ := by
  decide

theorem rotate_times_succ (angle : Int) (n : Nat) (svg r : SVGPath)
    (h : rotate_svg_path svg angle = .ok r) :
    rotate_times angle (n + 1) svg = rotate_times angle n r := by
  simp only [rotate_times, h]

theorem quarter_turn_grid (k : Int) (hk : 0 ≤ k ∧ k ≤ 3)
    (polys : List (List (Int × Int) × Bool)) (fill_color : Color)
    (h : ∀ q ∈ polys, ∀ p ∈ q.1,
      (-2 ^ 22 - 1284 * k ≤ p.1 ∧ p.1 ≤ 2 ^ 22 + 1284 * k) ∧
        (-2 ^ 22 - 1284 * k ≤ p.2 ∧ p.2 ≤ 2 ^ 22 + 1284 * k)) :
    rotate_svg_path (grid_shape polys fill_color) 90 =
        .ok (grid_shape (map_corners (rotate_corner 0 1) polys) fill_color) ∧
      ∀ q ∈ map_corners (rotate_corner 0 1) polys, ∀ p ∈ q.1,
        (-2 ^ 22 - 1284 * (k + 1) ≤ p.1 ∧ p.1 ≤ 2 ^ 22 + 1284 * (k + 1)) ∧
          (-2 ^ 22 - 1284 * (k + 1) ≤ p.2 ∧ p.2 ≤ 2 ^ 22 + 1284 * (k + 1)) := by
  constructor
  · exact rotate_svg_path_grid 90 1 0 1 (by decide) (by decide) is_int_zero_lit is_int_one
      (by decide) (by decide) (by decide) polys fill_color
      (fun q hq p hp => by have := h q hq p hp; omega)
  · apply map_corners_mem
    intro q hq p hp
    have := h q hq p hp
    rw [rotate_corner_values]
    simp only
    omega

/-- C14, amended: four rotations by 90 degrees in a row give back every point
in exact arithmetic, and in `float` arithmetic they give back every shape whose
coordinates are whole numbers between `-2 ^ 22` and `2 ^ 22`. -/
theorem rotate_svg_path_four_quarter_turns (polys : List (List (Int × Int) × Bool))
    (fill_color : Color)
    (h : ∀ q ∈ polys, ∀ p ∈ q.1, (-2 ^ 22 ≤ p.1 ∧ p.1 ≤ 2 ^ 22) ∧ (-2 ^ 22 ≤ p.2 ∧ p.2 ≤ 2 ^ 22)) :
    rotate_times 90 4 (grid_shape polys fill_color) = .ok (grid_shape polys fill_color) ∧
      ∀ p : ℚ × ℚ, rotate_exact 0 1 (rotate_exact 0 1 (rotate_exact 0 1 (rotate_exact 0 1 p))) = p := by
  constructor
  · obtain ⟨e1, h1⟩ := quarter_turn_grid 0 (by decide) polys fill_color
      (fun q hq p hp => by have := h q hq p hp; omega)
    obtain ⟨e2, h2⟩ := quarter_turn_grid 1 (by decide) _ fill_color
      (fun q hq p hp => by have := h1 q hq p hp; omega)
    obtain ⟨e3, h3⟩ := quarter_turn_grid 2 (by decide) _ fill_color
      (fun q hq p hp => by have := h2 q hq p hp; omega)
    obtain ⟨e4, -⟩ := quarter_turn_grid 3 (by decide) _ fill_color
      (fun q hq p hp => by have := h3 q hq p hp; omega)
    have hid : map_corners (rotate_corner 0 1) (map_corners (rotate_corner 0 1)
        (map_corners (rotate_corner 0 1) (map_corners (rotate_corner 0 1) polys))) = polys := by
      rw [map_corners_comp, map_corners_comp, map_corners_comp]
      apply map_corners_id
      intro q _ p _
      simp only [rotate_corner_values]
      ext <;> simp
    rw [rotate_times_succ _ _ _ _ e1, rotate_times_succ _ _ _ _ e2,
      rotate_times_succ _ _ _ _ e3, rotate_times_succ _ _ _ _ e4, hid]
    rfl
  · intro p
    unfold rotate_exact rotate_x rotate_y
    ext <;> simp

theorem rotate_svg_path_four_quarter_turns_witness :
    (∀ q ∈ [([((0 : Int), (0 : Int)), (10, 0), (10, 10), (0, 10)], false)], ∀ p ∈ q.1,
        (-2 ^ 22 ≤ p.1 ∧ p.1 ≤ 2 ^ 22) ∧ (-2 ^ 22 ≤ p.2 ∧ p.2 ≤ 2 ^ 22)) ∧
      rotate_times 90 4
          (grid_shape [([(0, 0), (10, 0), (10, 10), (0, 10)], false)] ⟨1, 2, 3, 255⟩) =
        .ok (grid_shape [([(0, 0), (10, 0), (10, 10), (0, 10)], false)] ⟨1, 2, 3, 255⟩) :=
  ⟨by decide,
    (rotate_svg_path_four_quarter_turns [([(0, 0), (10, 0), (10, 10), (0, 10)], false)]
      ⟨1, 2, 3, 255⟩ (by decide)).1⟩

/-! ## C15: the index into the tables of sines and cosines -/

/-- C15, as stated, fails: for the angle `-90` the index `(angle / 90) % 4` is
`-1`, outside `0..3`, and the call reads before the start of the tables. -/
theorem rotate_svg_path_negative_angle :
    Int.tmod (Int.tdiv (-90) 90) 4 = -1 ∧
      rotate_svg_path ⟨[polygon [(0, 0), (10, 0), (10, 10)] false], ⟨0, 0, 0, 255⟩⟩ (-90) =
        .error .out_of_bounds := by
  constructor
  · decide
  · rfl

/-- C15, amended: for every angle that is a multiple of 90 and not negative,
the index `(angle / 90) % 4` lies in `0..3`, the call succeeds, and it gives
what the call with the angle reduced modulo 360, one of 0, 90, 180 and 270,
gives. -/
theorem rotate_svg_path_reduced_angle (svg : SVGPath) (angle : Int) (h0 : 0 ≤ angle)
    (h90 : 90 ∣ angle) :
    0 ≤ Int.tmod (Int.tdiv angle 90) 4 ∧ Int.tmod (Int.tdiv angle 90) 4 ≤ 3 ∧
      (∃ r, rotate_svg_path svg angle = .ok r) ∧
      (angle % 360 = 0 ∨ angle % 360 = 90 ∨ angle % 360 = 180 ∨ angle % 360 = 270) ∧
      rotate_svg_path svg angle = rotate_svg_path svg (angle % 360) := by
  have hi := angle_index_nonneg angle h0
  have hr := angle_index_nonneg (angle % 360) (by omega)
  have hlt : (angle / 90 % 4).toNat < 4 := by omega
  have hc : ((angle / 90 % 4).toNat : Int) = angle / 90 % 4 := by omega
  have hsame : (angle % 360) / 90 % 4 = angle / 90 % 4 := by omega
  refine ⟨by omega, by omega, ⟨_, rotate_svg_path_index svg angle _ hlt (by rw [hi, hc])⟩,
    by omega, ?_⟩
  rw [rotate_svg_path_index svg angle _ hlt (by rw [hi, hc]),
    rotate_svg_path_index svg (angle % 360) _ hlt (by rw [hr, hsame, hc])]

theorem rotate_svg_path_reduced_angle_witness :
    (0 : Int) ≤ 450 ∧ (90 : Int) ∣ 450 ∧
      rotate_svg_path ⟨[polygon [(0, 0), (10, 0), (10, 10)] false], ⟨0, 0, 0, 255⟩⟩ 450 =
        rotate_svg_path ⟨[polygon [(0, 0), (10, 0), (10, 10)] false], ⟨0, 0, 0, 255⟩⟩
          (450 % 360) :=
  ⟨by decide, by decide,
    (rotate_svg_path_reduced_angle
      ⟨[polygon [(0, 0), (10, 0), (10, 10)] false], ⟨0, 0, 0, 255⟩⟩ 450
      (by decide) (by decide)).2.2.2.2⟩

/-! ## The rasterizer: where a pixel is written -/

theorem mem_int_range (a b x : Int) : x ∈ int_range a b ↔ a ≤ x ∧ x ≤ b := by
  unfold int_range
  rw [List.mem_map]
  constructor
  · rintro ⟨i, hi, rfl⟩
    have := List.mem_range.1 hi
    omega
  · rintro ⟨h1, h2⟩
    refine ⟨(x - a).toNat, List.mem_range.2 ?_, ?_⟩
    · omega
    · rw [Int.toNat_of_nonneg (by omega)]
      omega

theorem to_int32_le (n : Int) (h : 0 ≤ n) : to_int32 n ≤ n := by
  unfold to_int32
  simp only
  split <;> omega

theorem to_int32_pred (n : Nat) (x : Int) (h0 : 0 ≤ x) (h : x ≤ to_int32 ((n : Int) - 1)) :
    x < (n : Int) := by
  unfold to_int32 at h
  simp only at h
  split at h <;> omega

theorem to_int32_small (n : Int) (h0 : 0 ≤ n) (h : n < 2 ^ 31) : to_int32 n = n := by
  unfold to_int32
  simp only
  split <;> omega

theorem span_mem (c : Bool) (xs xe y : Int) (color : Nat) (w : PixelWrite)
    (hw : w ∈ (if c = true then
      (int_range xs xe).map (fun x => (⟨x, y, color⟩ : PixelWrite)) else [])) :
    c = true ∧ w.y = y ∧ w.color = color ∧ xs ≤ w.x ∧ w.x ≤ xe := by
  cases c with
  | false => simp at hw
  | true =>
    simp only [if_true, List.mem_map, mem_int_range] at hw
    obtain ⟨x, hx, rfl⟩ := hw
    exact ⟨rfl, rfl, rfl, hx⟩

theorem clip_start (x v : Int) (h : (if x < 0 then 0 else x) ≤ v) : 0 ≤ v := by
  split at h <;> omega

theorem clip_end (n : Nat) (x v : Int) (h0 : 0 ≤ v)
    (h : v ≤ (if to_int32 (n : Int) ≤ x then to_int32 ((n : Int) - 1) else x)) :
    v < (n : Int) := by
  split at h
  · exact to_int32_pred _ _ h0 h
  · have := to_int32_le (n : Int) (by omega)
    omega

theorem fill_loop_mem (fb : Framebuffer) (y : Int) (color : Nat) (l : List Intersection)
    (m h : Bool) (w : PixelWrite) (hw : w ∈ fill_loop fb y color l m h) :
    w.y = y ∧ w.color = color ∧ 0 ≤ w.x ∧ w.x < (fb.vinfo.xres : Int) := by
  induction l generalizing m h with
  | nil => simp [fill_loop] at hw
  | cons a t ih =>
    cases t with
    | nil => simp [fill_loop] at hw
    | cons b rest =>
      rw [fill_loop] at hw
      rcases List.mem_append.1 hw with hw | hw
      · obtain ⟨-, h1, h2, h3, h4⟩ := span_mem _ _ _ _ _ _ hw
        have h5 := clip_start _ _ h3
        exact ⟨h1, h2, h5, clip_end _ _ _ h5 h4⟩
      · exact ih _ _ hw

theorem render_mem (pf : Platform) (fb : Framebuffer) (svg : SVGPath) (di : DisplayInfo)
    (w : PixelWrite) (hw : w ∈ render_path_with_holes pf fb svg di) :
    w.color = pack_color svg.fill_color ∧ 0 ≤ w.x ∧ w.x < (fb.vinfo.xres : Int) ∧
      0 ≤ w.y ∧ w.y < (fb.vinfo.yres : Int) := by
  unfold render_path_with_holes at hw
  simp only [List.mem_flatMap, mem_int_range] at hw
  obtain ⟨y, ⟨hy1, hy2⟩, hw⟩ := hw
  unfold render_row at hw
  simp only at hw
  split at hw
  · obtain ⟨h1, h2, h3, h4⟩ := fill_loop_mem _ _ _ _ _ _ _ hw
    have h5 := clip_start _ _ hy1
    have h6 := clip_end _ _ _ h5 hy2
    rw [h1]
    exact ⟨h2, h3, h4, h5, h6⟩
  · simp at hw

/-! ## C16: every pixel written lies on the surface -/

theorem scan_edge_int (pf : Platform) (scale offset_x offset_y : F32) (y : Int)
    (is_hole : Bool) (acc : List Intersection) (p q : Point) (c1 c2 : Int × Int)
    (hp : lands_on scale offset_x offset_y p c1) (hq : lands_on scale offset_x offset_y q c2)
    (hrect : c1.1 = c2.1 ∨ c1.2 = c2.2)
    (h1 : (0 ≤ c1.1 ∧ c1.1 < 2 ^ 24) ∧ (0 ≤ c1.2 ∧ c1.2 < 2 ^ 24))
    (h2 : (0 ≤ c2.1 ∧ c2.1 < 2 ^ 24) ∧ (0 ≤ c2.2 ∧ c2.2 < 2 ^ 24))
    (hy : 0 ≤ y ∧ y < 2 ^ 24) :
    scan_edge pf scale offset_x offset_y y is_hole acc (p, q) =
      int_scan_edge y is_hole acc (c1, c2) := by
  obtain ⟨hpx, hpy⟩ := hp
  obtain ⟨hqx, hqy⟩ := hq
  have hfy : Fp.is_int (F32.ofInt y) y := ofInt_is_int y (abs_lt.2 ⟨by omega, by omega⟩)
  have hst : straddles (p.y * scale + offset_y) (q.y * scale + offset_y) (F32.ofInt y) =
      int_straddles c1.2 c2.2 y := by
    unfold straddles int_straddles
    rw [is_int_le _ _ _ _ hpy hfy, is_int_lt _ _ _ _ hfy hqy, is_int_le _ _ _ _ hqy hfy,
      is_int_lt _ _ _ _ hfy hpy]
  unfold scan_edge int_scan_edge
  simp only [hst]
  by_cases hs : int_straddles c1.2 c2.2 y = true
  · rw [if_pos hs, if_pos hs]
    have hne : c1.2 ≠ c2.2 := by
      intro he
      unfold int_straddles at hs
      rw [he] at hs
      simp only [Bool.or_self, Bool.and_eq_true, decide_eq_true_eq] at hs
      omega
    have hx : c1.1 = c2.1 := by
      rcases hrect with h | h
      · exact h
      · exact absurd h hne
    have hex := edge_x_vertical (p.x * scale + offset_x) (p.y * scale + offset_y)
      (q.x * scale + offset_x) (q.y * scale + offset_y) (F32.ofInt y) c1.1 c1.2 c2.2 y
      hpx (hx ▸ hqx) hpy hqy hfy hne (abs_lt.2 ⟨by omega, by omega⟩)
      (abs_lt.2 ⟨by omega, by omega⟩) (abs_lt.2 ⟨by omega, by omega⟩)
    rw [float_to_int_is_int pf _ _ hex (by omega) (by omega)]
  · rw [if_neg hs, if_neg hs]

theorem bounds_step_int (pf : Platform) (scale offset_x offset_y : F32) (acc : Int × Int)
    (p : Point) (c : Int × Int) (hp : lands_on scale offset_x offset_y p c)
    (h : 0 ≤ c.2 ∧ c.2 < 2 ^ 24) :
    bounds_step pf scale offset_y acc p = int_bounds_step acc c := by
  unfold bounds_step int_bounds_step
  simp only [float_to_int_is_int pf _ _ hp.2 (by omega) (by omega)]

theorem foldl_forall₂ {α β γ : Type} (f : γ → α → γ) (g : γ → β → γ) (R : α → β → Prop)
    (l1 : List α) (l2 : List β) (h : List.Forall₂ R l1 l2)
    (hstep : ∀ acc a b, R a b → f acc a = g acc b) (acc : γ) :
    l1.foldl f acc = l2.foldl g acc := by
  induction h generalizing acc with
  | nil => rfl
  | cons hab _ ih => rw [List.foldl_cons, List.foldl_cons, hstep _ _ _ hab, ih]

theorem edges_int (scale offset_x offset_y : F32) (pts : List Point) (cs : List (Int × Int))
    (h : List.Forall₂ (lands_on scale offset_x offset_y) pts cs) :
    List.Forall₂
      (fun e ie => lands_on scale offset_x offset_y e.1 ie.1 ∧
        lands_on scale offset_x offset_y e.2 ie.2 ∧ ie ∈ int_edges cs)
      (edges pts) (int_edges cs) := by
  have hlen := h.length_eq
  obtain ⟨-, hget⟩ := List.forall₂_iff_get.1 h
  rw [List.forall₂_iff_get]
  refine ⟨by simp [edges, int_edges, hlen], ?_⟩
  intro i h1 h2
  have hi : i < pts.length := by simpa [edges] using h1
  have hi2 : i < cs.length := by omega
  have hk : (i + 1) % pts.length < pts.length := Nat.mod_lt _ (by omega)
  have hk2 : (i + 1) % pts.length < cs.length := by omega
  have e1 : (edges pts).get ⟨i, h1⟩ =
      (pts.get ⟨i, hi⟩, pts.get ⟨(i + 1) % pts.length, hk⟩) := by
    simp [edges, List.getElem?_eq_getElem hi, List.getElem?_eq_getElem hk]
  have e2 : (int_edges cs).get ⟨i, h2⟩ =
      (cs.get ⟨i, hi2⟩, cs.get ⟨(i + 1) % pts.length, hk2⟩) := by
    simp [int_edges, ← hlen, List.getElem?_eq_getElem hi2, List.getElem?_eq_getElem hk2]
  refine ⟨?_, ?_, List.get_mem _ _ _⟩
  · rw [e1, e2]
    exact hget i hi hi2
  · rw [e1, e2]
    exact hget _ hk hk2

theorem forall₂_mem_right {α β : Type} (R : α → β → Prop) (l1 : List α) (l2 : List β)
    (h : List.Forall₂ R l1 l2) : List.Forall₂ (fun a b => R a b ∧ b ∈ l2) l1 l2 := by
  induction h with
  | nil => exact List.Forall₂.nil
  | cons hab _ ih =>
    exact List.Forall₂.cons ⟨hab, List.mem_cons_self _ _⟩
      (ih.imp (fun _ _ h => ⟨h.1, List.mem_cons_of_mem _ h.2⟩))

theorem int_edges_mem (cs : List (Int × Int)) (e : (Int × Int) × (Int × Int))
    (h : e ∈ int_edges cs) : e.1 ∈ cs ∧ e.2 ∈ cs := by
  unfold int_edges at h
  obtain ⟨j, hj, rfl⟩ := List.mem_map.1 h
  have hj2 : j < cs.length := List.mem_range.1 hj
  have hk : (j + 1) % cs.length < cs.length := Nat.mod_lt _ (by omega)
  simp only [List.getD_eq_getElem?_getD, List.getElem?_eq_getElem hj2,
    List.getElem?_eq_getElem hk, Option.getD_some]
  exact ⟨List.getElem_mem _, List.getElem_mem _⟩

/-- The intersections of a row, for a shape on the pixel grid: every corner
has coordinates from `0` to `2 ^ 24 - 1`, and every edge is horizontal or
vertical. -/
theorem row_intersections_int (pf : Platform) (scale offset_x offset_y : F32) (svg : SVGPath)
    (polys : List (List (Int × Int) × Bool))
    (h : shape_lands_on scale offset_x offset_y svg polys)
    (hin : ∀ q ∈ polys, ∀ c ∈ q.1, (0 ≤ c.1 ∧ c.1 < 2 ^ 24) ∧ (0 ≤ c.2 ∧ c.2 < 2 ^ 24))
    (hrect : ∀ q ∈ polys, ∀ e ∈ int_edges q.1, e.1.1 = e.2.1 ∨ e.1.2 = e.2.2)
    (y : Int) (hy : 0 ≤ y ∧ y < 2 ^ 24) :
    row_intersections pf svg scale offset_x offset_y y = int_row polys y := by
  unfold row_intersections int_row
  apply foldl_forall₂ _ _ _ _ _ (forall₂_mem_right _ _ _ h)
  intro acc path q hq
  obtain ⟨⟨hhole, hpts⟩, hmem⟩ := hq
  rw [hhole]
  apply foldl_forall₂ _ _ _ _ _ (edges_int scale offset_x offset_y _ _ hpts)
  intro acc2 e ie he
  obtain ⟨he1, he2, hie⟩ := he
  obtain ⟨m1, m2⟩ := int_edges_mem _ _ hie
  exact scan_edge_int pf scale offset_x offset_y y q.2 acc2 e.1 e.2 ie.1 ie.2 he1 he2
    (hrect q hmem ie hie) (hin q hmem _ m1) (hin q hmem _ m2) hy

theorem screen_bounds_int (pf : Platform) (fb : Framebuffer) (scale offset_x offset_y : F32)
    (svg : SVGPath) (polys : List (List (Int × Int) × Bool))
    (h : shape_lands_on scale offset_x offset_y svg polys)
    (hin : ∀ q ∈ polys, ∀ c ∈ q.1, (0 ≤ c.1 ∧ c.1 < 2 ^ 24) ∧ (0 ≤ c.2 ∧ c.2 < 2 ^ 24)) :
    screen_bounds pf fb svg scale offset_y =
      polys.foldl (fun acc q => q.1.foldl int_bounds_step acc) (to_int32 fb.vinfo.yres, 0) := by
  unfold screen_bounds
  apply foldl_forall₂ _ _ _ _ _ (forall₂_mem_right _ _ _ h)
  intro acc path q hq
  obtain ⟨⟨-, hpts⟩, hmem⟩ := hq
  apply foldl_forall₂ _ _ _ _ _ (forall₂_mem_right _ _ _ hpts)
  intro acc2 p c hc
  exact bounds_step_int pf scale offset_x offset_y acc2 p c hc.1 (hin q hmem c hc.2).2

theorem unit_layout_values :
    render_scale unit_layout = F32.ofInt 1 ∧ render_offset_x unit_layout = F32.ofInt 0 ∧
      render_offset_y unit_layout = F32.ofInt 0 := by
  decide

theorem grid_shape_lands_on (polys : List (List (Int × Int) × Bool)) (fill_color : Color)
    (h : ∀ q ∈ polys, ∀ c ∈ q.1, (0 ≤ c.1 ∧ c.1 < 2 ^ 24) ∧ (0 ≤ c.2 ∧ c.2 < 2 ^ 24)) :
    shape_lands_on (render_scale unit_layout) (render_offset_x unit_layout)
      (render_offset_y unit_layout) (grid_shape polys fill_color) polys := by
  obtain ⟨e1, e2, e3⟩ := unit_layout_values
  rw [e1, e2, e3]
  unfold shape_lands_on grid_shape polygon
  simp only [List.forall₂_map_left_iff]
  rw [List.forall₂_same]
  intro q hq
  refine ⟨rfl, ?_⟩
  rw [List.forall₂_same]
  intro c hc
  obtain ⟨h1, h2⟩ := h q hq c hc
  have i1 : Fp.is_int (F32.ofInt 1) 1 := ofInt_is_int 1 (by decide)
  have i0 : Fp.is_int (F32.ofInt 0) 0 := ofInt_is_int 0 (by decide)
  have hlands : ∀ X : Int, 0 ≤ X ∧ X < 2 ^ 24 →
      Fp.is_int (F32.ofInt X * F32.ofInt 1 + F32.ofInt 0) X := by
    intro X hX
    have iX : Fp.is_int (F32.ofInt X) X := ofInt_is_int X (abs_lt.2 ⟨by omega, by omega⟩)
    rw [is_int_mul _ _ _ _ iX i1, mul_one, is_int_add _ _ _ _ iX i0, add_zero]
    exact iX
  exact ⟨hlands c.1 h1, hlands c.2 h2⟩

/-! ## Sorting a row -/

theorem insert_by_x_eq (a : Intersection) (l : List Intersection) :
    insert_by_x a l = List.orderedInsert (fun a b : Intersection => a.x ≤ b.x) a l := by
  induction l with
  | nil => rfl
  | cons b l ih =>
    simp only [insert_by_x, List.orderedInsert]
    split
    · rfl
    · rw [ih]

theorem sort_by_x_eq (l : List Intersection) :
    sort_by_x l = List.insertionSort (fun a b : Intersection => a.x ≤ b.x) l := by
  induction l with
  | nil => rfl
  | cons a l ih => simp only [sort_by_x, List.insertionSort, ih, insert_by_x_eq]

theorem stable_platform_sorts : stable_platform.sorts := by
  intro l _
  show List.Perm (sort_by_x l) l ∧ List.Pairwise (fun a b => a.x ≤ b.x) (sort_by_x l)
  rw [sort_by_x_eq]
  haveI : IsTotal Intersection (fun a b => a.x ≤ b.x) := ⟨fun a b => le_total a.x b.x⟩
  haveI : IsTrans Intersection (fun a b => a.x ≤ b.x) := ⟨fun _ _ _ h1 h2 => le_trans h1 h2⟩
  exact ⟨List.perm_insertionSort _ l, List.sorted_insertionSort _ l⟩

theorem sorted_perm_unique (l l0 : List Intersection) (hp : l.Perm l0)
    (hs : l.Pairwise (fun a b => a.x ≤ b.x)) (hs0 : l0.Pairwise (fun a b => a.x < b.x)) :
    l = l0 := by
  have hne : l.Pairwise (fun a b => a.x ≠ b.x) :=
    (hp.pairwise_iff (fun h => Ne.symm h)).2 (hs0.imp (fun h => ne_of_lt h))
  have hlt : l.Pairwise (fun a b => a.x < b.x) :=
    (hs.and hne).imp (fun h => lt_of_le_of_ne h.1 h.2)
  haveI : IsAntisymm Intersection (fun a b => a.x < b.x) :=
    ⟨fun _ _ h1 h2 => absurd h1 (not_lt_of_lt h2)⟩
  exact List.eq_of_perm_of_sorted hp hlt hs0

theorem qsort_unique (pf : Platform) (hs : pf.sorts) (l l0 : List Intersection)
    (hp : l.Perm l0) (hs0 : l0.Pairwise (fun a b => a.x < b.x))
    (hr : ∀ a ∈ l0, 0 ≤ a.x ∧ a.x < 2 ^ 24) : pf.qsort l = l0 := by
  have hr2 : ∀ a ∈ l, ∀ b ∈ l, -2 ^ 31 ≤ a.x - b.x ∧ a.x - b.x < 2 ^ 31 := by
    intro a ha b hb
    have h1 := hr a (hp.subset ha)
    have h2 := hr b (hp.subset hb)
    omega
  obtain ⟨h1, h2⟩ := hs l hr2
  exact sorted_perm_unique _ _ (h1.trans hp) h2 hs0

/-! ## The rows of an axis-aligned rectangle -/

theorem int_edges4 (c0 c1 c2 c3 : Int × Int) :
    int_edges [c0, c1, c2, c3] = [(c0, c1), (c1, c2), (c2, c3), (c3, c0)] := by
  simp [int_edges, List.range_succ]

theorem int_edges5 (c0 c1 c2 c3 c4 : Int × Int) :
    int_edges [c0, c1, c2, c3, c4] = [(c0, c1), (c1, c2), (c2, c3), (c3, c4), (c4, c0)] := by
  simp [int_edges, List.range_succ]

theorem int_scan_flat (y : Int) (is_hole : Bool) (acc : List Intersection) (X1 X2 Y : Int) :
    int_scan_edge y is_hole acc ((X1, Y), (X2, Y)) = acc := by
  unfold int_scan_edge int_straddles
  have : (decide (Y ≤ y) && decide (y < Y)) = false := by
    simp only [Bool.and_eq_false_iff, decide_eq_false_iff_not]
    omega
  simp only [this, Bool.or_self, Bool.false_eq_true, if_false]

theorem int_scan_up (B D y : Int) (is_hole : Bool) (hy : B ≤ y ∧ y < D)
    (acc : List Intersection) (X1 X2 : Int) :
    int_scan_edge y is_hole acc ((X1, B), (X2, D)) =
      if acc.length < MAX_INTERSECTIONS then acc ++ [⟨X1, is_hole⟩] else acc := by
  unfold int_scan_edge int_straddles
  simp only [decide_eq_true hy.1, decide_eq_true hy.2, Bool.and_self, Bool.true_or, if_true]

theorem int_scan_down (B D y : Int) (is_hole : Bool) (hy : B ≤ y ∧ y < D)
    (acc : List Intersection) (X1 X2 : Int) :
    int_scan_edge y is_hole acc ((X1, D), (X2, B)) =
      if acc.length < MAX_INTERSECTIONS then acc ++ [⟨X1, is_hole⟩] else acc := by
  unfold int_scan_edge int_straddles
  simp only [decide_eq_true hy.1, decide_eq_true hy.2, Bool.and_self, Bool.or_true, if_true]

theorem int_scan_miss_up (B D y : Int) (is_hole : Bool) (hBD : B < D) (hy : ¬ (B ≤ y ∧ y < D))
    (acc : List Intersection) (X1 X2 : Int) :
    int_scan_edge y is_hole acc ((X1, B), (X2, D)) = acc := by
  unfold int_scan_edge int_straddles
  have h1 : (decide (B ≤ y) && decide (y < D)) = false := by
    simp only [Bool.and_eq_false_iff, decide_eq_false_iff_not]
    omega
  have h2 : (decide (D ≤ y) && decide (y < B)) = false := by
    simp only [Bool.and_eq_false_iff, decide_eq_false_iff_not]
    omega
  simp only [h1, h2, Bool.or_self, Bool.false_eq_true, if_false]

theorem int_scan_miss_down (B D y : Int) (is_hole : Bool) (hBD : B < D)
    (hy : ¬ (B ≤ y ∧ y < D)) (acc : List Intersection) (X1 X2 : Int) :
    int_scan_edge y is_hole acc ((X1, D), (X2, B)) = acc := by
  unfold int_scan_edge int_straddles
  have h1 : (decide (B ≤ y) && decide (y < D)) = false := by
    simp only [Bool.and_eq_false_iff, decide_eq_false_iff_not]
    omega
  have h2 : (decide (D ≤ y) && decide (y < B)) = false := by
    simp only [Bool.and_eq_false_iff, decide_eq_false_iff_not]
    omega
  simp only [h1, h2, Bool.or_self, Bool.false_eq_true, if_false]

theorem ring_row_inside (A B C D y : Int) (is_hole : Bool) (cs : List (Int × Int))
    (hcs : cs ∈ square_rings A B C D) (hy : B ≤ y ∧ y < D)
    (acc : List Intersection) (hlen : acc.length + 2 ≤ MAX_INTERSECTIONS) :
    ∃ l : List Intersection, l.Perm [⟨A, is_hole⟩, ⟨C, is_hole⟩] ∧
      (int_edges cs).foldl (int_scan_edge y is_hole) acc = acc ++ l := by
  have h1 : acc.length < MAX_INTERSECTIONS := by omega
  have h2 : acc.length + 1 < MAX_INTERSECTIONS := by omega
  simp only [square_rings, List.mem_cons, List.mem_singleton, List.not_mem_nil, or_false] at hcs
  rcases hcs with rfl | rfl | rfl | rfl | rfl | rfl | rfl | rfl | rfl | rfl | rfl | rfl | rfl |
    rfl | rfl | rfl <;>
  simp only [int_edges4, int_edges5, List.foldl_cons, List.foldl_nil, int_scan_flat,
    int_scan_up B D y is_hole hy, int_scan_down B D y is_hole hy, h1, h2, if_true,
    List.length_append, List.length_singleton] <;>
  first
    | (refine ⟨_, List.Perm.refl _, ?_⟩
       simp only [List.append_assoc, List.singleton_append]
       done)
    | (refine ⟨_, List.Perm.swap _ _ _, ?_⟩
       simp only [List.append_assoc, List.singleton_append])

theorem ring_row_outside (A B C D y : Int) (is_hole : Bool) (cs : List (Int × Int))
    (hcs : cs ∈ square_rings A B C D) (hBD : B < D) (hy : ¬ (B ≤ y ∧ y < D))
    (acc : List Intersection) :
    (int_edges cs).foldl (int_scan_edge y is_hole) acc = acc := by
  simp only [square_rings, List.mem_cons, List.mem_singleton, List.not_mem_nil, or_false] at hcs
  rcases hcs with rfl | rfl | rfl | rfl | rfl | rfl | rfl | rfl | rfl | rfl | rfl | rfl | rfl |
    rfl | rfl | rfl <;>
  simp only [int_edges4, int_edges5, List.foldl_cons, List.foldl_nil, int_scan_flat,
    int_scan_miss_up B D y is_hole hBD hy, int_scan_miss_down B D y is_hole hBD hy]

theorem ring_corners (A B C D : Int) (cs : List (Int × Int)) (hcs : cs ∈ square_rings A B C D)
    (c : Int × Int) (hc : c ∈ cs) : (c.1 = A ∨ c.1 = C) ∧ (c.2 = B ∨ c.2 = D) := by
  simp only [square_rings, List.mem_cons, List.mem_singleton, List.not_mem_nil, or_false] at hcs
  rcases hcs with rfl | rfl | rfl | rfl | rfl | rfl | rfl | rfl | rfl | rfl | rfl | rfl | rfl |
    rfl | rfl | rfl <;>
  simp only [List.mem_cons, List.mem_singleton, List.not_mem_nil, or_false] at hc <;>
  rcases hc with rfl | rfl | rfl | rfl | rfl <;> simp

theorem ring_edges (A B C D : Int) (cs : List (Int × Int)) (hcs : cs ∈ square_rings A B C D)
    (e : (Int × Int) × (Int × Int)) (he : e ∈ int_edges cs) : e.1.1 = e.2.1 ∨ e.1.2 = e.2.2 := by
  simp only [square_rings, List.mem_cons, List.mem_singleton, List.not_mem_nil, or_false] at hcs
  rcases hcs with rfl | rfl | rfl | rfl | rfl | rfl | rfl | rfl | rfl | rfl | rfl | rfl | rfl |
    rfl | rfl | rfl <;>
  simp only [int_edges4, int_edges5, List.mem_cons, List.mem_singleton, List.not_mem_nil,
    or_false] at he <;>
  rcases he with rfl | rfl | rfl | rfl | rfl <;> simp

theorem int_bounds_fold (cs : List (Int × Int)) (acc : Int × Int) :
    (cs.foldl int_bounds_step acc).1 ≤ acc.1 ∧ acc.2 ≤ (cs.foldl int_bounds_step acc).2 ∧
      (∀ c ∈ cs, (cs.foldl int_bounds_step acc).1 ≤ c.2 ∧
        c.2 ≤ (cs.foldl int_bounds_step acc).2) ∧
      ((cs.foldl int_bounds_step acc).1 = acc.1 ∨
        ∃ c ∈ cs, (cs.foldl int_bounds_step acc).1 = c.2) ∧
      ((cs.foldl int_bounds_step acc).2 = acc.2 ∨
        ∃ c ∈ cs, (cs.foldl int_bounds_step acc).2 = c.2) := by
  induction cs generalizing acc with
  | nil => simp
  | cons c cs ih =>
    obtain ⟨h1, h2, h3, h4, h5⟩ := ih (int_bounds_step acc c)
    rw [List.foldl_cons]
    have e1 : (int_bounds_step acc c).1 = if c.2 < acc.1 then c.2 else acc.1 := rfl
    have e2 : (int_bounds_step acc c).2 = if c.2 > acc.2 then c.2 else acc.2 := rfl
    refine ⟨?_, ?_, ?_, ?_, ?_⟩
    · rw [e1] at h1
      split_ifs at h1 <;> omega
    · rw [e2] at h2
      split_ifs at h2 <;> omega
    · intro d hd
      rcases List.mem_cons.1 hd with rfl | hd
      · rw [e1] at h1
        rw [e2] at h2
        constructor
        · split_ifs at h1 <;> omega
        · split_ifs at h2 <;> omega
      · exact h3 d hd
    · rcases h4 with h4 | ⟨d, hd, h4⟩
      · rw [e1] at h4
        split_ifs at h4
        · exact Or.inr ⟨c, List.mem_cons_self _ _, h4⟩
        · exact Or.inl h4
      · exact Or.inr ⟨d, List.mem_cons_of_mem _ hd, h4⟩
    · rcases h5 with h5 | ⟨d, hd, h5⟩
      · rw [e2] at h5
        split_ifs at h5
        · exact Or.inr ⟨c, List.mem_cons_self _ _, h5⟩
        · exact Or.inl h5
      · exact Or.inr ⟨d, List.mem_cons_of_mem _ hd, h5⟩

theorem ring_has_corners (A B C D : Int) (cs : List (Int × Int))
    (hcs : cs ∈ square_rings A B C D) : (A, B) ∈ cs ∧ (C, D) ∈ cs := by
  simp only [square_rings, List.mem_cons, List.mem_singleton, List.not_mem_nil, or_false] at hcs
  rcases hcs with rfl | rfl | rfl | rfl | rfl | rfl | rfl | rfl | rfl | rfl | rfl | rfl | rfl |
    rfl | rfl | rfl <;> simp

theorem ring_bounds (A B C D : Int) (cs : List (Int × Int)) (hcs : cs ∈ square_rings A B C D)
    (hBD : B < D) (acc : Int × Int) :
    cs.foldl int_bounds_step acc =
      (if B < acc.1 then B else acc.1, if D > acc.2 then D else acc.2) := by
  obtain ⟨h1, h2, h3, h4, h5⟩ := int_bounds_fold cs acc
  obtain ⟨hab, hcd⟩ := ring_has_corners A B C D cs hcs
  have hb := h3 _ hab
  have hd := h3 _ hcd
  simp only at hb hd
  have k1 : (cs.foldl int_bounds_step acc).1 = acc.1 ∨ (cs.foldl int_bounds_step acc).1 = B ∨
      (cs.foldl int_bounds_step acc).1 = D := by
    rcases h4 with h4 | ⟨c, hc, h4⟩
    · exact Or.inl h4
    · rcases (ring_corners A B C D cs hcs c hc).2 with h | h
      · exact Or.inr (Or.inl (h4.trans h))
      · exact Or.inr (Or.inr (h4.trans h))
  have k2 : (cs.foldl int_bounds_step acc).2 = acc.2 ∨ (cs.foldl int_bounds_step acc).2 = B ∨
      (cs.foldl int_bounds_step acc).2 = D := by
    rcases h5 with h5 | ⟨c, hc, h5⟩
    · exact Or.inl h5
    · rcases (ring_corners A B C D cs hcs c hc).2 with h | h
      · exact Or.inr (Or.inl (h5.trans h))
      · exact Or.inr (Or.inr (h5.trans h))
  ext
  · simp only
    split_ifs <;> omega
  · simp only
    split_ifs <;> omega

/-! ## Filling the rows of a rectangle -/

theorem fill_two (fb : Framebuffer) (y : Int) (color : Nat) (A C : Int) (hA : 0 ≤ A)
    (hC : C < (fb.vinfo.xres : Int)) (hx : (fb.vinfo.xres : Int) < 2 ^ 31) :
    fill_loop fb y color [⟨A, false⟩, ⟨C, false⟩] false false =
      (int_range A C).map (fun x => (⟨x, y, color⟩ : PixelWrite)) := by
  have hx2 := to_int32_small (fb.vinfo.xres : Int) (by omega) hx
  simp only [fill_loop, Bool.false_eq_true, if_false, Bool.not_false, Bool.and_self, if_true,
    List.append_nil, hx2]
  rw [if_neg (by omega), if_neg (by omega)]

theorem fill_four (fb : Framebuffer) (y : Int) (color : Nat) (A A1 C1 C : Int) (hA : 0 ≤ A)
    (hA1 : 0 ≤ A1 ∧ A1 < (fb.vinfo.xres : Int)) (hC1 : 0 ≤ C1)
    (hC : C < (fb.vinfo.xres : Int)) (hx : (fb.vinfo.xres : Int) < 2 ^ 31) :
    fill_loop fb y color [⟨A, false⟩, ⟨A1, true⟩, ⟨C1, true⟩, ⟨C, false⟩] false false =
      (int_range A A1).map (fun x => (⟨x, y, color⟩ : PixelWrite)) ++
        (int_range C1 C).map (fun x => (⟨x, y, color⟩ : PixelWrite)) := by
  have hx2 := to_int32_small (fb.vinfo.xres : Int) (by omega) hx
  simp only [fill_loop, Bool.false_eq_true, if_false, Bool.not_false, Bool.and_self, if_true,
    List.append_nil, hx2, Bool.not_true, Bool.and_false, List.nil_append, Bool.and_true]
  rw [if_neg (by omega), if_neg (by omega), if_neg (by omega), if_neg (by omega)]

/-! ## C17: a square is filled -/

theorem render_square_mem (pf : Platform) (hs : pf.sorts) (fb : Framebuffer) (svg : SVGPath)
    (di : DisplayInfo) (A B C D : Int) (cs : List (Int × Int))
    (hcs : cs ∈ square_rings A B C D)
    (hl : shape_lands_on (render_scale di) (render_offset_x di) (render_offset_y di) svg
      [(cs, false)])
    (hA : 0 ≤ A) (hAC : A < C) (hC : C < (fb.vinfo.xres : Int))
    (hB : 0 ≤ B) (hBD : B < D) (hD : D < (fb.vinfo.yres : Int))
    (hx : fb.vinfo.xres ≤ 2 ^ 24) (hy : fb.vinfo.yres ≤ 2 ^ 24) (w : PixelWrite) :
    w ∈ render_path_with_holes pf fb svg di ↔
      (B ≤ w.y ∧ w.y < D) ∧ (A ≤ w.x ∧ w.x ≤ C) ∧ w.color = pack_color svg.fill_color := by
  have hx2 : (fb.vinfo.xres : Int) ≤ 2 ^ 24 := by exact_mod_cast hx
  have hy2 : (fb.vinfo.yres : Int) ≤ 2 ^ 24 := by exact_mod_cast hy
  have hin : ∀ q ∈ [(cs, false)], ∀ c ∈ q.1,
      (0 ≤ c.1 ∧ c.1 < 2 ^ 24) ∧ (0 ≤ c.2 ∧ c.2 < 2 ^ 24) := by
    intro q hq c hc
    rw [List.mem_singleton] at hq
    subst hq
    obtain ⟨h1, h2⟩ := ring_corners A B C D cs hcs c hc
    rcases h1 with h1 | h1 <;> rcases h2 with h2 | h2 <;> omega
  have hrect : ∀ q ∈ [(cs, false)], ∀ e ∈ int_edges q.1, e.1.1 = e.2.1 ∨ e.1.2 = e.2.2 := by
    intro q hq e he
    rw [List.mem_singleton] at hq
    subst hq
    exact ring_edges A B C D cs hcs e he
  have hb : screen_bounds pf fb svg (render_scale di) (render_offset_y di) = (B, D) := by
    rw [screen_bounds_int pf fb _ (render_offset_x di) _ svg _ hl hin]
    simp only [List.foldl_cons, List.foldl_nil]
    rw [ring_bounds A B C D cs hcs hBD, to_int32_small _ (by omega) (by omega)]
    simp only
    rw [if_pos (by omega), if_pos (by omega)]
  have hrow : ∀ y, B ≤ y → y < D →
      render_row pf fb svg (render_scale di) (render_offset_x di) (render_offset_y di) y =
        (int_range A C).map (fun x => (⟨x, y, pack_color svg.fill_color⟩ : PixelWrite)) := by
    intro y h1 h2
    unfold render_row
    rw [row_intersections_int pf _ _ _ svg _ hl hin hrect y (by omega)]
    unfold int_row
    simp only [List.foldl_cons, List.foldl_nil]
    obtain ⟨l, hp, he⟩ := ring_row_inside A B C D y false cs hcs ⟨h1, h2⟩ []
      (by simp [MAX_INTERSECTIONS])
    rw [he, List.nil_append]
    have hlen : 0 < l.length := by rw [hp.length_eq]; simp
    simp only [hlen, if_true]
    rw [qsort_unique pf hs l _ hp (by simp [hAC]) (by
      intro a ha
      simp only [List.mem_cons, List.mem_singleton, List.not_mem_nil, or_false] at ha
      rcases ha with rfl | rfl <;> simp only <;> omega)]
    exact fill_two fb y _ A C hA hC (by omega)
  have hlast : render_row pf fb svg (render_scale di) (render_offset_x di)
      (render_offset_y di) D = [] := by
    unfold render_row
    rw [row_intersections_int pf _ _ _ svg _ hl hin hrect D (by omega)]
    unfold int_row
    simp only [List.foldl_cons, List.foldl_nil]
    rw [ring_row_outside A B C D D false cs hcs hBD (by omega)]
    simp
  unfold render_path_with_holes
  simp only [hb]
  rw [if_neg (by omega), to_int32_small _ (by omega) (by omega), if_neg (by omega)]
  simp only [List.mem_flatMap, mem_int_range]
  constructor
  · rintro ⟨y, ⟨hy1, hy2⟩, hw⟩
    by_cases hyD : y < D
    · rw [hrow y hy1 hyD] at hw
      obtain ⟨x, hx, rfl⟩ := List.mem_map.1 hw
      rw [mem_int_range] at hx
      exact ⟨⟨hy1, hyD⟩, hx, rfl⟩
    · have : y = D := by omega
      subst this
      rw [hlast] at hw
      simp at hw
  · rintro ⟨⟨hy1, hy2⟩, hx, hc⟩
    refine ⟨w.y, ⟨hy1, by omega⟩, ?_⟩
    rw [hrow w.y hy1 hy2]
    exact List.mem_map.2 ⟨w.x, (mem_int_range _ _ _).2 hx, by rw [← hc]⟩

/-- C17, as stated, fails on a surface of more than `2 ^ 24` rows: with the
scale one and the offsets zero, the square with corners `(0, 16777216)` and
`(2, 16777220)` lies on the surface of 3 columns and 16777221 rows, the pixel
`(1, 16777219)` is strictly inside it, and no pixel of the row 16777219 is
written: the row number converted to `float` is `16777220`. -/
theorem render_square_misses_row :
    render_scale ⟨3, 16777221, 1284, 1284, 0, 0⟩ = F32.ofInt 1 ∧
      render_offset_x ⟨3, 16777221, 1284, 1284, 0, 0⟩ = F32.ofInt 0 ∧
      render_offset_y ⟨3, 16777221, 1284, 1284, 0, 0⟩ = F32.ofInt 0 ∧
      F32.ofInt 16777219 = F32.ofInt 16777220 ∧
      ∀ w ∈ render_path_with_holes stable_platform (blank_surface 3 16777221)
          (grid_shape [([(0, 16777216), (2, 16777216), (2, 16777220), (0, 16777220)], false)]
            ⟨255, 85, 85, 255⟩)
          ⟨3, 16777221, 1284, 1284, 0, 0⟩,
        w.y ≠ 16777219 := by
  decide

/-- C17, amended: on a surface of at most `2 ^ 24` columns and rows, for a shape
made of one polygon that is not a hole and whose points are transformed to the
corners `(A, B)`, `(C, B)`, `(C, D)`, `(A, D)` of a square (or of any
axis-aligned rectangle) on the surface, walked either way round from any
corner, closed or not, `render_path_with_holes` writes every pixel strictly
inside the square and no pixel outside the closed square. -/
theorem render_square (pf : Platform) (hs : pf.sorts) (fb : Framebuffer) (svg : SVGPath)
    (di : DisplayInfo) (A B C D : Int) (cs : List (Int × Int))
    (hcs : cs ∈ square_rings A B C D)
    (hl : shape_lands_on (render_scale di) (render_offset_x di) (render_offset_y di) svg
      [(cs, false)])
    (hA : 0 ≤ A) (hAC : A < C) (hC : C < (fb.vinfo.xres : Int))
    (hB : 0 ≤ B) (hBD : B < D) (hD : D < (fb.vinfo.yres : Int))
    (hx : fb.vinfo.xres ≤ 2 ^ 24) (hy : fb.vinfo.yres ≤ 2 ^ 24) :
    (∀ x y : Int, A < x → x < C → B < y → y < D →
        (⟨x, y, pack_color svg.fill_color⟩ : PixelWrite) ∈ render_path_with_holes pf fb svg di) ∧
      ∀ w ∈ render_path_with_holes pf fb svg di,
        (A ≤ w.x ∧ w.x ≤ C) ∧ (B ≤ w.y ∧ w.y ≤ D) := by
  constructor
  · intro x y h1 h2 h3 h4
    rw [render_square_mem pf hs fb svg di A B C D cs hcs hl hA hAC hC hB hBD hD hx hy]
    refine ⟨⟨?_, ?_⟩, ⟨?_, ?_⟩, rfl⟩ <;> simp only <;> omega
  · intro w hw
    rw [render_square_mem pf hs fb svg di A B C D cs hcs hl hA hAC hC hB hBD hD hx hy] at hw
    exact ⟨hw.2.1, hw.1.1, by omega⟩

theorem render_square_witness :
    (⟨5, 5, pack_color ⟨255, 85, 85, 255⟩⟩ : PixelWrite) ∈
        render_path_with_holes stable_platform (blank_surface 20 20)
          (grid_shape [([(0, 0), (10, 0), (10, 10), (0, 10), (0, 0)], false)] ⟨255, 85, 85, 255⟩)
          unit_layout ∧
      ∀ w ∈ render_path_with_holes stable_platform (blank_surface 20 20)
          (grid_shape [([(0, 0), (10, 0), (10, 10), (0, 10), (0, 0)], false)] ⟨255, 85, 85, 255⟩)
          unit_layout,
        (0 ≤ w.x ∧ w.x ≤ 10) ∧ (0 ≤ w.y ∧ w.y ≤ 10) :=
  have h := render_square stable_platform stable_platform_sorts (blank_surface 20 20)
    (grid_shape [([(0, 0), (10, 0), (10, 10), (0, 10), (0, 0)], false)] ⟨255, 85, 85, 255⟩)
    unit_layout 0 0 10 10 [(0, 0), (10, 0), (10, 10), (0, 10), (0, 0)] (by decide)
    (grid_shape_lands_on _ _ (by decide)) (by decide) (by decide) (by decide) (by decide)
    (by decide) (by decide) (by decide) (by decide)
  ⟨h.1 5 5 (by decide) (by decide) (by decide) (by decide), h.2⟩

/-! ## C18: a square with a square hole -/

theorem render_ring_mem (pf : Platform) (hs : pf.sorts) (fb : Framebuffer) (svg : SVGPath)
    (di : DisplayInfo) (A B C D A1 B1 C1 D1 : Int) (cs hole : List (Int × Int))
    (hcs : cs ∈ square_rings A B C D) (hhole : hole ∈ square_rings A1 B1 C1 D1)
    (hl : shape_lands_on (render_scale di) (render_offset_x di) (render_offset_y di) svg
      [(cs, false), (hole, true)])
    (hA : 0 ≤ A) (hA1 : A < A1) (hAC : A1 < C1) (hC1 : C1 < C) (hC : C < (fb.vinfo.xres : Int))
    (hB : 0 ≤ B) (hB1 : B < B1) (hBD : B1 < D1) (hD1 : D1 < D) (hD : D < (fb.vinfo.yres : Int))
    (hx : fb.vinfo.xres ≤ 2 ^ 24) (hy : fb.vinfo.yres ≤ 2 ^ 24) (w : PixelWrite) :
    w ∈ render_path_with_holes pf fb svg di ↔
      (B ≤ w.y ∧ w.y < D) ∧ (A ≤ w.x ∧ w.x ≤ C) ∧ w.color = pack_color svg.fill_color ∧
        ((B1 ≤ w.y ∧ w.y < D1) → w.x ≤ A1 ∨ C1 ≤ w.x) := by
  have hx2 : (fb.vinfo.xres : Int) ≤ 2 ^ 24 := by exact_mod_cast hx
  have hy2 : (fb.vinfo.yres : Int) ≤ 2 ^ 24 := by exact_mod_cast hy
  have hin : ∀ q ∈ [(cs, false), (hole, true)], ∀ c ∈ q.1,
      (0 ≤ c.1 ∧ c.1 < 2 ^ 24) ∧ (0 ≤ c.2 ∧ c.2 < 2 ^ 24) := by
    intro q hq c hc
    simp only [List.mem_cons, List.mem_singleton, List.not_mem_nil, or_false] at hq
    rcases hq with rfl | rfl
    · obtain ⟨h1, h2⟩ := ring_corners A B C D cs hcs c hc
      rcases h1 with h1 | h1 <;> rcases h2 with h2 | h2 <;> omega
    · obtain ⟨h1, h2⟩ := ring_corners A1 B1 C1 D1 hole hhole c hc
      rcases h1 with h1 | h1 <;> rcases h2 with h2 | h2 <;> omega
  have hrect : ∀ q ∈ [(cs, false), (hole, true)], ∀ e ∈ int_edges q.1,
      e.1.1 = e.2.1 ∨ e.1.2 = e.2.2 := by
    intro q hq e he
    simp only [List.mem_cons, List.mem_singleton, List.not_mem_nil, or_false] at hq
    rcases hq with rfl | rfl
    · exact ring_edges A B C D cs hcs e he
    · exact ring_edges A1 B1 C1 D1 hole hhole e he
  have hb : screen_bounds pf fb svg (render_scale di) (render_offset_y di) = (B, D) := by
    rw [screen_bounds_int pf fb _ (render_offset_x di) _ svg _ hl hin]
    simp only [List.foldl_cons, List.foldl_nil]
    rw [ring_bounds A B C D cs hcs (by omega), ring_bounds A1 B1 C1 D1 hole hhole hBD,
      to_int32_small _ (by omega) (by omega)]
    ext <;> simp only <;> split_ifs <;> omega
  have hrow_hole : ∀ y, B1 ≤ y → y < D1 →
      render_row pf fb svg (render_scale di) (render_offset_x di) (render_offset_y di) y =
        (int_range A A1).map (fun x => (⟨x, y, pack_color svg.fill_color⟩ : PixelWrite)) ++
          (int_range C1 C).map (fun x => (⟨x, y, pack_color svg.fill_color⟩ : PixelWrite)) := by
    intro y h1 h2
    unfold render_row
    rw [row_intersections_int pf _ _ _ svg _ hl hin hrect y (by omega)]
    unfold int_row
    simp only [List.foldl_cons, List.foldl_nil]
    obtain ⟨l1, hp1, he1⟩ := ring_row_inside A B C D y false cs hcs ⟨by omega, by omega⟩ []
      (by simp [MAX_INTERSECTIONS])
    rw [he1, List.nil_append]
    obtain ⟨l2, hp2, he2⟩ := ring_row_inside A1 B1 C1 D1 y true hole hhole ⟨h1, h2⟩ l1
      (by rw [hp1.length_eq]; simp [MAX_INTERSECTIONS])
    rw [he2]
    have hp : (l1 ++ l2).Perm [⟨A, false⟩, ⟨A1, true⟩, ⟨C1, true⟩, ⟨C, false⟩] :=
      (List.Perm.append hp1 hp2).trans
        (List.Perm.cons _ (List.perm_append_singleton _ _).symm)
    have hlen : 0 < (l1 ++ l2).length := by rw [hp.length_eq]; simp
    simp only [hlen, if_true]
    rw [qsort_unique pf hs _ _ hp (by simp [hA1, hAC, hC1]; omega) (by
      intro a ha
      simp only [List.mem_cons, List.mem_singleton, List.not_mem_nil, or_false] at ha
      rcases ha with rfl | rfl | rfl | rfl <;> simp only <;> omega)]
    exact fill_four fb y _ A A1 C1 C hA ⟨by omega, by omega⟩ (by omega) hC (by omega)
  have hrow : ∀ y, B ≤ y → y < D → ¬ (B1 ≤ y ∧ y < D1) →
      render_row pf fb svg (render_scale di) (render_offset_x di) (render_offset_y di) y =
        (int_range A C).map (fun x => (⟨x, y, pack_color svg.fill_color⟩ : PixelWrite)) := by
    intro y h1 h2 h3
    unfold render_row
    rw [row_intersections_int pf _ _ _ svg _ hl hin hrect y (by omega)]
    unfold int_row
    simp only [List.foldl_cons, List.foldl_nil]
    obtain ⟨l, hp, he⟩ := ring_row_inside A B C D y false cs hcs ⟨h1, h2⟩ []
      (by simp [MAX_INTERSECTIONS])
    rw [he, List.nil_append, ring_row_outside A1 B1 C1 D1 y true hole hhole hBD h3]
    have hlen : 0 < l.length := by rw [hp.length_eq]; simp
    simp only [hlen, if_true]
    rw [qsort_unique pf hs l _ hp (by simp; omega) (by
      intro a ha
      simp only [List.mem_cons, List.mem_singleton, List.not_mem_nil, or_false] at ha
      rcases ha with rfl | rfl <;> simp only <;> omega)]
    exact fill_two fb y _ A C hA hC (by omega)
  have hlast : render_row pf fb svg (render_scale di) (render_offset_x di)
      (render_offset_y di) D = [] := by
    unfold render_row
    rw [row_intersections_int pf _ _ _ svg _ hl hin hrect D (by omega)]
    unfold int_row
    simp only [List.foldl_cons, List.foldl_nil]
    rw [ring_row_outside A B C D D false cs hcs (by omega) (by omega),
      ring_row_outside A1 B1 C1 D1 D true hole hhole hBD (by omega)]
    simp
  unfold render_path_with_holes
  simp only [hb]
  rw [if_neg (by omega), to_int32_small _ (by omega) (by omega), if_neg (by omega)]
  simp only [List.mem_flatMap, mem_int_range]
  constructor
  · rintro ⟨y, ⟨hy1, hy2⟩, hw⟩
    by_cases hyD : y < D
    · by_cases hh : B1 ≤ y ∧ y < D1
      · rw [hrow_hole y hh.1 hh.2] at hw
        rcases List.mem_append.1 hw with hw | hw
        · obtain ⟨x, hx, rfl⟩ := List.mem_map.1 hw
          rw [mem_int_range] at hx
          exact ⟨⟨hy1, hyD⟩, ⟨hx.1, by simp only; omega⟩, rfl, fun _ => Or.inl hx.2⟩
        · obtain ⟨x, hx, rfl⟩ := List.mem_map.1 hw
          rw [mem_int_range] at hx
          exact ⟨⟨hy1, hyD⟩, ⟨by simp only; omega, hx.2⟩, rfl, fun _ => Or.inr hx.1⟩
      · rw [hrow y hy1 hyD hh] at hw
        obtain ⟨x, hx, rfl⟩ := List.mem_map.1 hw
        rw [mem_int_range] at hx
        exact ⟨⟨hy1, hyD⟩, hx, rfl, fun h => absurd h hh⟩
    · have : y = D := by omega
      subst this
      rw [hlast] at hw
      simp at hw
  · rintro ⟨⟨hy1, hy2⟩, hx, hc, hh⟩
    refine ⟨w.y, ⟨hy1, by omega⟩, ?_⟩
    by_cases hin : B1 ≤ w.y ∧ w.y < D1
    · rw [hrow_hole w.y hin.1 hin.2]
      rcases hh hin with h | h
      · exact List.mem_append_left _
          (List.mem_map.2 ⟨w.x, (mem_int_range _ _ _).2 ⟨hx.1, h⟩, by rw [← hc]⟩)
      · exact List.mem_append_right _
          (List.mem_map.2 ⟨w.x, (mem_int_range _ _ _).2 ⟨h, hx.2⟩, by rw [← hc]⟩)
    · rw [hrow w.y hy1 hy2 hin]
      exact List.mem_map.2 ⟨w.x, (mem_int_range _ _ _).2 hx, by rw [← hc]⟩

/-- C18, as stated, fails on a surface of more than `2 ^ 24` rows: with the
scale one and the offsets zero, the outer square has the corners
`(0, 16777214)` and `(6, 16777224)`, the hole has the corners `(2, 16777216)`
and `(4, 16777220)`, both lie on the surface of 7 columns and 16777225 rows, and
the pixel `(3, 16777219)`, strictly inside the hole, is written: the row number
converted to `float` is `16777220`, the lower side of the hole. -/
theorem render_square_with_hole_fills_hole :
    render_scale ⟨7, 16777225, 1284, 1284, 0, 0⟩ = F32.ofInt 1 ∧
      render_offset_x ⟨7, 16777225, 1284, 1284, 0, 0⟩ = F32.ofInt 0 ∧
      render_offset_y ⟨7, 16777225, 1284, 1284, 0, 0⟩ = F32.ofInt 0 ∧
      F32.ofInt 16777219 = F32.ofInt 16777220 ∧
      (⟨3, 16777219, 16733525⟩ : PixelWrite) ∈
        render_path_with_holes stable_platform (blank_surface 7 16777225)
          (grid_shape
            [([(0, 16777214), (6, 16777214), (6, 16777224), (0, 16777224)], false),
             ([(2, 16777216), (4, 16777216), (4, 16777220), (2, 16777220)], true)]
            ⟨255, 85, 85, 255⟩)
          ⟨7, 16777225, 1284, 1284, 0, 0⟩ := by
  decide

/-- C18, amended: on a surface of at most `2 ^ 24` columns and rows, for a shape
made of an outer polygon and one hole whose points are transformed to the
corners of a square `(A, B)`, `(C, D)` on the surface and of a square
`(A1, B1)`, `(C1, D1)` strictly inside it (squares or any axis-aligned
rectangles, walked either way round from any corner, closed or not),
`render_path_with_holes` writes no pixel strictly inside the hole, and it writes
every pixel that is strictly inside the outer square and outside the closed
hole. -/
theorem render_square_with_hole (pf : Platform) (hs : pf.sorts) (fb : Framebuffer)
    (svg : SVGPath) (di : DisplayInfo) (A B C D A1 B1 C1 D1 : Int)
    (cs hole : List (Int × Int))
    (hcs : cs ∈ square_rings A B C D) (hhole : hole ∈ square_rings A1 B1 C1 D1)
    (hl : shape_lands_on (render_scale di) (render_offset_x di) (render_offset_y di) svg
      [(cs, false), (hole, true)])
    (hA : 0 ≤ A) (hA1 : A < A1) (hAC : A1 < C1) (hC1 : C1 < C) (hC : C < (fb.vinfo.xres : Int))
    (hB : 0 ≤ B) (hB1 : B < B1) (hBD : B1 < D1) (hD1 : D1 < D) (hD : D < (fb.vinfo.yres : Int))
    (hx : fb.vinfo.xres ≤ 2 ^ 24) (hy : fb.vinfo.yres ≤ 2 ^ 24) :
    (∀ w ∈ render_path_with_holes pf fb svg di,
        ¬ ((A1 < w.x ∧ w.x < C1) ∧ (B1 < w.y ∧ w.y < D1))) ∧
      ∀ x y : Int, A < x → x < C → B < y → y < D →
        ¬ ((A1 ≤ x ∧ x ≤ C1) ∧ (B1 ≤ y ∧ y ≤ D1)) →
        (⟨x, y, pack_color svg.fill_color⟩ : PixelWrite) ∈ render_path_with_holes pf fb svg di := by
  constructor
  · intro w hw
    rw [render_ring_mem pf hs fb svg di A B C D A1 B1 C1 D1 cs hole hcs hhole hl hA hA1 hAC hC1
      hC hB hB1 hBD hD1 hD hx hy] at hw
    obtain ⟨-, -, -, h⟩ := hw
    rintro ⟨h1, h2⟩
    have := h ⟨by omega, by omega⟩
    omega
  · intro x y h1 h2 h3 h4 h5
    rw [render_ring_mem pf hs fb svg di A B C D A1 B1 C1 D1 cs hole hcs hhole hl hA hA1 hAC hC1
      hC hB hB1 hBD hD1 hD hx hy]
    refine ⟨⟨?_, ?_⟩, ⟨?_, ?_⟩, rfl, ?_⟩ <;> simp only <;> omega

theorem render_square_with_hole_witness :
    (∀ w ∈ render_path_with_holes stable_platform (blank_surface 20 20)
          (grid_shape
            [([(0, 0), (10, 0), (10, 10), (0, 10)], false),
             ([(3, 3), (3, 6), (6, 6), (6, 3), (3, 3)], true)] ⟨255, 85, 85, 255⟩)
          unit_layout,
        ¬ ((3 < w.x ∧ w.x < 6) ∧ (3 < w.y ∧ w.y < 6))) ∧
      (⟨2, 4, pack_color ⟨255, 85, 85, 255⟩⟩ : PixelWrite) ∈
        render_path_with_holes stable_platform (blank_surface 20 20)
          (grid_shape
            [([(0, 0), (10, 0), (10, 10), (0, 10)], false),
             ([(3, 3), (3, 6), (6, 6), (6, 3), (3, 3)], true)] ⟨255, 85, 85, 255⟩)
          unit_layout :=
  have h := render_square_with_hole stable_platform stable_platform_sorts (blank_surface 20 20)
    (grid_shape
      [([(0, 0), (10, 0), (10, 10), (0, 10)], false),
       ([(3, 3), (3, 6), (6, 6), (6, 3), (3, 3)], true)] ⟨255, 85, 85, 255⟩)
    unit_layout 0 0 10 10 3 3 6 6 [(0, 0), (10, 0), (10, 10), (0, 10)]
    [(3, 3), (3, 6), (6, 6), (6, 3), (3, 3)] (by decide) (by decide)
    (grid_shape_lands_on _ _ (by decide)) (by decide) (by decide) (by decide) (by decide)
    (by decide) (by decide) (by decide) (by decide) (by decide) (by decide) (by decide)
    (by decide)
  ⟨h.1, h.2 2 4 (by decide) (by decide) (by decide) (by decide) (by decide)⟩

/-! ## C19: a polygon is closed whether or not its first point is repeated -/

theorem le_and_lt_false (a b : Fp) : (Fp.le a b && Fp.lt b a) = false := by
  cases a with
  | fin m1 e1 =>
    cases b with
    | fin m2 e2 =>
      simp only [Fp.le, Fp.lt, min_comm e2 e1, Bool.and_eq_false_iff, decide_eq_false_iff_not]
      omega
    | inf s => cases s <;> rfl
    | nan => rfl
  | inf s =>
    cases b with
    | fin m2 e2 => cases s <;> rfl
    | inf s2 => cases s <;> cases s2 <;> rfl
    | nan => rfl
  | nan => cases b <;> rfl

theorem straddles_self (v y : F32) : straddles v v y = false := by
  unfold straddles
  have h : (Fp.le v y && Fp.lt y v) = false := le_and_lt_false v y
  rw [h]
  rfl

theorem scan_edge_degenerate (pf : Platform) (scale offset_x offset_y : F32) (y : Int)
    (is_hole : Bool) (acc : List Intersection) (p : Point) :
    scan_edge pf scale offset_x offset_y y is_hole acc (p, p) = acc := by
  unfold scan_edge
  simp only [straddles_self]
  rfl

theorem edges_closed (p0 : Point) (t : List Point) :
    edges (p0 :: t ++ [p0]) = edges (p0 :: t) ++ [(p0, p0)] := by
  unfold edges
  have hlen : (p0 :: t ++ [p0]).length = (p0 :: t).length + 1 := by simp
  rw [hlen, List.range_succ, List.map_append]
  congr 1
  · apply List.map_congr_left
    intro j hj
    have hj2 : j < t.length + 1 := by simpa using hj
    have e1 : (p0 :: t ++ [p0]).getD j ⟨0, 0⟩ = (p0 :: t).getD j ⟨0, 0⟩ := by
      rw [List.getD_append _ _ _ _ (by simpa using hj2)]
    have e2 : (p0 :: t ++ [p0]).getD ((j + 1) % ((p0 :: t).length + 1)) ⟨0, 0⟩ =
        (p0 :: t).getD ((j + 1) % (p0 :: t).length) ⟨0, 0⟩ := by
      have hl : (p0 :: t).length = t.length + 1 := rfl
      rw [hl, Nat.mod_eq_of_lt (by omega)]
      by_cases hlast : j + 1 < t.length + 1
      · rw [Nat.mod_eq_of_lt hlast, List.getD_append _ _ _ _ (by simpa using hlast)]
      · have hj3 : j + 1 = t.length + 1 := by omega
        rw [hj3, Nat.mod_self]
        rw [List.getD_append_right _ _ _ _ (by simp)]
        simp
    rw [e1, e2]
  · have hl : (p0 :: t).length = t.length + 1 := rfl
    simp only [List.map_cons, List.map_nil, hl, Nat.mod_self]
    rw [List.getD_append_right _ _ _ _ (by simp)]
    simp

theorem bounds_step_between (pf : Platform) (scale offset_y : F32) (acc : Int × Int)
    (p : Point) (v : Int) (h : acc.1 ≤ v ∧ v ≤ acc.2) :
    (bounds_step pf scale offset_y acc p).1 ≤ v ∧ v ≤ (bounds_step pf scale offset_y acc p).2 := by
  unfold bounds_step
  simp only
  constructor
  · split <;> omega
  · split <;> omega

theorem bounds_fold_between (pf : Platform) (scale offset_y : F32) (l : List Point)
    (acc : Int × Int) (v : Int) (h : acc.1 ≤ v ∧ v ≤ acc.2) :
    (l.foldl (bounds_step pf scale offset_y) acc).1 ≤ v ∧
      v ≤ (l.foldl (bounds_step pf scale offset_y) acc).2 := by
  induction l generalizing acc with
  | nil => exact h
  | cons p l ih => exact ih _ (bounds_step_between pf scale offset_y acc p v h)

theorem bounds_step_again (pf : Platform) (scale offset_y : F32) (acc : Int × Int) (p : Point)
    (h : acc.1 ≤ float_to_int pf (p.y * scale + offset_y) ∧
      float_to_int pf (p.y * scale + offset_y) ≤ acc.2) :
    bounds_step pf scale offset_y acc p = acc := by
  unfold bounds_step
  simp only
  rw [if_neg (by omega), if_neg (by omega)]

theorem bounds_closed (pf : Platform) (scale offset_y : F32) (p0 : Point) (t : List Point)
    (acc : Int × Int) :
    (p0 :: t ++ [p0]).foldl (bounds_step pf scale offset_y) acc =
      (p0 :: t).foldl (bounds_step pf scale offset_y) acc := by
  rw [List.foldl_append, List.foldl_cons, List.foldl_nil]
  apply bounds_step_again
  rw [List.foldl_cons]
  apply bounds_fold_between
  unfold bounds_step
  simp only
  constructor
  · split <;> omega
  · split <;> omega

/-- C19: for every platform, surface, layout and shape, repeating the first
point of one of the polygons at its end leaves the calls of `set_pixel` made by
`render_path_with_holes` what they were: the same pixels, written in the same
order with the same colour. -/
theorem render_path_with_holes_closed_polygon (pf : Platform) (fb : Framebuffer)
    (di : DisplayInfo) (before after : List Path) (p0 : Point) (t : List Point)
    (is_hole : Bool) (fill_color : Color) :
    render_path_with_holes pf fb ⟨before ++ ⟨p0 :: t ++ [p0], is_hole⟩ :: after, fill_color⟩ di =
      render_path_with_holes pf fb ⟨before ++ ⟨p0 :: t, is_hole⟩ :: after, fill_color⟩ di := by
  have hb : ∀ scale offset_y,
      screen_bounds pf fb ⟨before ++ ⟨p0 :: t ++ [p0], is_hole⟩ :: after, fill_color⟩ scale
          offset_y =
        screen_bounds pf fb ⟨before ++ ⟨p0 :: t, is_hole⟩ :: after, fill_color⟩ scale
          offset_y := by
    intro scale offset_y
    unfold screen_bounds
    rw [List.foldl_append, List.foldl_append, List.foldl_cons, List.foldl_cons]
    dsimp only
    rw [bounds_closed]
  have hr : ∀ scale offset_x offset_y y,
      row_intersections pf ⟨before ++ ⟨p0 :: t ++ [p0], is_hole⟩ :: after, fill_color⟩ scale
          offset_x offset_y y =
        row_intersections pf ⟨before ++ ⟨p0 :: t, is_hole⟩ :: after, fill_color⟩ scale
          offset_x offset_y y := by
    intro scale offset_x offset_y y
    unfold row_intersections
    rw [List.foldl_append, List.foldl_append, List.foldl_cons, List.foldl_cons]
    dsimp only
    rw [edges_closed, List.foldl_append, List.foldl_cons, List.foldl_nil, scan_edge_degenerate]
  unfold render_path_with_holes
  simp only [hb]
  unfold render_row
  simp only [hr]

/-! ## C20: the colour written -/

theorem pack_color_value (r g b a : Nat) (hr : r < 256) (hg : g < 256) (hb : b < 256) :
    pack_color ⟨r, g, b, a⟩ = r * 65536 + g * 256 + b := by
  unfold pack_color
  simp only [Nat.shiftLeft_eq]
  have h1 : r * 2 ^ 16 ||| g * 2 ^ 8 = r * 2 ^ 16 + g * 2 ^ 8 := by
    have := Nat.mul_add_lt_is_or (i := 16) (b := g * 2 ^ 8) (by omega) r
    rw [Nat.mul_comm (2 ^ 16) r] at this
    exact this.symm
  have h2 : (r * 2 ^ 16 + g * 2 ^ 8) ||| b = r * 2 ^ 16 + g * 2 ^ 8 + b := by
    have := Nat.mul_add_lt_is_or (i := 8) (b := b) (by omega) (r * 2 ^ 8 + g)
    have e : 2 ^ 8 * (r * 2 ^ 8 + g) = r * 2 ^ 16 + g * 2 ^ 8 := by ring
    rw [e] at this
    exact this.symm
  rw [h1, h2]
  omega

/-- C20: when the fill colour of the shape is `(r, g, b, a)`, channels below
256, every call of `set_pixel` made by `render_path_with_holes` passes the
colour `r * 65536 + g * 256 + b`; it is below `2 ^ 24`, `a` does not occur in
it, and its three bytes are `r`, `g` and `b`. -/
theorem render_path_with_holes_color (pf : Platform) (fb : Framebuffer) (paths : List Path)
    (di : DisplayInfo) (r g b a : Nat) (hr : r < 256) (hg : g < 256) (hb : b < 256) :
    ∀ w ∈ render_path_with_holes pf fb ⟨paths, ⟨r, g, b, a⟩⟩ di,
      w.color = r * 65536 + g * 256 + b ∧ w.color < 2 ^ 24 ∧
        w.color / 65536 = r ∧ w.color / 256 % 256 = g ∧ w.color % 256 = b := by
  intro w hw
  have h := (render_mem pf fb ⟨paths, ⟨r, g, b, a⟩⟩ di w hw).1
  rw [pack_color_value r g b a hr hg hb] at h
  rw [h]
  omega

theorem render_path_with_holes_color_witness :
    ((255 < 256 ∧ 85 < 256 ∧ 85 < 256) ∧
      (⟨5, 5, 16733525⟩ : PixelWrite) ∈
        render_path_with_holes stable_platform (blank_surface 20 20)
          ⟨[polygon [(0, 0), (10, 0), (10, 10), (0, 10)] false], ⟨255, 85, 85, 255⟩⟩ unit_layout) ∧
      ∀ w ∈ render_path_with_holes stable_platform (blank_surface 20 20)
          ⟨[polygon [(0, 0), (10, 0), (10, 10), (0, 10)] false], ⟨255, 85, 85, 255⟩⟩ unit_layout,
        w.color = 255 * 65536 + 85 * 256 + 85 ∧ w.color < 2 ^ 24 ∧
          w.color / 65536 = 255 ∧ w.color / 256 % 256 = 85 ∧ w.color % 256 = 85 :=
  ⟨⟨by decide, by decide⟩,
    render_path_with_holes_color stable_platform (blank_surface 20 20)
      [polygon [(0, 0), (10, 0), (10, 10), (0, 10)] false] unit_layout 255 85 85 255
      (by decide) (by decide) (by decide)⟩
/-! ## The bytes of a pixel -/

theorem store32_length (buffer : List Nat) (location value : Nat) :
    (store32 buffer location value).length = buffer.length := by
  simp [store32]

theorem store32_other (buffer : List Nat) (location value i : Nat)
    (h : i < location ∨ location + 4 ≤ i) :
    (store32 buffer location value)[i]? = buffer[i]? := by
  unfold store32
  rw [List.getElem?_set_ne (by omega), List.getElem?_set_ne (by omega),
    List.getElem?_set_ne (by omega), List.getElem?_set_ne (by omega)]

theorem load32_store32 (buffer : List Nat) (location value : Nat)
    (h : location + 4 ≤ buffer.length) :
    load32 (store32 buffer location value) location = value % 2 ^ 32 := by
  have g0 : (store32 buffer location value).getD location 0 = value % 256 := by
    unfold store32
    rw [List.getD_eq_getElem?_getD, List.getElem?_set_ne (by omega),
      List.getElem?_set_ne (by omega), List.getElem?_set_ne (by omega),
      List.getElem?_set_self (by omega)]
    rfl
  have g1 : (store32 buffer location value).getD (location + 1) 0 = value / 256 % 256 := by
    unfold store32
    rw [List.getD_eq_getElem?_getD, List.getElem?_set_ne (by omega),
      List.getElem?_set_ne (by omega), List.getElem?_set_self (by simp only [List.length_set]; omega)]
    rfl
  have g2 : (store32 buffer location value).getD (location + 2) 0 = value / 65536 % 256 := by
    unfold store32
    rw [List.getD_eq_getElem?_getD, List.getElem?_set_ne (by omega),
      List.getElem?_set_self (by simp only [List.length_set]; omega)]
    rfl
  have g3 : (store32 buffer location value).getD (location + 3) 0 =
      value / 16777216 % 256 := by
    unfold store32
    rw [List.getD_eq_getElem?_getD, List.getElem?_set_self (by simp only [List.length_set]; omega)]
    rfl
  unfold load32
  rw [g0, g1, g2, g3]
  omega

/-! ## Comparisons of floats -/

theorem roundRat_ne_nan (f : Fmt) (n : Int) (d : Nat) : roundRat f n d ≠ Fp.nan := by
  unfold roundRat mkFin
  simp only
  split_ifs <;> simp

theorem ofInt_ne_nan (n : Int) : F32.ofInt n ≠ Fp.nan := roundRat_ne_nan _ _ _

theorem lt_false_le (a b : Fp) (ha : a ≠ Fp.nan) (hb : b ≠ Fp.nan) (h : Fp.lt a b = false) :
    Fp.le b a = true := by
  cases a with
  | nan => exact absurd rfl ha
  | inf s =>
    cases b with
    | nan => exact absurd rfl hb
    | inf s2 =>
      simp only [Fp.lt, Fp.le] at h ⊢
      cases s <;> cases s2 <;> simp_all
    | fin m e =>
      simp only [Fp.lt, Fp.le] at h ⊢
      simp_all
  | fin m1 e1 =>
    cases b with
    | nan => exact absurd rfl hb
    | inf s2 =>
      simp only [Fp.lt, Fp.le] at h ⊢
      simp_all
    | fin m2 e2 =>
      simp only [Fp.lt, Fp.le, decide_eq_false_iff_not, decide_eq_true_eq,
        min_comm e2 e1] at h ⊢
      omega

theorem le_self (a : Fp) (ha : a ≠ Fp.nan) : Fp.le a a = true := by
  cases a with
  | nan => exact absurd rfl ha
  | inf s => cases s <;> rfl
  | fin m e => simp [Fp.le]

theorem lt_le (a b : Fp) (h : Fp.lt a b = true) : Fp.le a b = true := by
  cases a with
  | nan => simp [Fp.lt] at h
  | inf s =>
    cases b with
    | nan => simp [Fp.lt] at h
    | inf s2 =>
      simp only [Fp.lt, Fp.le] at h ⊢
      cases s <;> cases s2 <;> simp_all
    | fin m e => exact h
  | fin m1 e1 =>
    cases b with
    | nan => simp [Fp.lt] at h
    | inf s2 => exact h
    | fin m2 e2 =>
      simp only [Fp.lt, Fp.le, decide_eq_true_eq] at h ⊢
      omega

theorem div_base_ne_nan (a : Fp) (ha : a ≠ Fp.nan) (m e : Int) (hm : m ≠ 0) :
    Fp.div binary32 a (Fp.fin m e) ≠ Fp.nan := by
  cases a with
  | nan => exact absurd rfl ha
  | inf s => simp [Fp.div]
  | fin m1 e1 =>
    simp only [Fp.div, if_neg hm]
    split_ifs <;> exact roundRat_ne_nan _ _ _
/-! ## Parity of a count -/

theorem bodd_countP_cons {α : Type} (p : α → Bool) (a : α) (l : List α) :
    Nat.bodd ((a :: l).countP p) = xor (p a) (Nat.bodd (l.countP p)) := by
  rw [List.countP_cons, Nat.bodd_add]
  cases p a <;> cases Nat.bodd (l.countP p) <;> rfl

theorem bodd_countP_append {α : Type} (p : α → Bool) (l1 l2 : List α) :
    Nat.bodd ((l1 ++ l2).countP p) = xor (Nat.bodd (l1.countP p)) (Nat.bodd (l2.countP p)) := by
  rw [List.countP_append, Nat.bodd_add]

theorem bodd_false_iff (n : Nat) : Nat.bodd n = false ↔ n % 2 = 0 := by
  rw [Nat.mod_two_of_bodd]
  cases Nat.bodd n <;> simp

theorem chain_parity {α : Type} (c : α → Bool) (t : List α) : ∀ (p0 q : α),
    Nat.bodd ((List.zip (p0 :: t) (t ++ [q])).countP fun e => xor (c e.1) (c e.2)) =
      xor (c p0) (c q) := by
  induction t with
  | nil =>
    intro p0 q
    simp only [List.nil_append, List.zip_cons_cons, List.zip_nil_right, bodd_countP_cons,
      List.countP_nil, Nat.bodd_zero, Bool.xor_false]
  | cons p1 t ih =>
    intro p0 q
    rw [List.cons_append, List.zip_cons_cons, bodd_countP_cons, ih p1 q]
    cases c p0 <;> cases c p1 <;> cases c q <;> rfl
/-! ## C21: the screen is cleared once -/

theorem set_pixel_frame (fb fb1 : Framebuffer) (x y color : Nat)
    (h : set_pixel fb x y color = .ok fb1) :
    fb1.vinfo = fb.vinfo ∧ fb1.finfo = fb.finfo ∧ fb1.screensize = fb.screensize ∧
      fb1.buffer.length = fb.buffer.length := by
  unfold set_pixel at h
  split_ifs at h <;> first
    | (cases h; exact ⟨rfl, rfl, rfl, rfl⟩)
    | (simp only at h; split_ifs at h <;> first
        | (cases h; exact ⟨rfl, rfl, rfl, rfl⟩)
        | (cases h; exact ⟨rfl, rfl, rfl, store32_length _ _ _⟩))

theorem set_pixels_frame (ws : List PixelWrite) : ∀ (fb fb1 : Framebuffer),
    set_pixels fb ws = .ok fb1 →
    fb1.vinfo = fb.vinfo ∧ fb1.finfo = fb.finfo ∧ fb1.screensize = fb.screensize ∧
      fb1.buffer.length = fb.buffer.length := by
  induction ws with
  | nil =>
    intro fb fb1 h
    cases h
    exact ⟨rfl, rfl, rfl, rfl⟩
  | cons w ws ih =>
    intro fb fb1 h
    simp only [set_pixels] at h
    cases e : set_pixel fb (to_uint32 w.x) (to_uint32 w.y) w.color with
    | error f => rw [e] at h; cases h
    | ok fb2 =>
      rw [e] at h
      have h1 := set_pixel_frame fb fb2 _ _ _ e
      have h2 := ih fb2 fb1 h
      exact ⟨h2.1.trans h1.1, h2.2.1.trans h1.2.1, h2.2.2.1.trans h1.2.2.1,
        h2.2.2.2.trans h1.2.2.2⟩

theorem set_pixels_append (a b : List PixelWrite) : ∀ fb : Framebuffer,
    set_pixels fb (a ++ b) =
      match set_pixels fb a with
      | .ok fb1 => set_pixels fb1 b
      | .error f => .error f := by
  induction a with
  | nil => intro fb; rfl
  | cons w a ih =>
    intro fb
    simp only [List.cons_append, set_pixels]
    cases e : set_pixel fb (to_uint32 w.x) (to_uint32 w.y) w.color with
    | error f => rfl
    | ok fb2 => exact ih fb2

theorem fill_loop_vinfo (fb fb1 : Framebuffer) (h : fb1.vinfo = fb.vinfo) (y : Int)
    (color : Nat) (l : List Intersection) : ∀ (m k : Bool),
    fill_loop fb1 y color l m k = fill_loop fb y color l m k := by
  induction l with
  | nil => intro m k; rfl
  | cons a l ih =>
    intro m k
    cases l with
    | nil => rfl
    | cons b rest =>
      simp only [fill_loop, h]
      rw [ih]

theorem render_path_with_holes_vinfo (pf : Platform) (fb fb1 : Framebuffer)
    (h : fb1.vinfo = fb.vinfo) (svg : SVGPath) (di : DisplayInfo) :
    render_path_with_holes pf fb1 svg di = render_path_with_holes pf fb svg di := by
  have e : ∀ (s ox oy : F32), render_row pf fb1 svg s ox oy = render_row pf fb svg s ox oy := by
    intro s ox oy
    funext y
    simp only [render_row, fill_loop_vinfo fb fb1 h]
  simp only [render_path_with_holes, screen_bounds, h, e]

theorem render_svg_paths_flag_off (pf : Platform) (fb : Framebuffer)
    (cs : List (SVGPath × DisplayInfo)) : ∀ fb0 : Framebuffer, fb0.vinfo = fb.vinfo →
    render_svg_paths pf false fb0 cs =
      (set_pixels fb0 (cs.flatMap fun s => render_path_with_holes pf fb s.1 s.2)).map
        (Prod.mk false) := by
  induction cs with
  | nil => intro fb0 _; rfl
  | cons c cs ih =>
    intro fb0 h0
    simp only [render_svg_paths, render_svg_path, List.flatMap_cons, set_pixels_append,
      Bool.false_eq_true, if_false, render_path_with_holes_vinfo pf fb fb0 h0]
    cases e : set_pixels fb0 (render_path_with_holes pf fb c.1 c.2) with
    | error f => rfl
    | ok fb2 =>
      simp only
      exact ih fb2 ((set_pixels_frame _ fb0 fb2 e).1.trans h0)

theorem render_svg_paths_flag_on (pf : Platform) (fb : Framebuffer) (c : SVGPath × DisplayInfo)
    (cs : List (SVGPath × DisplayInfo)) :
    render_svg_paths pf true fb (c :: cs) =
      (set_pixels fb (clear_screen fb ++
        (c :: cs).flatMap fun s => render_path_with_holes pf fb s.1 s.2)).map
          (Prod.mk false) := by
  simp only [render_svg_paths, render_svg_path, List.flatMap_cons, set_pixels_append, if_true]
  cases e : set_pixels fb (clear_screen fb) with
  | error f => rfl
  | ok fb1 =>
    simp only
    have h1 := (set_pixels_frame _ fb fb1 e).1
    rw [render_path_with_holes_vinfo pf fb fb1 h1]
    cases e2 : set_pixels fb1 (render_path_with_holes pf fb c.1 c.2) with
    | error f => rfl
    | ok fb2 =>
      simp only
      exact render_svg_paths_flag_off pf fb cs fb2 ((set_pixels_frame _ fb1 fb2 e2).1.trans h1)

theorem pixel_location_frame (fb fb1 : Framebuffer) (hv : fb1.vinfo = fb.vinfo)
    (hf : fb1.finfo = fb.finfo) (x y : Nat) : pixel_location fb1 x y = pixel_location fb x y := by
  simp only [pixel_location, hv, hf]

theorem regular_frame (fb fb1 : Framebuffer) (hr : fb.regular)
    (h : fb1.vinfo = fb.vinfo ∧ fb1.finfo = fb.finfo ∧ fb1.screensize = fb.screensize ∧
      fb1.buffer.length = fb.buffer.length) : fb1.regular := by
  obtain ⟨hv, hf, hs, hl⟩ := h
  obtain ⟨h1, h2, h3, h4⟩ := hr
  refine ⟨by rw [hv]; exact h1, by rw [hv, hf]; exact h2, by rw [hv, hf]; exact h3, ?_⟩
  intro x hx y hy hlt
  rw [hv] at hx hy
  rw [pixel_location_frame fb fb1 hv hf, hs] at hlt
  rw [pixel_location_frame fb fb1 hv hf, hl]
  exact h4 x hx y hy hlt

theorem pixel_location_regular (fb : Framebuffer) (hr : fb.regular) (x y : Nat)
    (hx : x < fb.vinfo.xres) (hy : y < fb.vinfo.yres) :
    pixel_location fb x y =
      4 * (x + fb.vinfo.xoffset) + (y + fb.vinfo.yoffset) * fb.finfo.line_length := by
  obtain ⟨h1, h2, h3, _⟩ := hr
  have hm : (y + fb.vinfo.yoffset) * fb.finfo.line_length ≤
      (fb.vinfo.yres + fb.vinfo.yoffset) * fb.finfo.line_length :=
    Nat.mul_le_mul_right _ (by omega)
  have hl : (y + fb.vinfo.yoffset) * 4 ≤ (y + fb.vinfo.yoffset) * fb.finfo.line_length :=
    Nat.mul_le_mul_left _ (by omega)
  unfold pixel_location
  rw [h1]
  have e8 : 32 / 8 = 4 := rfl
  rw [e8, Nat.mod_eq_of_lt (by omega : x + fb.vinfo.xoffset < 2 ^ 32),
    Nat.mod_eq_of_lt (by omega : (x + fb.vinfo.xoffset) * 4 < 2 ^ 32),
    Nat.mod_eq_of_lt (by omega : y + fb.vinfo.yoffset < 2 ^ 32)]
  generalize (y + fb.vinfo.yoffset) * fb.finfo.line_length = P at hm hl ⊢
  generalize (fb.vinfo.yres + fb.vinfo.yoffset) * fb.finfo.line_length = Q at hm h3
  rw [Nat.mod_eq_of_lt (by omega : P < 2 ^ 32), Nat.mod_eq_of_lt (by omega)]
  omega

theorem pixels_apart (fb : Framebuffer) (hr : fb.regular) (x y x1 y1 : Nat)
    (hx : x < fb.vinfo.xres) (hy : y < fb.vinfo.yres)
    (hx1 : x1 < fb.vinfo.xres) (hy1 : y1 < fb.vinfo.yres) (hne : ¬(x1 = x ∧ y1 = y)) :
    pixel_location fb x y + 4 ≤ pixel_location fb x1 y1 ∨
      pixel_location fb x1 y1 + 4 ≤ pixel_location fb x y := by
  rw [pixel_location_regular fb hr x y hx hy, pixel_location_regular fb hr x1 y1 hx1 hy1]
  obtain ⟨_, h2, _, _⟩ := hr
  rcases Nat.lt_trichotomy y y1 with h | h | h
  · have hm : (y + fb.vinfo.yoffset + 1) * fb.finfo.line_length ≤
        (y1 + fb.vinfo.yoffset) * fb.finfo.line_length := Nat.mul_le_mul_right _ (by omega)
    rw [Nat.succ_mul] at hm
    generalize (y + fb.vinfo.yoffset) * fb.finfo.line_length = P at hm ⊢
    generalize (y1 + fb.vinfo.yoffset) * fb.finfo.line_length = Q at hm ⊢
    omega
  · subst h
    have hxx : x1 ≠ x := fun e => hne ⟨e, rfl⟩
    generalize (y + fb.vinfo.yoffset) * fb.finfo.line_length = P
    omega
  · have hm : (y1 + fb.vinfo.yoffset + 1) * fb.finfo.line_length ≤
        (y + fb.vinfo.yoffset) * fb.finfo.line_length := Nat.mul_le_mul_right _ (by omega)
    rw [Nat.succ_mul] at hm
    generalize (y + fb.vinfo.yoffset) * fb.finfo.line_length = P at hm ⊢
    generalize (y1 + fb.vinfo.yoffset) * fb.finfo.line_length = Q at hm ⊢
    omega

theorem load32_store32_apart (buffer : List Nat) (l l1 value : Nat)
    (h : l + 4 ≤ l1 ∨ l1 + 4 ≤ l) : load32 (store32 buffer l1 value) l = load32 buffer l := by
  unfold load32
  simp only [List.getD_eq_getElem?_getD]
  rw [store32_other buffer l1 value l (by omega), store32_other buffer l1 value (l + 1) (by omega),
    store32_other buffer l1 value (l + 2) (by omega),
    store32_other buffer l1 value (l + 3) (by omega)]

theorem set_pixel_elsewhere (fb : Framebuffer) (hr : fb.regular) (x y : Nat)
    (hx : x < fb.vinfo.xres) (hy : y < fb.vinfo.yres) (x1 y1 color : Nat)
    (hne : ¬(x1 = x ∧ y1 = y)) :
    ∃ fb1 : Framebuffer, set_pixel fb x1 y1 color = .ok fb1 ∧
      pixel_at fb1 x y = pixel_at fb x y := by
  unfold set_pixel
  by_cases h1 : fb.vinfo.xres ≤ x1 ∨ fb.vinfo.yres ≤ y1
  · rw [if_pos h1]
    exact ⟨fb, rfl, rfl⟩
  · rw [if_neg h1]
    simp only
    by_cases h2 : fb.screensize ≤ pixel_location fb x1 y1
    · rw [if_pos h2]
      exact ⟨fb, rfl, rfl⟩
    · rw [if_neg h2, if_pos hr.1, if_pos (hr.2.2.2 x1 (by omega) y1 (by omega) (by omega))]
      refine ⟨_, rfl, ?_⟩
      exact load32_store32_apart _ _ _ _
        (pixels_apart fb hr x y x1 y1 hx hy (by omega) (by omega) hne)

theorem set_pixels_elsewhere (x y : Nat) (ws : List PixelWrite) : ∀ fb : Framebuffer,
    fb.regular → x < fb.vinfo.xres → y < fb.vinfo.yres →
    (∀ w ∈ ws, ¬(to_uint32 w.x = x ∧ to_uint32 w.y = y)) →
    ∃ fb1 : Framebuffer, set_pixels fb ws = .ok fb1 ∧ pixel_at fb1 x y = pixel_at fb x y := by
  induction ws with
  | nil => intro fb _ _ _ _; exact ⟨fb, rfl, rfl⟩
  | cons w ws ih =>
    intro fb hr hx hy hw
    obtain ⟨fb1, e1, p1⟩ := set_pixel_elsewhere fb hr x y hx hy (to_uint32 w.x) (to_uint32 w.y)
      w.color (hw w (List.mem_cons_self _ _))
    have hf := set_pixel_frame fb fb1 _ _ _ e1
    obtain ⟨fb2, e2, p2⟩ := ih fb1 (regular_frame fb fb1 hr hf) (by rw [hf.1]; exact hx)
      (by rw [hf.1]; exact hy) (fun v hv => hw v (List.mem_cons_of_mem _ hv))
    refine ⟨fb2, ?_, p2.trans p1⟩
    simp only [set_pixels, e1]
    exact e2

theorem render_svg_paths_append (pf : Platform) (a b : List (SVGPath × DisplayInfo)) :
    ∀ (first_path : Bool) (fb : Framebuffer),
    render_svg_paths pf first_path fb (a ++ b) =
      match render_svg_paths pf first_path fb a with
      | .ok s => render_svg_paths pf s.1 s.2 b
      | .error f => .error f := by
  induction a with
  | nil => intro first_path fb; rfl
  | cons c a ih =>
    intro first_path fb
    simp only [List.cons_append, render_svg_paths]
    cases e : render_svg_path pf first_path fb c.1 c.2 with
    | error f => rfl
    | ok s => exact ih s.1 s.2

theorem render_svg_paths_elsewhere (pf : Platform) (fb : Framebuffer) (hr : fb.regular)
    (cs : List (SVGPath × DisplayInfo)) (x y : Nat)
    (hx : x < fb.vinfo.xres) (hy : y < fb.vinfo.yres)
    (hw : ∀ s ∈ cs, ∀ w ∈ render_path_with_holes pf fb s.1 s.2,
      ¬(w.x = (x : Int) ∧ w.y = (y : Int))) :
    ∃ fb1 : Framebuffer, render_svg_paths pf false fb cs = .ok (false, fb1) ∧
      pixel_at fb1 x y = pixel_at fb x y := by
  have hw2 : ∀ w ∈ cs.flatMap (fun s => render_path_with_holes pf fb s.1 s.2),
      ¬(to_uint32 w.x = x ∧ to_uint32 w.y = y) := by
    intro w hm
    rw [List.mem_flatMap] at hm
    obtain ⟨s, hs, hm⟩ := hm
    have hb := (render_mem pf fb s.1 s.2 w hm).2
    have hn := hw s hs w hm
    have h3 := hr.2.2.1
    have hl : (fb.vinfo.yres + fb.vinfo.yoffset) * 4 ≤
        (fb.vinfo.yres + fb.vinfo.yoffset) * fb.finfo.line_length :=
      Nat.mul_le_mul_left _ (by have := hr.2.1; omega)
    generalize (fb.vinfo.yres + fb.vinfo.yoffset) * fb.finfo.line_length = Q at h3 hl
    unfold to_uint32
    intro hc
    apply hn
    omega
  obtain ⟨fb1, e1, p1⟩ := set_pixels_elsewhere x y _ fb hr hx hy hw2
  refine ⟨fb1, ?_, p1⟩
  rw [render_svg_paths_flag_off pf fb cs fb rfl, e1]
  rfl

theorem mem_clear_screen (fb : Framebuffer) (w : PixelWrite) :
    w ∈ clear_screen fb ↔
      w.color = 0 ∧ 0 ≤ w.x ∧ w.x < (fb.vinfo.xres : Int) ∧ 0 ≤ w.y ∧
        w.y < (fb.vinfo.yres : Int) := by
  unfold clear_screen
  simp only [List.mem_flatMap, List.mem_map, List.mem_range]
  constructor
  · rintro ⟨y, hy, x, hx, rfl⟩
    exact ⟨rfl, Int.natCast_nonneg x, Int.ofNat_lt.2 hx, Int.natCast_nonneg y, Int.ofNat_lt.2 hy⟩
  · rintro ⟨h1, h2, h3, h4, h5⟩
    refine ⟨w.y.toNat, by omega, w.x.toNat, by omega, ?_⟩
    cases w
    simp only at h1 h2 h3 h4 h5
    simp only [PixelWrite.mk.injEq]
    omega

theorem to_uint32_nat (n : Nat) (h : (n : Int) < 2 ^ 32) : to_uint32 (n : Int) = n := by
  unfold to_uint32
  rw [Int.emod_eq_of_lt (Int.natCast_nonneg n) h]
  exact Int.toNat_natCast n

theorem regular_small (fb : Framebuffer) (hr : fb.regular) :
    (fb.vinfo.xres : Int) < 2 ^ 32 ∧ (fb.vinfo.yres : Int) * 4 ≤ 2 ^ 32 ∨ fb.vinfo.xres = 0 := by
  obtain ⟨_, h2, h3, _⟩ := hr
  by_cases h0 : fb.vinfo.xres = 0
  · exact Or.inr h0
  · left
    have hl : (fb.vinfo.yres + fb.vinfo.yoffset) * 4 ≤
        (fb.vinfo.yres + fb.vinfo.yoffset) * fb.finfo.line_length :=
      Nat.mul_le_mul_left _ (by omega)
    generalize (fb.vinfo.yres + fb.vinfo.yoffset) * fb.finfo.line_length = Q at h3 hl
    omega

theorem set_pixel_here (fb : Framebuffer) (hr : fb.regular) (x y color : Nat)
    (hx : x < fb.vinfo.xres) (hy : y < fb.vinfo.yres)
    (hl : pixel_location fb x y < fb.screensize) :
    ∃ fb1 : Framebuffer, set_pixel fb x y color = .ok fb1 ∧
      pixel_at fb1 x y = color % 2 ^ 32 := by
  have hm := hr.2.2.2 x hx y hy hl
  unfold set_pixel
  rw [if_neg (by omega)]
  simp only
  rw [if_neg (by omega), if_pos hr.1, if_pos hm]
  exact ⟨_, rfl, load32_store32 _ _ _ hm⟩

theorem set_pixels_settle (x y v : Nat) (ws : List PixelWrite) : ∀ fb : Framebuffer,
    fb.regular → x < fb.vinfo.xres → y < fb.vinfo.yres →
    pixel_location fb x y < fb.screensize →
    (∀ w ∈ ws, to_uint32 w.x = x ∧ to_uint32 w.y = y → w.color % 2 ^ 32 = v) →
    ∃ fb1 : Framebuffer, set_pixels fb ws = .ok fb1 ∧
      ((∃ w ∈ ws, to_uint32 w.x = x ∧ to_uint32 w.y = y) ∨ pixel_at fb x y = v →
        pixel_at fb1 x y = v) := by
  induction ws with
  | nil =>
    intro fb _ _ _ _ _
    refine ⟨fb, rfl, ?_⟩
    rintro (⟨w, hw, _⟩ | h)
    · cases hw
    · exact h
  | cons w ws ih =>
    intro fb hr hx hy hl hc
    by_cases hat : to_uint32 w.x = x ∧ to_uint32 w.y = y
    · obtain ⟨fb1, e1, p1⟩ := set_pixel_here fb hr x y w.color hx hy hl
      rw [← hat.1, ← hat.2] at e1
      have hf := set_pixel_frame fb fb1 _ _ _ e1
      obtain ⟨fb2, e2, p2⟩ := ih fb1 (regular_frame fb fb1 hr hf) (by rw [hf.1]; exact hx)
        (by rw [hf.1]; exact hy)
        (by rw [pixel_location_frame fb fb1 hf.1 hf.2.1, hf.2.2.1]; exact hl)
        (fun u hu => hc u (List.mem_cons_of_mem _ hu))
      refine ⟨fb2, ?_, fun _ => p2 (Or.inr ?_)⟩
      · simp only [set_pixels, e1]
        exact e2
      · rw [p1]
        exact hc w (List.mem_cons_self _ _) hat
    · obtain ⟨fb1, e1, p1⟩ := set_pixel_elsewhere fb hr x y hx hy (to_uint32 w.x)
        (to_uint32 w.y) w.color hat
      have hf := set_pixel_frame fb fb1 _ _ _ e1
      obtain ⟨fb2, e2, p2⟩ := ih fb1 (regular_frame fb fb1 hr hf) (by rw [hf.1]; exact hx)
        (by rw [hf.1]; exact hy)
        (by rw [pixel_location_frame fb fb1 hf.1 hf.2.1, hf.2.2.1]; exact hl)
        (fun u hu => hc u (List.mem_cons_of_mem _ hu))
      refine ⟨fb2, ?_, ?_⟩
      · simp only [set_pixels, e1]
        exact e2
      · rintro (⟨u, hu, hu2⟩ | h)
        · rcases List.mem_cons.1 hu with rfl | hu3
          · exact absurd hu2 hat
          · exact p2 (Or.inl ⟨u, hu3, hu2⟩)
        · exact p2 (Or.inr (p1.trans h))

theorem shape_write_at (pf : Platform) (fb : Framebuffer) (hr : fb.regular)
    (svg : SVGPath) (di : DisplayInfo) (x y : Nat) (w : PixelWrite)
    (hm : w ∈ render_path_with_holes pf fb svg di)
    (hat : to_uint32 w.x = x ∧ to_uint32 w.y = y) : w.x = (x : Int) ∧ w.y = (y : Int) := by
  have hb := (render_mem pf fb svg di w hm).2
  have hs := regular_small fb hr
  unfold to_uint32 at hat
  omega

theorem render_svg_paths_cleared (pf : Platform) (fb : Framebuffer) (hr : fb.regular)
    (c : SVGPath × DisplayInfo) (cs : List (SVGPath × DisplayInfo)) (x y : Nat)
    (hx : x < fb.vinfo.xres) (hy : y < fb.vinfo.yres)
    (hl : pixel_location fb x y < fb.screensize)
    (hw : ∀ s ∈ c :: cs, ∀ w ∈ render_path_with_holes pf fb s.1 s.2,
      ¬(w.x = (x : Int) ∧ w.y = (y : Int))) :
    ∃ fb1 : Framebuffer, render_svg_paths pf true fb (c :: cs) = .ok (false, fb1) ∧
      pixel_at fb1 x y = 0 := by
  have hs := regular_small fb hr
  have hc : ∀ w ∈ clear_screen fb ++
      (c :: cs).flatMap (fun s => render_path_with_holes pf fb s.1 s.2),
      to_uint32 w.x = x ∧ to_uint32 w.y = y → w.color % 2 ^ 32 = 0 := by
    intro w hm hat
    rcases List.mem_append.1 hm with h | h
    · rw [((mem_clear_screen fb w).1 h).1]
      rfl
    · rw [List.mem_flatMap] at h
      obtain ⟨s, hs1, hs2⟩ := h
      exact absurd (shape_write_at pf fb hr s.1 s.2 x y w hs2 hat) (hw s hs1 w hs2)
  obtain ⟨fb1, e1, p1⟩ := set_pixels_settle x y 0 _ fb hr hx hy hl hc
  refine ⟨fb1, ?_, p1 (Or.inl ⟨⟨(x : Int), (y : Int), 0⟩, ?_, ?_⟩)⟩
  · rw [render_svg_paths_flag_on, e1]
    rfl
  · apply List.mem_append_left
    rw [mem_clear_screen]
    exact ⟨rfl, Int.natCast_nonneg x, Int.ofNat_lt.2 hx, Int.natCast_nonneg y, Int.ofNat_lt.2 hy⟩
  · exact ⟨to_uint32_nat x (by omega), to_uint32_nat y (by omega)⟩

/-- C21: the loop that clears the screen calls `set_pixel` with the colour 0 for
every pixel of the surface and for nothing else.  In a run of calls of
`render_svg_path` on one frame buffer that starts with the static flag set, the
calls of `set_pixel` are those of that loop, once, followed by those of the
shapes in order; once the flag is cleared, they are those of the shapes only.
On a surface that is a grid of separate 32-bit pixels, after a run that starts
with the flag set a pixel that no shape writes holds 0, whatever it held
before; and a pixel has after the calls for later shapes the value it had after
the calls for the earlier shapes, when none of the later shapes writes it. -/
theorem render_svg_path_clears_once (pf : Platform) (fb : Framebuffer) :
    (∀ w : PixelWrite, w ∈ clear_screen fb ↔
        w.color = 0 ∧ 0 ≤ w.x ∧ w.x < (fb.vinfo.xres : Int) ∧ 0 ≤ w.y ∧
          w.y < (fb.vinfo.yres : Int)) ∧
      (∀ (c : SVGPath × DisplayInfo) (cs : List (SVGPath × DisplayInfo)),
        render_svg_paths pf true fb (c :: cs) =
          (set_pixels fb (clear_screen fb ++
            (c :: cs).flatMap fun s => render_path_with_holes pf fb s.1 s.2)).map
              (Prod.mk false)) ∧
      (∀ cs : List (SVGPath × DisplayInfo),
        render_svg_paths pf false fb cs =
          (set_pixels fb (cs.flatMap fun s => render_path_with_holes pf fb s.1 s.2)).map
            (Prod.mk false)) ∧
      (fb.regular →
        ∀ (c : SVGPath × DisplayInfo) (cs : List (SVGPath × DisplayInfo)) (x y : Nat),
          x < fb.vinfo.xres → y < fb.vinfo.yres → pixel_location fb x y < fb.screensize →
          (∀ s ∈ c :: cs, ∀ w ∈ render_path_with_holes pf fb s.1 s.2,
            ¬(w.x = (x : Int) ∧ w.y = (y : Int))) →
          ∃ fb1 : Framebuffer,
            render_svg_paths pf true fb (c :: cs) = .ok (false, fb1) ∧ pixel_at fb1 x y = 0) ∧
      (fb.regular →
        ∀ (c : SVGPath × DisplayInfo) (earlier later : List (SVGPath × DisplayInfo))
          (first_path : Bool) (fb1 : Framebuffer) (x y : Nat),
          render_svg_paths pf true fb (c :: earlier) = .ok (first_path, fb1) →
          x < fb.vinfo.xres → y < fb.vinfo.yres →
          (∀ s ∈ later, ∀ w ∈ render_path_with_holes pf fb s.1 s.2,
            ¬(w.x = (x : Int) ∧ w.y = (y : Int))) →
          ∃ fb2 : Framebuffer,
            render_svg_paths pf true fb ((c :: earlier) ++ later) = .ok (false, fb2) ∧
              pixel_at fb2 x y = pixel_at fb1 x y) := by
  refine ⟨mem_clear_screen fb, render_svg_paths_flag_on pf fb,
    fun cs => render_svg_paths_flag_off pf fb cs fb rfl,
    fun hr c cs x y hx hy hl hw => render_svg_paths_cleared pf fb hr c cs x y hx hy hl hw, ?_⟩
  intro hr c earlier later first_path fb1 x y he hx hy hw
  have he2 := he
  rw [render_svg_paths_flag_on] at he2
  cases e : set_pixels fb (clear_screen fb ++
      (c :: earlier).flatMap fun s => render_path_with_holes pf fb s.1 s.2) with
  | error f => rw [e] at he2; cases he2
  | ok fb0 =>
    rw [e] at he2
    cases he2
    have hf := set_pixels_frame _ fb fb1 e
    have hw0 : ∀ s ∈ later, ∀ w ∈ render_path_with_holes pf fb1 s.1 s.2,
        ¬(w.x = (x : Int) ∧ w.y = (y : Int)) := by
      intro s hs w hm
      rw [render_path_with_holes_vinfo pf fb fb1 hf.1] at hm
      exact hw s hs w hm
    obtain ⟨fb2, e2, p2⟩ := render_svg_paths_elsewhere pf fb1 (regular_frame fb fb1 hr hf) later
      x y (by rw [hf.1]; exact hx) (by rw [hf.1]; exact hy) hw0
    refine ⟨fb2, ?_, p2⟩
    rw [render_svg_paths_append, he]
    exact e2

theorem render_svg_path_clears_once_witness :
    pixel_at ⟨List.replicate 64 255, ⟨4, 4, 0, 0, 32⟩, ⟨16⟩, 64⟩ 3 3 = 4294967295 ∧
      (∃ fb1 : Framebuffer,
        render_svg_paths stable_platform true
            ⟨List.replicate 64 255, ⟨4, 4, 0, 0, 32⟩, ⟨16⟩, 64⟩
            [(⟨[polygon [(0, 0), (2, 0), (2, 2), (0, 2)] false], ⟨255, 85, 85, 255⟩⟩,
              unit_layout)] = .ok (false, fb1) ∧
          pixel_at fb1 3 3 = 0) ∧
      ∃ fb1 fb2 : Framebuffer,
        render_svg_paths stable_platform true
            ⟨List.replicate 64 255, ⟨4, 4, 0, 0, 32⟩, ⟨16⟩, 64⟩
            [(⟨[polygon [(0, 0), (2, 0), (2, 2), (0, 2)] false], ⟨255, 85, 85, 255⟩⟩,
              unit_layout)] = .ok (false, fb1) ∧
          render_svg_paths stable_platform true
            ⟨List.replicate 64 255, ⟨4, 4, 0, 0, 32⟩, ⟨16⟩, 64⟩
            ([(⟨[polygon [(0, 0), (2, 0), (2, 2), (0, 2)] false], ⟨255, 85, 85, 255⟩⟩,
                unit_layout)] ++
              [(⟨[polygon [(1, 2), (3, 2), (3, 3), (1, 3)] false], ⟨85, 85, 85, 255⟩⟩,
                unit_layout)]) = .ok (false, fb2) ∧
          pixel_at fb1 1 1 = 16733525 ∧ pixel_at fb2 1 1 = pixel_at fb1 1 1 :=
  have h1 : render_svg_paths stable_platform true
      ⟨List.replicate 64 255, ⟨4, 4, 0, 0, 32⟩, ⟨16⟩, 64⟩
      [(⟨[polygon [(0, 0), (2, 0), (2, 2), (0, 2)] false], ⟨255, 85, 85, 255⟩⟩, unit_layout)] =
      .ok (false, ⟨[85, 85, 255, 0, 85, 85, 255, 0, 85, 85, 255, 0, 0, 0, 0, 0,
        85, 85, 255, 0, 85, 85, 255, 0, 85, 85, 255, 0, 0, 0, 0, 0,
        0, 0, 0, 0, 0, 0, 0, 0, 0, 0, 0, 0, 0, 0, 0, 0,
        0, 0, 0, 0, 0, 0, 0, 0, 0, 0, 0, 0, 0, 0, 0, 0], ⟨4, 4, 0, 0, 32⟩, ⟨16⟩, 64⟩) := by
    decide
  have h := render_svg_path_clears_once stable_platform
    ⟨List.replicate 64 255, ⟨4, 4, 0, 0, 32⟩, ⟨16⟩, 64⟩
  ⟨by decide,
    h.2.2.2.1 ⟨rfl, by decide, by decide, by decide⟩
      (⟨[polygon [(0, 0), (2, 0), (2, 2), (0, 2)] false], ⟨255, 85, 85, 255⟩⟩, unit_layout) []
      3 3 (by decide) (by decide) (by decide) (by decide),
    match h.2.2.2.2 ⟨rfl, by decide, by decide, by decide⟩
        (⟨[polygon [(0, 0), (2, 0), (2, 2), (0, 2)] false], ⟨255, 85, 85, 255⟩⟩, unit_layout) []
        [(⟨[polygon [(1, 2), (3, 2), (3, 3), (1, 3)] false], ⟨85, 85, 85, 255⟩⟩, unit_layout)]
        false _ 1 1 h1 (by decide) (by decide) (by decide) with
    | ⟨fb2, h2, h3⟩ => ⟨_, fb2, h1, h2, by decide, h3⟩⟩

/-! ## C22: the effect of `set_pixel` -/

/-- C22, as stated, fails for pixels inside the surface.  On a surface of 16
bits per pixel nothing is stored: the call for the pixel `(0, 0)` leaves the
buffer unchanged.  On a surface of 32 bits per pixel, 2 columns and 2 rows,
whose rows are 16 bytes apart and of which `2 * 2 * 4 = 16` bytes are mapped,
the pixel `(0, 1)` is at offset 16 and the call leaves the buffer unchanged. -/
theorem set_pixel_leaves_pixel :
    set_pixel ⟨List.replicate 8 0, ⟨2, 2, 0, 0, 16⟩, ⟨4⟩, 8⟩ 0 0 16777215 =
        .ok ⟨List.replicate 8 0, ⟨2, 2, 0, 0, 16⟩, ⟨4⟩, 8⟩ ∧
      set_pixel ⟨List.replicate 16 0, ⟨2, 2, 0, 0, 32⟩, ⟨16⟩, 16⟩ 0 1 16777215 =
        .ok ⟨List.replicate 16 0, ⟨2, 2, 0, 0, 32⟩, ⟨16⟩, 16⟩ := by
  decide

/-- C22, amended: `set_pixel` leaves the frame buffer unchanged when
`x >= xres` or `y >= yres`, when the byte offset of the pixel is not below
`screensize`, and when the depth is not 32 bits per pixel; otherwise, the four
bytes at the offset being mapped, it stores `color` there, whatever they held,
and changes no other byte. -/
theorem set_pixel_effect (fb : Framebuffer) (x y color : Nat) :
    ((fb.vinfo.xres ≤ x ∨ fb.vinfo.yres ≤ y ∨ fb.screensize ≤ pixel_location fb x y ∨
        fb.vinfo.bits_per_pixel ≠ 32) → set_pixel fb x y color = .ok fb) ∧
      (x < fb.vinfo.xres → y < fb.vinfo.yres → pixel_location fb x y < fb.screensize →
        fb.vinfo.bits_per_pixel = 32 → pixel_location fb x y + 4 ≤ fb.buffer.length →
        ∃ fb1 : Framebuffer, set_pixel fb x y color = .ok fb1 ∧
          fb1.vinfo = fb.vinfo ∧ fb1.finfo = fb.finfo ∧ fb1.screensize = fb.screensize ∧
          fb1.buffer.length = fb.buffer.length ∧ pixel_at fb1 x y = color % 2 ^ 32 ∧
          ∀ i : Nat, i < pixel_location fb x y ∨ pixel_location fb x y + 4 ≤ i →
            fb1.buffer[i]? = fb.buffer[i]?) := by
  constructor
  · intro h
    unfold set_pixel
    by_cases h1 : fb.vinfo.xres ≤ x ∨ fb.vinfo.yres ≤ y
    · rw [if_pos h1]
    · rw [if_neg h1]
      simp only
      by_cases h2 : fb.screensize ≤ pixel_location fb x y
      · rw [if_pos h2]
      · rw [if_neg h2]
        have h3 : fb.vinfo.bits_per_pixel ≠ 32 := by
          rcases h with h | h | h | h
          · exact absurd (Or.inl h) h1
          · exact absurd (Or.inr h) h1
          · exact absurd h h2
          · exact h
        rw [if_neg h3]
  · intro h1 h2 h3 h4 h5
    refine ⟨{ fb with buffer := store32 fb.buffer (pixel_location fb x y) color }, ?_, rfl, rfl,
      rfl, store32_length _ _ _, ?_, ?_⟩
    · unfold set_pixel
      rw [if_neg (by omega)]
      simp only
      rw [if_neg (by omega), if_pos h4, if_pos h5]
    · exact load32_store32 _ _ _ h5
    · intro i hi
      exact store32_other _ _ _ _ hi

theorem set_pixel_effect_witness :
    set_pixel (blank_surface 4 4) 4 2 16733525 = .ok (blank_surface 4 4) ∧
      ∃ fb1 : Framebuffer, set_pixel (blank_surface 4 4) 1 2 16733525 = .ok fb1 ∧
        pixel_at fb1 1 2 = 16733525 :=
  ⟨(set_pixel_effect (blank_surface 4 4) 4 2 16733525).1 (Or.inl (by decide)),
    match (set_pixel_effect (blank_surface 4 4) 1 2 16733525).2 (by decide) (by decide)
        (by decide) (by decide) (by decide) with
    | ⟨fb1, h1, _, _, _, _, h2, _⟩ => ⟨fb1, h1, h2⟩⟩

/-! ## C23: the rotation is normalised to a quarter turn -/

theorem tmod_360_range (v : Int) : -360 < Int.tmod v 360 ∧ Int.tmod v 360 < 360 := by
  rcases le_or_lt 0 v with h | h
  · rw [Int.tmod_eq_emod h (by decide)]
    omega
  · obtain ⟨m, rfl⟩ := Int.eq_negSucc_of_lt_zero h
    have e : Int.tmod (Int.negSucc m) 360 = -(((m + 1) % 360 : Nat) : Int) := rfl
    rw [e]
    omega

theorem normalize_rotation_range (v : Int) :
    normalize_rotation v = 0 ∨ normalize_rotation v = 90 ∨ normalize_rotation v = 180 ∨
      normalize_rotation v = 270 := by
  unfold normalize_rotation
  obtain ⟨h1, h2⟩ := tmod_360_range v
  simp only
  generalize Int.tmod v 360 = r at h1 h2
  have h3 : 0 ≤ (if r < 0 then r + 360 else r) ∧ (if r < 0 then r + 360 else r) < 360 := by
    split <;> omega
  generalize (if r < 0 then r + 360 else r) = s at h3
  rw [Int.tdiv_eq_ediv h3.1 (by decide)]
  omega

/-- C23: for every four bytes read from the property, and for every `int`
whatever, the normalisation (remainder modulo 360, plus 360 when negative, then
truncation to a multiple of 90) gives 0, 90, 180 or 270; and it gives back each
of these four values unchanged. -/
theorem normalize_rotation_quarter_turns :
    (∀ b0 b1 b2 b3 : Nat,
      normalize_rotation (rotation_from_bytes b0 b1 b2 b3) = 0 ∨
        normalize_rotation (rotation_from_bytes b0 b1 b2 b3) = 90 ∨
        normalize_rotation (rotation_from_bytes b0 b1 b2 b3) = 180 ∨
        normalize_rotation (rotation_from_bytes b0 b1 b2 b3) = 270) ∧
      (∀ v : Int, normalize_rotation v = 0 ∨ normalize_rotation v = 90 ∨
        normalize_rotation v = 180 ∨ normalize_rotation v = 270) ∧
      normalize_rotation 0 = 0 ∧ normalize_rotation 90 = 90 ∧
      normalize_rotation 180 = 180 ∧ normalize_rotation 270 = 270 :=
  ⟨fun b0 b1 b2 b3 => normalize_rotation_range (rotation_from_bytes b0 b1 b2 b3),
    normalize_rotation_range, by decide, by decide, by decide, by decide⟩
/-! ## C24: the layout of the drawing in its target rectangle -/

/-- C24, as stated, fails in `float` arithmetic.  For a target rectangle of 23
by 23 pixels at the origin the scale is `9616847 / 2 ^ 29`, the product
`1284 * scale` is rounded to a value above 23, and the offset is `-1 / 2 ^ 20`:
the left edge of the image of the authoring square is outside the rectangle,
and the margin on the left is `-1 / 2 ^ 20` while the right edge is at 23 and
the margin on the right is 0. -/
theorem render_offset_outside :
    render_scale ⟨100, 100, 23, 23, 0, 0⟩ = Fp.fin 9616847 (-29) ∧
      render_offset_x ⟨100, 100, 23, 23, 0, 0⟩ = Fp.fin (-1) (-20) ∧
      F32.ofInt 0 * render_scale ⟨100, 100, 23, 23, 0, 0⟩ +
          render_offset_x ⟨100, 100, 23, 23, 0, 0⟩ = Fp.fin (-1) (-20) ∧
      Fp.lt (F32.ofInt 0 * render_scale ⟨100, 100, 23, 23, 0, 0⟩ +
          render_offset_x ⟨100, 100, 23, 23, 0, 0⟩) (F32.ofInt 0) = true ∧
      BASE_SVG_WIDTH * render_scale ⟨100, 100, 23, 23, 0, 0⟩ +
          render_offset_x ⟨100, 100, 23, 23, 0, 0⟩ = Fp.fin 23 0 := by
  decide

theorem scale_formula_min (w h : ℚ) :
    scale_formula (fun a b => decide (a < b)) w h 1284 1284 = min (w / 1284) (h / 1284) := by
  unfold scale_formula
  simp only
  by_cases hlt : w / 1284 < h / 1284
  · rw [if_pos (by simpa using hlt), min_eq_left hlt.le]
  · rw [if_neg (by simpa using hlt), min_eq_right (not_lt.mp hlt)]

/-- C24, amended: the scale is the smaller of the two quotients
`svg_width / 1284` and `svg_height / 1284` as they are rounded to `float`.  The
variables `scale`, `offset_x` and `offset_y` are given by formulas that, in
exact arithmetic, make the scale `min(svg_width / 1284, svg_height / 1284)`
and place the image of the authoring square inside the target rectangle, with
equal margins on the left and on the right and equal margins at the top and at
the bottom. -/
theorem render_layout_centred (di : DisplayInfo) :
    ((render_scale di = F32.ofInt di.svg_width / BASE_SVG_WIDTH ∨
        render_scale di = F32.ofInt di.svg_height / BASE_SVG_HEIGHT) ∧
      Fp.le (render_scale di) (F32.ofInt di.svg_width / BASE_SVG_WIDTH) = true ∧
      Fp.le (render_scale di) (F32.ofInt di.svg_height / BASE_SVG_HEIGHT) = true) ∧
      (render_scale di = scale_formula (K := F32) Fp.lt (F32.ofInt di.svg_width) (F32.ofInt di.svg_height)
          BASE_SVG_WIDTH BASE_SVG_HEIGHT ∧
        render_offset_x di = offset_formula (F32.ofInt di.x_offset) (F32.ofInt di.svg_width)
          BASE_SVG_WIDTH (render_scale di) ∧
        render_offset_y di = offset_formula (F32.ofInt di.y_offset) (F32.ofInt di.svg_height)
          BASE_SVG_HEIGHT (render_scale di)) ∧
      ∀ scale offset_x offset_y : ℚ,
        scale = scale_formula (fun a b => decide (a < b)) (di.svg_width : ℚ) (di.svg_height : ℚ)
          1284 1284 →
        offset_x = offset_formula (di.x_offset : ℚ) (di.svg_width : ℚ) 1284 scale →
        offset_y = offset_formula (di.y_offset : ℚ) (di.svg_height : ℚ) 1284 scale →
        scale = min ((di.svg_width : ℚ) / 1284) ((di.svg_height : ℚ) / 1284) ∧
          ((di.x_offset : ℚ) ≤ 0 * scale + offset_x ∧
            1284 * scale + offset_x ≤ (di.x_offset : ℚ) + (di.svg_width : ℚ) ∧
            (0 * scale + offset_x) - (di.x_offset : ℚ) =
              ((di.x_offset : ℚ) + (di.svg_width : ℚ)) - (1284 * scale + offset_x)) ∧
          ((di.y_offset : ℚ) ≤ 0 * scale + offset_y ∧
            1284 * scale + offset_y ≤ (di.y_offset : ℚ) + (di.svg_height : ℚ) ∧
            (0 * scale + offset_y) - (di.y_offset : ℚ) =
              ((di.y_offset : ℚ) + (di.svg_height : ℚ)) - (1284 * scale + offset_y)) := by
  have hb : BASE_SVG_WIDTH = Fp.fin 321 2 := by decide
  have hb2 : BASE_SVG_HEIGHT = Fp.fin 321 2 := by decide
  have hx : F32.ofInt di.svg_width / BASE_SVG_WIDTH ≠ Fp.nan := by
    rw [hb]
    exact div_base_ne_nan _ (ofInt_ne_nan _) 321 2 (by decide)
  have hy : F32.ofInt di.svg_height / BASE_SVG_HEIGHT ≠ Fp.nan := by
    rw [hb2]
    exact div_base_ne_nan _ (ofInt_ne_nan _) 321 2 (by decide)
  refine ⟨?_, ⟨rfl, rfl, rfl⟩, ?_⟩
  · cases hlt : Fp.lt (F32.ofInt di.svg_width / BASE_SVG_WIDTH)
        (F32.ofInt di.svg_height / BASE_SVG_HEIGHT) with
    | true =>
      have e : render_scale di = F32.ofInt di.svg_width / BASE_SVG_WIDTH := by
        unfold render_scale
        simp only [hlt, if_true]
      rw [e]
      exact ⟨Or.inl rfl, le_self _ hx, lt_le _ _ hlt⟩
    | false =>
      have e : render_scale di = F32.ofInt di.svg_height / BASE_SVG_HEIGHT := by
        unfold render_scale
        simp only [hlt, Bool.false_eq_true, if_false]
      rw [e]
      exact ⟨Or.inr rfl, lt_false_le _ _ hx hy hlt, le_self _ hy⟩
  · intro scale offset_x offset_y hs hox hoy
    rw [scale_formula_min] at hs
    have h1 : scale ≤ (di.svg_width : ℚ) / 1284 := hs ▸ min_le_left _ _
    have h2 : scale ≤ (di.svg_height : ℚ) / 1284 := hs ▸ min_le_right _ _
    have h3 : 1284 * scale ≤ (di.svg_width : ℚ) := by
      rw [le_div_iff₀ (by norm_num)] at h1
      linarith
    have h4 : 1284 * scale ≤ (di.svg_height : ℚ) := by
      rw [le_div_iff₀ (by norm_num)] at h2
      linarith
    unfold offset_formula at hox hoy
    refine ⟨hs, ⟨?_, ?_, ?_⟩, ⟨?_, ?_, ?_⟩⟩ <;> first | (rw [hox]; linarith) | (rw [hoy]; linarith)

theorem render_layout_centred_witness :
    scale_formula (fun a b => decide (a < b)) ((480 : Nat) : ℚ) ((186 : Nat) : ℚ) 1284 1284 =
        min (((480 : Nat) : ℚ) / 1284) (((186 : Nat) : ℚ) / 1284) ∧
      ((160 : Nat) : ℚ) ≤
        0 * scale_formula (fun a b => decide (a < b)) ((480 : Nat) : ℚ) ((186 : Nat) : ℚ)
            1284 1284 +
          offset_formula ((160 : Nat) : ℚ) ((480 : Nat) : ℚ) 1284
            (scale_formula (fun a b => decide (a < b)) ((480 : Nat) : ℚ) ((186 : Nat) : ℚ)
              1284 1284) :=
  have h := (render_layout_centred ⟨800, 600, 480, 186, 160, 207⟩).2.2 _ _ _ rfl rfl rfl
  ⟨h.1, h.2.1.1⟩
/-! ## C25: which spans of a row are filled -/

theorem span_mem_iff (c : Bool) (xs xe y : Int) (color : Nat) (w : PixelWrite) :
    w ∈ (if c = true then
      (int_range xs xe).map (fun x => (⟨x, y, color⟩ : PixelWrite)) else []) ↔
    c = true ∧ w.y = y ∧ w.color = color ∧ xs ≤ w.x ∧ w.x ≤ xe := by
  constructor
  · exact span_mem c xs xe y color w
  · rintro ⟨rfl, h1, h2, h3, h4⟩
    simp only [if_true, List.mem_map, mem_int_range]
    refine ⟨w.x, ⟨h3, h4⟩, ?_⟩
    cases w
    simp only at h1 h2
    rw [h1, h2]

theorem clip_iff (n : Nat) (hn : (n : Int) < 2 ^ 31) (a b v : Int) :
    ((if a < 0 then 0 else a) ≤ v ∧
      v ≤ (if to_int32 (n : Int) ≤ b then to_int32 ((n : Int) - 1) else b)) ↔
    (0 ≤ v ∧ a ≤ v ∧ v ≤ b ∧ v < (n : Int)) := by
  rw [to_int32_small (n : Int) (by omega) hn]
  by_cases h0 : n = 0
  · subst h0
    have e : to_int32 (((0 : Nat) : Int) - 1) = -1 := by decide
    rw [e]
    split_ifs <;> constructor <;> intro h <;> omega
  · rw [to_int32_small ((n : Int) - 1) (by omega) (by omega)]
    split_ifs <;> constructor <;> intro h <;> omega

theorem flag_main (h m B : Bool) :
    xor m (xor (!h) B) = xor (if h = true then m else !m) B := by
  cases h <;> cases m <;> cases B <;> rfl

theorem flag_hole (h k B : Bool) :
    xor k (xor h B) = xor (if h = true then !k else k) B := by
  cases h <;> cases k <;> cases B <;> rfl

theorem flag_span (h m k : Bool) :
    ((if h = true then m else !m) && !(if h = true then !k else k)) = true ↔
      (xor m (!h) = true ∧ xor k h = false) := by
  cases h <;> cases m <;> cases k <;> decide

theorem take_one_parity (p : Intersection → Bool) (a : Intersection) (t : List Intersection) :
    Nat.bodd ((List.take (0 + 1) (a :: t)).countP p) = p a := by
  simp only [zero_add, List.take_succ_cons, List.take_zero, bodd_countP_cons, List.countP_nil,
    Nat.bodd_zero, Bool.xor_false]

theorem take_succ_parity (p : Intersection → Bool) (a : Intersection) (t : List Intersection)
    (j : Nat) :
    Nat.bodd ((List.take (j + 1 + 1) (a :: t)).countP p) =
      xor (p a) (Nat.bodd ((List.take (j + 1) t).countP p)) := by
  rw [List.take_succ_cons, bodd_countP_cons]

theorem fill_loop_iff (fb : Framebuffer) (hx : fb.vinfo.xres < 2 ^ 31) (y : Int) (color : Nat)
    (l : List Intersection) : ∀ (m k : Bool) (w : PixelWrite),
    w ∈ fill_loop fb y color l m k ↔
      w.y = y ∧ w.color = color ∧
        ∃ (i : Nat) (a b : Intersection), l[i]? = some a ∧ l[i + 1]? = some b ∧
          xor m (Nat.bodd ((l.take (i + 1)).countP fun e => !e.is_hole_edge)) = true ∧
          xor k (Nat.bodd ((l.take (i + 1)).countP fun e => e.is_hole_edge)) = false ∧
          0 ≤ w.x ∧ a.x ≤ w.x ∧ w.x ≤ b.x ∧ w.x < (fb.vinfo.xres : Int) := by
  have hn : (fb.vinfo.xres : Int) < 2 ^ 31 := by exact_mod_cast hx
  induction l with
  | nil =>
    intro m k w
    simp [fill_loop]
  | cons a t ih =>
    intro m k w
    cases t with
    | nil =>
      simp [fill_loop]
    | cons b rest =>
      rw [fill_loop, List.mem_append, span_mem_iff, ih, clip_iff _ hn, flag_span]
      constructor
      · rintro (⟨hc, h1, h2, h3⟩ | ⟨h1, h2, i, p, q, hp, hq, hm, hk, h3⟩)
        · refine ⟨h1, h2, 0, a, b, rfl, ?_, ?_, ?_, h3⟩
          · simp only [zero_add, List.getElem?_cons_succ, List.getElem?_cons_zero]
          · rw [take_one_parity]
            exact hc.1
          · rw [take_one_parity]
            exact hc.2
        · refine ⟨h1, h2, i + 1, p, q, ?_, ?_, ?_, ?_, h3⟩
          · rw [List.getElem?_cons_succ]
            exact hp
          · rw [List.getElem?_cons_succ]
            exact hq
          · rw [take_succ_parity, flag_main]
            exact hm
          · rw [take_succ_parity, flag_hole]
            exact hk
      · rintro ⟨h1, h2, i, p, q, hp, hq, hm, hk, h3⟩
        cases i with
        | zero =>
          left
          simp only [List.getElem?_cons_zero, Option.some.injEq, zero_add,
            List.getElem?_cons_succ] at hp hq
          subst hp
          subst hq
          rw [take_one_parity] at hm hk
          exact ⟨⟨hm, hk⟩, h1, h2, h3⟩
        | succ j =>
          right
          rw [List.getElem?_cons_succ] at hp hq
          rw [take_succ_parity, flag_main] at hm
          rw [take_succ_parity, flag_hole] at hk
          exact ⟨h1, h2, j, p, q, hp, hq, hm, hk, h3⟩

theorem render_row_iff (pf : Platform) (fb : Framebuffer) (hx : fb.vinfo.xres < 2 ^ 31)
    (svg : SVGPath) (scale offset_x offset_y : F32) (y : Int)
    (he : pf.qsort [] = []) (w : PixelWrite) :
    w ∈ render_row pf fb svg scale offset_x offset_y y ↔
      w.y = y ∧ w.color = pack_color svg.fill_color ∧
        ∃ (i : Nat) (a b : Intersection),
          (pf.qsort (row_intersections pf svg scale offset_x offset_y y))[i]? = some a ∧
          (pf.qsort (row_intersections pf svg scale offset_x offset_y y))[i + 1]? = some b ∧
          ((pf.qsort (row_intersections pf svg scale offset_x offset_y y)).take (i + 1)).countP
            (fun e => !e.is_hole_edge) % 2 = 1 ∧
          ((pf.qsort (row_intersections pf svg scale offset_x offset_y y)).take (i + 1)).countP
            (fun e => e.is_hole_edge) % 2 = 0 ∧
          0 ≤ w.x ∧ a.x ≤ w.x ∧ w.x ≤ b.x ∧ w.x < (fb.vinfo.xres : Int) := by
  have hb : ∀ n : Nat, (xor false (Nat.bodd n) = true ↔ n % 2 = 1) ∧
      (xor false (Nat.bodd n) = false ↔ n % 2 = 0) := by
    intro n
    rw [Nat.mod_two_of_bodd]
    cases Nat.bodd n <;> simp
  unfold render_row
  simp only
  by_cases h0 : 0 < (row_intersections pf svg scale offset_x offset_y y).length
  · rw [if_pos h0, fill_loop_iff fb hx]
    simp only [(hb _).1, (hb _).2]
  · have hnil : row_intersections pf svg scale offset_x offset_y y = [] :=
      List.eq_nil_of_length_eq_zero (by omega)
    rw [if_neg h0, hnil, he]
    simp

/-- C25, as stated, fails on a surface of 2147483649 columns: the conversion
`(int)fb->vinfo.xres` gives -2147483647, so every `x_end` is replaced by
`xres - 1`, which as an `int` is -2147483648, and no span is filled.  The rows
0 and 1 of the square with corners `(0, 0)` and `(5, 2)` have the sorted
intersections 0 and 5, one non-hole intersection before the span, and nothing
is written. -/
theorem render_row_wide_surface :
    row_intersections stable_platform
        ⟨[polygon [(0, 0), (5, 0), (5, 2), (0, 2)] false], ⟨255, 85, 85, 255⟩⟩
        (render_scale unit_layout) (render_offset_x unit_layout) (render_offset_y unit_layout) 0 =
        [⟨5, false⟩, ⟨0, false⟩] ∧
      stable_platform.qsort [⟨5, false⟩, ⟨0, false⟩] = [⟨0, false⟩, ⟨5, false⟩] ∧
      scan_rows stable_platform ⟨[], ⟨2147483649, 4, 0, 0, 32⟩, ⟨0⟩, 0⟩
        ⟨[polygon [(0, 0), (5, 0), (5, 2), (0, 2)] false], ⟨255, 85, 85, 255⟩⟩ unit_layout =
        [0, 1, 2] ∧
      render_path_with_holes stable_platform ⟨[], ⟨2147483649, 4, 0, 0, 32⟩, ⟨0⟩, 0⟩
        ⟨[polygon [(0, 0), (5, 0), (5, 2), (0, 2)] false], ⟨255, 85, 85, 255⟩⟩ unit_layout =
        [] := by
  decide

/-- C25, amended: on a surface of fewer than `2 ^ 31` columns, with a `qsort`
that sorts, for every scan row `y` in which no difference of two abscissas
overflows an `int`: the array after the sort is the row's intersections in
ascending order of `x`, and a pixel of the row is written, with the colour of
the shape, exactly when it lies on the surface between two successive entries
`i` and `i + 1` of that array, ends included, such that among the entries
`0..i` the number of non-hole ones is odd and the number of hole ones is even.
No other pixel of the row is written, and outside the scan rows nothing is. -/
theorem render_row_fill_rule (pf : Platform) (hs : pf.sorts) (fb : Framebuffer)
    (hx : fb.vinfo.xres < 2 ^ 31) (svg : SVGPath) (di : DisplayInfo) (y : Int)
    (hov : ∀ a ∈ row_intersections pf svg (render_scale di) (render_offset_x di)
        (render_offset_y di) y,
      ∀ b ∈ row_intersections pf svg (render_scale di) (render_offset_x di)
        (render_offset_y di) y, -2 ^ 31 ≤ a.x - b.x ∧ a.x - b.x < 2 ^ 31) :
    ∃ l : List Intersection,
      l = pf.qsort (row_intersections pf svg (render_scale di) (render_offset_x di)
        (render_offset_y di) y) ∧
      List.Perm l (row_intersections pf svg (render_scale di) (render_offset_x di)
        (render_offset_y di) y) ∧
      List.Pairwise (fun a b => a.x ≤ b.x) l ∧
      ∀ w : PixelWrite, (w ∈ render_path_with_holes pf fb svg di ∧ w.y = y) ↔
        (y ∈ scan_rows pf fb svg di ∧ w.y = y ∧ w.color = pack_color svg.fill_color ∧
          ∃ (i : Nat) (a b : Intersection), l[i]? = some a ∧ l[i + 1]? = some b ∧
            ((l.take (i + 1)).countP fun e => !e.is_hole_edge) % 2 = 1 ∧
            ((l.take (i + 1)).countP fun e => e.is_hole_edge) % 2 = 0 ∧
            0 ≤ w.x ∧ a.x ≤ w.x ∧ w.x ≤ b.x ∧ w.x < (fb.vinfo.xres : Int)) := by
  have he : pf.qsort [] = [] := List.Perm.eq_nil (hs [] (by simp)).1
  refine ⟨_, rfl, (hs _ hov).1, (hs _ hov).2, ?_⟩
  intro w
  have hr : render_path_with_holes pf fb svg di =
      (scan_rows pf fb svg di).flatMap
        (render_row pf fb svg (render_scale di) (render_offset_x di) (render_offset_y di)) := rfl
  rw [hr, List.mem_flatMap]
  constructor
  · rintro ⟨⟨y1, hy1, hw⟩, hwy⟩
    have h1 := (render_row_iff pf fb hx svg _ _ _ y1 he w).1 hw
    have e : y1 = y := h1.1.symm.trans hwy
    subst e
    exact ⟨hy1, h1⟩
  · rintro ⟨hy, h1⟩
    exact ⟨⟨y, hy, (render_row_iff pf fb hx svg _ _ _ y he w).2 h1⟩, h1.1⟩

theorem render_row_fill_rule_witness :
    ∃ l : List Intersection,
      l = stable_platform.qsort (row_intersections stable_platform
        ⟨[polygon [(0, 0), (5, 0), (5, 2), (0, 2)] false], ⟨255, 85, 85, 255⟩⟩
        (render_scale unit_layout) (render_offset_x unit_layout) (render_offset_y unit_layout) 1) ∧
      List.Perm l (row_intersections stable_platform
        ⟨[polygon [(0, 0), (5, 0), (5, 2), (0, 2)] false], ⟨255, 85, 85, 255⟩⟩
        (render_scale unit_layout) (render_offset_x unit_layout) (render_offset_y unit_layout) 1) ∧
      List.Pairwise (fun a b => a.x ≤ b.x) l ∧
      ∀ w : PixelWrite,
        (w ∈ render_path_with_holes stable_platform (blank_surface 8 8)
          ⟨[polygon [(0, 0), (5, 0), (5, 2), (0, 2)] false], ⟨255, 85, 85, 255⟩⟩ unit_layout ∧
            w.y = 1) ↔
        ((1 : Int) ∈ scan_rows stable_platform (blank_surface 8 8)
            ⟨[polygon [(0, 0), (5, 0), (5, 2), (0, 2)] false], ⟨255, 85, 85, 255⟩⟩ unit_layout ∧
          w.y = 1 ∧ w.color = pack_color ⟨255, 85, 85, 255⟩ ∧
          ∃ (i : Nat) (a b : Intersection), l[i]? = some a ∧ l[i + 1]? = some b ∧
            ((l.take (i + 1)).countP fun e => !e.is_hole_edge) % 2 = 1 ∧
            ((l.take (i + 1)).countP fun e => e.is_hole_edge) % 2 = 0 ∧
            0 ≤ w.x ∧ a.x ≤ w.x ∧ w.x ≤ b.x ∧
            w.x < (((blank_surface 8 8).vinfo.xres : Nat) : Int)) :=
  render_row_fill_rule stable_platform stable_platform_sorts (blank_surface 8 8) (by decide)
    ⟨[polygon [(0, 0), (5, 0), (5, 2), (0, 2)] false], ⟨255, 85, 85, 255⟩⟩ unit_layout 1
    (by decide)
/-! ## C26: the number of crossings of a row with a polygon -/

theorem edges_zip (p0 : Point) (t : List Point) :
    edges (p0 :: t) = List.zip (p0 :: t) (t ++ [p0]) := by
  unfold edges
  apply List.ext_getElem
  · simp
  · intro j h1 h2
    have hj : j < t.length + 1 := by simpa using h1
    rw [List.getElem_map, List.getElem_range, List.getElem_zip]
    have e1 : (p0 :: t).getD j ⟨0, 0⟩ = (p0 :: t)[j] := by
      rw [List.getD_eq_getElem?_getD, List.getElem?_eq_getElem (by simpa using hj)]
      rfl
    have hb : j < (t ++ [p0]).length := by simpa using hj
    have e2 : (p0 :: t).getD ((j + 1) % (p0 :: t).length) ⟨0, 0⟩ = (t ++ [p0])[j] := by
      have hl : (p0 :: t).length = t.length + 1 := rfl
      rw [hl]
      by_cases hlast : j + 1 < t.length + 1
      · rw [Nat.mod_eq_of_lt hlast, List.getD_eq_getElem?_getD, List.getElem?_cons_succ,
          List.getElem?_eq_getElem (by omega), List.getElem_append_left (by omega)]
        rfl
      · have hj3 : j = t.length := by omega
        subst hj3
        rw [Nat.mod_self, List.getElem_append_right (by omega)]
        simp
    rw [e1, e2]

theorem lt_eq_not_le (a b : Fp) (ha : a ≠ Fp.nan) (hb : b ≠ Fp.nan) :
    Fp.lt b a = !Fp.le a b := by
  cases a with
  | nan => exact absurd rfl ha
  | inf s =>
    cases b with
    | nan => exact absurd rfl hb
    | inf s2 => cases s <;> cases s2 <;> rfl
    | fin m e => cases s <;> rfl
  | fin m1 e1 =>
    cases b with
    | nan => exact absurd rfl hb
    | inf s2 => cases s2 <;> rfl
    | fin m2 e2 =>
      simp only [Fp.lt, Fp.le, min_comm e2 e1]
      by_cases h : m1 * 2 ^ (e1 - min e1 e2).toNat ≤ m2 * 2 ^ (e2 - min e1 e2).toNat
      · rw [decide_eq_true h, decide_eq_false (by omega)]
        rfl
      · rw [decide_eq_false h, decide_eq_true (by omega)]
        rfl

theorem straddles_xor (y1 y2 y : F32) (h1 : y1 ≠ Fp.nan) (h2 : y2 ≠ Fp.nan)
    (hy : y ≠ Fp.nan) : straddles y1 y2 y = xor (Fp.le y1 y) (Fp.le y2 y) := by
  unfold straddles
  rw [lt_eq_not_le y2 y h2 hy, lt_eq_not_le y1 y h1 hy]
  cases Fp.le y1 y <;> cases Fp.le y2 y <;> rfl

theorem crossings_parity (scale offset_y : F32) (y : Int) (points : List Point)
    (hn : ∀ p ∈ points, p.y * scale + offset_y ≠ Fp.nan) :
    Nat.bodd (crossings scale offset_y y points) = false := by
  cases points with
  | nil => rfl
  | cons p0 t =>
    unfold crossings
    rw [edges_zip]
    have hc : (List.zip (p0 :: t) (t ++ [p0])).countP (fun e =>
          straddles (e.1.y * scale + offset_y) (e.2.y * scale + offset_y) (F32.ofInt y)) =
        (List.zip (p0 :: t) (t ++ [p0])).countP (fun e =>
          xor ((fun p : Point => Fp.le (p.y * scale + offset_y) (F32.ofInt y)) e.1)
            ((fun p : Point => Fp.le (p.y * scale + offset_y) (F32.ofInt y)) e.2)) := by
      apply List.countP_congr
      intro e he
      have h1 : e.1 ∈ p0 :: t := (List.of_mem_zip (a := e.1) (b := e.2) he).1
      have h2 : e.2 ∈ p0 :: t := by
        have := (List.of_mem_zip (a := e.1) (b := e.2) he).2
        rcases List.mem_append.1 this with h | h
        · exact List.mem_cons_of_mem _ h
        · rw [List.mem_singleton.1 h]
          exact List.mem_cons_self _ _
      simp only [straddles_xor _ _ _ (hn _ h1) (hn _ h2) (ofInt_ne_nan y)]
    rw [hc]
    have hp := chain_parity (fun p : Point => Fp.le (p.y * scale + offset_y) (F32.ofInt y))
      t p0 p0
    rw [hp]
    cases Fp.le (p0.y * scale + offset_y) (F32.ofInt y) <;> rfl

theorem scan_edge_length_le (pf : Platform) (scale offset_x offset_y : F32) (y : Int)
    (is_hole : Bool) (acc : List Intersection) (e : Point × Point) :
    acc.length ≤ (scan_edge pf scale offset_x offset_y y is_hole acc e).length := by
  unfold scan_edge
  simp only
  split_ifs <;> simp

theorem scan_fold_length_le (pf : Platform) (scale offset_x offset_y : F32) (y : Int)
    (is_hole : Bool) (es : List (Point × Point)) : ∀ acc : List Intersection,
    acc.length ≤ (es.foldl (scan_edge pf scale offset_x offset_y y is_hole) acc).length := by
  induction es with
  | nil => intro acc; exact Nat.le_refl _
  | cons e es ih =>
    intro acc
    rw [List.foldl_cons]
    exact Nat.le_trans (scan_edge_length_le pf scale offset_x offset_y y is_hole acc e) (ih _)

theorem row_fold_length_le (pf : Platform) (scale offset_x offset_y : F32) (y : Int)
    (paths : List Path) : ∀ acc : List Intersection,
    acc.length ≤ (paths.foldl (fun acc path =>
      (edges path.points).foldl (scan_edge pf scale offset_x offset_y y path.is_hole) acc)
      acc).length := by
  induction paths with
  | nil => intro acc; exact Nat.le_refl _
  | cons p ps ih =>
    intro acc
    rw [List.foldl_cons]
    exact Nat.le_trans (scan_fold_length_le pf scale offset_x offset_y y p.is_hole _ acc) (ih _)

theorem scan_fold_count (pf : Platform) (scale offset_x offset_y : F32) (y : Int)
    (is_hole : Bool) (p : Intersection → Bool) (q : Bool → Bool)
    (hp : ∀ e, p e = q e.is_hole_edge) (es : List (Point × Point)) :
    ∀ acc : List Intersection,
    (es.foldl (scan_edge pf scale offset_x offset_y y is_hole) acc).length < MAX_INTERSECTIONS →
    (es.foldl (scan_edge pf scale offset_x offset_y y is_hole) acc).countP p =
      acc.countP p + (if q is_hole = true then
        es.countP (fun e =>
          straddles (e.1.y * scale + offset_y) (e.2.y * scale + offset_y) (F32.ofInt y))
        else 0) := by
  induction es with
  | nil =>
    intro acc _
    simp
  | cons e es ih =>
    intro acc hlen
    rw [List.foldl_cons] at hlen ⊢
    rw [ih _ hlen]
    have hacc : acc.length < MAX_INTERSECTIONS := by
      have h1 := scan_edge_length_le pf scale offset_x offset_y y is_hole acc e
      have h2 := scan_fold_length_le pf scale offset_x offset_y y is_hole es
        (scan_edge pf scale offset_x offset_y y is_hole acc e)
      omega
    unfold scan_edge
    simp only [List.countP_cons]
    cases hst : straddles (e.1.y * scale + offset_y) (e.2.y * scale + offset_y) (F32.ofInt y) with
    | false =>
      simp only [Bool.false_eq_true, if_false, add_zero]
    | true =>
      simp only [if_true, if_pos hacc, List.countP_append, List.countP_cons, List.countP_nil, hp]
      cases q is_hole
      · simp
      · simp
        omega

theorem row_fold_parity (pf : Platform) (scale offset_x offset_y : F32) (y : Int)
    (p : Intersection → Bool) (q : Bool → Bool) (hp : ∀ e, p e = q e.is_hole_edge)
    (paths : List Path)
    (hn : ∀ path ∈ paths, ∀ v ∈ path.points, v.y * scale + offset_y ≠ Fp.nan) :
    ∀ acc : List Intersection,
    (paths.foldl (fun acc path =>
      (edges path.points).foldl (scan_edge pf scale offset_x offset_y y path.is_hole) acc)
      acc).length < MAX_INTERSECTIONS →
    Nat.bodd ((paths.foldl (fun acc path =>
      (edges path.points).foldl (scan_edge pf scale offset_x offset_y y path.is_hole) acc)
      acc).countP p) = Nat.bodd (acc.countP p) := by
  induction paths with
  | nil => intro acc _; rfl
  | cons path ps ih =>
    intro acc hlen
    rw [List.foldl_cons] at hlen ⊢
    rw [ih (fun a ha => hn a (List.mem_cons_of_mem _ ha)) _ hlen]
    have hl := row_fold_length_le pf scale offset_x offset_y y ps
      ((edges path.points).foldl (scan_edge pf scale offset_x offset_y y path.is_hole) acc)
    rw [scan_fold_count pf scale offset_x offset_y y path.is_hole p q hp _ acc (by omega),
      Nat.bodd_add]
    have hc := crossings_parity scale offset_y y path.points (hn path (List.mem_cons_self _ _))
    unfold crossings at hc
    cases q path.is_hole
    · simp
    · simp only [if_true, hc, Bool.xor_false]

/-- C26, as stated, fails for a polygon with a NaN height, every comparison
with a NaN being false.  Of the three edges of the polygon `(0, 0)`,
`(0, NaN)`, `(0, 10)` only the closing edge passes the test against the row 5,
and the row has one intersection.  Such a polygon is reached from a path text:
the path `M 600 600 L 700 1e39 L 700 700`, whose second height is read as an
infinity, rotated by 90 degrees has one crossing with the row 650. -/
theorem crossings_odd :
    crossings (render_scale unit_layout) (render_offset_y unit_layout) 5
        [⟨F32.ofInt 0, F32.ofInt 0⟩, ⟨F32.ofInt 0, Fp.nan⟩, ⟨F32.ofInt 0, F32.ofInt 10⟩] = 1 ∧
      row_intersections stable_platform
        ⟨[⟨[⟨F32.ofInt 0, F32.ofInt 0⟩, ⟨F32.ofInt 0, Fp.nan⟩, ⟨F32.ofInt 0, F32.ofInt 10⟩],
          false⟩], ⟨1, 2, 3, 255⟩⟩
        (render_scale unit_layout) (render_offset_x unit_layout) (render_offset_y unit_layout) 5 =
        [⟨0, false⟩] ∧
      ((parse_svg_path 100 Globals.initial "M 600 600 L 700 1e39 L 700 700".toList
          "rgb(1,2,3)".toList).bind fun r =>
        (rotate_svg_path r.1 90).map fun s =>
          (s.paths.map fun p =>
            (p.points, crossings (render_scale unit_layout) (render_offset_y unit_layout) 650
              p.points),
            row_intersections stable_platform s (render_scale unit_layout)
              (render_offset_x unit_layout) (render_offset_y unit_layout) 650)) =
        .ok ([([⟨F32.ofInt 684, F32.ofInt 600⟩, ⟨Fp.inf true, Fp.nan⟩,
            ⟨F32.ofInt 584, F32.ofInt 700⟩], 1)], [⟨634, false⟩]) := by
  decide

/-- C26, amended: for every polygon none of whose transformed heights is a
NaN, and every scan row `y`, the number of its edges, the closing edge
included, that pass the straddle test is even; hence, in a shape whose
polygons are such, a row's array of intersections that holds fewer than 1000
entries contains an even number of non-hole entries and an even number of hole
entries.  A polygon with fewer than 2 points, whatever its coordinates, has no
crossing and adds no intersection. -/
theorem crossings_even (pf : Platform) (svg : SVGPath) (scale offset_x offset_y : F32) (y : Int)
    (hn : ∀ path ∈ svg.paths, ∀ v ∈ path.points, v.y * scale + offset_y ≠ Fp.nan) :
    (∀ path ∈ svg.paths, crossings scale offset_y y path.points % 2 = 0) ∧
      ((row_intersections pf svg scale offset_x offset_y y).length < MAX_INTERSECTIONS →
        ((row_intersections pf svg scale offset_x offset_y y).countP
            fun e => !e.is_hole_edge) % 2 = 0 ∧
          ((row_intersections pf svg scale offset_x offset_y y).countP
            fun e => e.is_hole_edge) % 2 = 0) ∧
      ∀ (points : List Point) (is_hole : Bool) (acc : List Intersection), points.length < 2 →
        crossings scale offset_y y points = 0 ∧
          (edges points).foldl (scan_edge pf scale offset_x offset_y y is_hole) acc = acc := by
  refine ⟨?_, ?_, ?_⟩
  · intro path hpath
    exact (bodd_false_iff _).1 (crossings_parity scale offset_y y path.points (hn path hpath))
  · intro hlen
    unfold row_intersections at hlen ⊢
    constructor
    · apply (bodd_false_iff _).1
      rw [row_fold_parity pf scale offset_x offset_y y (fun e => !e.is_hole_edge) (fun b => !b)
        (fun _ => rfl) svg.paths hn [] hlen]
      rfl
    · apply (bodd_false_iff _).1
      rw [row_fold_parity pf scale offset_x offset_y y (fun e => e.is_hole_edge) (fun b => b)
        (fun _ => rfl) svg.paths hn [] hlen]
      rfl
  · intro points is_hole acc hlen
    cases points with
    | nil => exact ⟨rfl, rfl⟩
    | cons p t =>
      cases t with
      | nil =>
        have he : edges [p] = [(p, p)] := by
          simp [edges, List.range_succ]
        unfold crossings
        rw [he]
        simp only [List.countP_cons, List.countP_nil, straddles_self, List.foldl_cons,
          List.foldl_nil, scan_edge_degenerate]
        simp
      | cons p1 t1 =>
        simp only [List.length_cons] at hlen
        omega

theorem crossings_even_witness :
    crossings (render_scale unit_layout) (render_offset_y unit_layout) 1
        (polygon [(0, 0), (5, 0), (5, 2), (0, 2)] false).points % 2 = 0 ∧
      ((row_intersections stable_platform
          ⟨[polygon [(0, 0), (5, 0), (5, 2), (0, 2)] false], ⟨255, 85, 85, 255⟩⟩
          (render_scale unit_layout) (render_offset_x unit_layout) (render_offset_y unit_layout)
          1).countP fun e => !e.is_hole_edge) % 2 = 0 :=
  have h := crossings_even stable_platform
    ⟨[polygon [(0, 0), (5, 0), (5, 2), (0, 2)] false], ⟨255, 85, 85, 255⟩⟩
    (render_scale unit_layout) (render_offset_x unit_layout) (render_offset_y unit_layout) 1
    (by decide)
  ⟨h.1 _ (List.mem_singleton.2 rfl), (h.2.1 (by decide)).1⟩
/-! ## C27: what a call of the parser leaves behind -/

theorem loop_body_moveto_first (fuel : Nat) (g1 g2 : Globals) (c : Char) (rest : List Char)
    (hc : c = 'M' ∨ isalpha c = false) :
    loop_body fuel (initial_state g1 (c :: rest)) =
      loop_body fuel (initial_state g2 (c :: rest)) := by
  rcases hc with rfl | hc
  · have ha : isalpha 'M' = true := by decide
    simp [loop_body, ha, take_letter, process_command, initial_state, PState.add_point,
      PState.cur]
  · simp [loop_body, hc, process_command, initial_state, PState.add_point, PState.cur]

theorem parse_svg_path_moveto_first (fuel : Nat) (g1 g2 : Globals) (c : Char)
    (rest style : List Char) (hc : c = 'M' ∨ isalpha c = false) :
    parse_svg_path fuel g1 (c :: rest) style = parse_svg_path fuel g2 (c :: rest) style := by
  unfold parse_svg_path run_from
  cases fuel with
  | zero => rfl
  | succ n =>
    have h1 : ∀ g : Globals, parse_loop (n + 1) (initial_state g (c :: rest)) =
        match loop_body n (initial_state g (c :: rest)) with
        | .error e => .error e
        | .ok s1 => parse_loop n s1 := by
      intro g
      rw [parse_loop]
      rw [if_neg (by simp [initial_state])]
    rw [h1 g1, h1 g2, loop_body_moveto_first n g1 g2 c rest hc]

theorem parse_svg_path_empty (fuel : Nat) (g1 g2 : Globals) (style : List Char) :
    (parse_svg_path fuel g1 [] style).map Prod.fst =
      (parse_svg_path fuel g2 [] style).map Prod.fst := by
  cases fuel <;> rfl

/-- C27 fails: the two file-scope points keep their values from one call of
`parse_svg_path` to the next.  After the path `M 3 4` has been parsed, the path
`H 5` gives the point `(5, 4)` and the path `L 1 1 Z` the points `(1, 1)` and
`(3, 4)`; parsed first in a run, they give `(5, 0)`, and `(1, 1)` and
`(0, 0)`. -/
theorem parse_svg_path_carries_state :
    ((parse_svg_path 100 Globals.initial "M 3 4".toList "rgb(1,2,3)".toList).bind fun r =>
        (parse_svg_path 100 r.2 "H 5".toList "rgb(1,2,3)".toList).map Prod.fst) =
        .ok ⟨[⟨[⟨F32.ofInt 5, F32.ofInt 4⟩], false⟩], ⟨1, 2, 3, 255⟩⟩ ∧
      (parse_svg_path 100 Globals.initial "H 5".toList "rgb(1,2,3)".toList).map Prod.fst =
        .ok ⟨[⟨[⟨F32.ofInt 5, F32.ofInt 0⟩], false⟩], ⟨1, 2, 3, 255⟩⟩ ∧
      ((parse_svg_path 100 Globals.initial "M 3 4".toList "rgb(1,2,3)".toList).bind fun r =>
        (parse_svg_path 100 r.2 "L 1 1 Z".toList "rgb(1,2,3)".toList).map Prod.fst) =
        .ok ⟨[⟨[⟨F32.ofInt 1, F32.ofInt 1⟩, ⟨F32.ofInt 3, F32.ofInt 4⟩], false⟩],
          ⟨1, 2, 3, 255⟩⟩ ∧
      (parse_svg_path 100 Globals.initial "L 1 1 Z".toList "rgb(1,2,3)".toList).map Prod.fst =
        .ok ⟨[⟨[⟨F32.ofInt 1, F32.ofInt 1⟩, ⟨F32.ofInt 0, F32.ofInt 0⟩], false⟩],
          ⟨1, 2, 3, 255⟩⟩ := by
  decide

end MessSplash
